import Mathlib

/-!
# rpc-demo: a verification development

A shallow embedding of the RPC runtime (packages `codec`, `option`, `client`,
`server`, `service`) and theorems about it.

Conventions of the embedding.

* Go `error` values are modelled by their message (`Error := String`); a nil
  error is `none` / `Except.ok`.
* `uint64` fields are natural numbers kept below `2 ^ 64`; every increment is
  written with an explicit `% 2 ^ 64`.
* Go maps are association lists with at most one entry per key.
* Pointers to `Call` objects are indices into a heap of calls.
* A run-time panic is the `Except.error` side of `Except Panic _`.
-/

set_option autoImplicit false

namespace Rpc

/-- Go `error`, represented by its message. -/
abbrev Error := String

/-- A run-time panic, represented by its message. -/
abbrev Panic := String

/-- Modulus of `uint64` arithmetic. -/
def u64 : Nat := 2 ^ 64

/-! ## Go values -/

mutual
/-- Go values as far as the runtime handles them. `nilV` is the nil pointer,
nil map, nil slice or nil interface; `mapV` and `sliceV` are non-nil containers;
`structV` is a struct or an array, given by its fields or elements in order. -/
inductive Value where
  | int (n : Int)
  | str (s : String)
  | bool (b : Bool)
  | nilV
  | ptr (target : Value)
  | sliceV (elems : Values)
  | mapV (keys : Values) (vals : Values)
  | structV (fields : Values)
deriving DecidableEq, Repr
/-- Finite sequences of values. -/
inductive Values where
  | nil
  | cons (v : Value) (vs : Values)
deriving DecidableEq, Repr
end

/-! ## Go maps keyed by `uint64` or `string` -/

/-- The map `m` without key `k` (Go `delete(m, k)`). -/
def mapDelete {κ β : Type} [DecidableEq κ] (m : List (κ × β)) (k : κ) : List (κ × β) :=
  m.filter (fun p => decide (p.1 ≠ k))

/-- The map `m` with `k` bound to `v` (Go `m[k] = v`): an earlier binding of `k` is replaced. -/
def mapInsert {κ β : Type} [DecidableEq κ] (m : List (κ × β)) (k : κ) (v : β) : List (κ × β) :=
  (k, v) :: mapDelete m k

/-- Go `m[k]`, `none` standing for the zero value (nil pointer) of an absent key. -/
def mapLookup {κ β : Type} [DecidableEq κ] (m : List (κ × β)) (k : κ) : Option β :=
  match m with
  | [] => none
  | p :: rest => if p.1 = k then some p.2 else mapLookup rest k

/-! ## package codec -/

namespace codec

/-- Go `codec.Header`. -/
structure Header where
  ServiceMethod : String
  Seq : Nat
  Err : String
deriving DecidableEq, Repr

def GobType : String := "GobType"

def JsonType : String := "JsonType"

end codec

/-! ## package option -/

namespace option

/-- The constant `option.MagicNumber`. -/
def MagicNumber : Nat := 0x123456

/-- The struct `option.Option`; the two durations are in nanoseconds. -/
structure Option where
  MagicNumber : Nat
  CodecType : String
  ConnectTimeOut : Int
  HandleTimeOut : Int
deriving DecidableEq, Repr

/-- The variable `option.DefaultOption`. -/
def DefaultOption : Option :=
  { MagicNumber := MagicNumber, CodecType := codec.GobType, ConnectTimeOut := 0,
    HandleTimeOut := 0 }

end option

/-! ## package reflect, as far as package service uses it -/

namespace reflect

/-- Go `reflect.Kind`, for the kinds of the types modelled here. -/
inductive Kind where
  | Bool | Int | String | Interface | Ptr | Slice | Map | Array | Chan | Struct
deriving DecidableEq, Repr

mutual
/-- The structure of a type below its name. -/
inductive Shape where
  | bool
  | int
  | string
  | iface
  | ptr (elem : RType)
  | slice (elem : RType)
  | map (key : RType) (elem : RType)
  | array (len : Nat) (elem : RType)
  | chan (elem : RType)
  | struct (fields : RTypes)
deriving DecidableEq, Repr
/-- A type as `reflect.Type` describes it: `Name()` and `PkgPath()` (both empty
for an unnamed type such as `*int`, `PkgPath()` empty for a predeclared type)
and its structure. Two types are identical when these agree. -/
inductive RType where
  | mk (Name : String) (PkgPath : String) (shape : Shape)
deriving DecidableEq, Repr
/-- Finite sequences of types. -/
inductive RTypes where
  | nil
  | cons (t : RType) (ts : RTypes)
deriving DecidableEq, Repr
end

/-- Go `Type.Name`. -/
def RType.Name : RType → String
  | RType.mk n _ _ => n

/-- Go `Type.PkgPath`. -/
def RType.PkgPath : RType → String
  | RType.mk _ p _ => p

/-- The structure of the type. -/
def RType.shape : RType → Shape
  | RType.mk _ _ sh => sh

/-- Go `Type.Kind`. -/
def RType.Kind (t : RType) : Kind :=
  match t.shape with
  | Shape.bool => Kind.Bool
  | Shape.int => Kind.Int
  | Shape.string => Kind.String
  | Shape.iface => Kind.Interface
  | Shape.ptr _ => Kind.Ptr
  | Shape.slice _ => Kind.Slice
  | Shape.map _ _ => Kind.Map
  | Shape.array _ _ => Kind.Array
  | Shape.chan _ => Kind.Chan
  | Shape.struct _ => Kind.Struct

/-- Go `Type.Elem`: the element type of an array, chan, map, pointer or slice type;
it panics for a type of any other kind. -/
def RType.Elem (t : RType) : Except Panic RType :=
  match t.shape with
  | Shape.ptr e => Except.ok e
  | Shape.slice e => Except.ok e
  | Shape.map _ e => Except.ok e
  | Shape.array _ e => Except.ok e
  | Shape.chan e => Except.ok e
  | _ => Except.error ("reflect: Elem of invalid type " ++ t.Name)

/-- The sequence of `n` copies of `v`. -/
def replicateValues : Nat → Value → Values
  | 0, _ => Values.nil
  | n + 1, v => Values.cons v (replicateValues n v)

mutual
/-- The zero value of a type of the given structure. -/
def Shape.zero : Shape → Value
  | Shape.bool => Value.bool false
  | Shape.int => Value.int 0
  | Shape.string => Value.str ""
  | Shape.iface => Value.nilV
  | Shape.ptr _ => Value.nilV
  | Shape.slice _ => Value.nilV
  | Shape.map _ _ => Value.nilV
  | Shape.array n e => Value.structV (replicateValues n (RType.zero e))
  | Shape.chan _ => Value.nilV
  | Shape.struct fs => Value.structV (RTypes.zero fs)
/-- The zero value of a type. -/
def RType.zero : RType → Value
  | RType.mk _ _ sh => Shape.zero sh
/-- The zero values of a sequence of types. -/
def RTypes.zero : RTypes → Values
  | RTypes.nil => Values.nil
  | RTypes.cons t ts => Values.cons (RType.zero t) (RTypes.zero ts)
end

/-- The predeclared type `int`. -/
def intType : RType := RType.mk "int" "" Shape.int

/-- The predeclared interface type `error`, `reflect.TypeOf((*error)(nil)).Elem()`. -/
def errorType : RType := RType.mk "error" "" Shape.iface

/-- The unnamed pointer type `*t`. -/
def PtrTo (t : RType) : RType := RType.mk "" "" (Shape.ptr t)

/-- A `reflect.Value`: a Go value with its type. -/
structure RValue where
  typ : RType
  val : Value
deriving DecidableEq, Repr

/-- Go `reflect.New(t)`: a non-nil pointer to a fresh zero value of `t`. -/
def New (t : RType) : RValue :=
  { typ := PtrTo t, val := Value.ptr t.zero }

/-- Go `reflect.MakeMap(t)`: a new empty map. -/
def MakeMap (t : RType) : RValue :=
  { typ := t, val := Value.mapV Values.nil Values.nil }

/-- Go `reflect.MakeSlice(t, 0, 0)`: a new empty slice. -/
def MakeSlice (t : RType) : RValue :=
  { typ := t, val := Value.sliceV Values.nil }

/-- The expression `reflect.New(t).Elem()`: the fresh zero variable of type `t` itself. -/
def NewElem (t : RType) : RValue :=
  { typ := t, val := t.zero }

/-- The call `p.Elem().Set(x)` on a non-nil pointer `p`: the variable `p` points to receives `x`. -/
def RValue.setElem (p : RValue) (x : RValue) : RValue :=
  match p.val with
  | Value.ptr _ => { p with val := Value.ptr x.val }
  | _ => p

/-- What a call of a Go function leaves behind: its arguments as they are after
the call (a pointer argument may point to a new content) and its result of type `error`. -/
structure FuncEffect where
  ins : List Value
  err : Option Error

/-- A `reflect.Method` of a method set: its name, the parameter types of its
function type with the receiver first (`Type.In`), its result types
(`Type.Out`), and `Func`, called with the list of arguments. -/
structure Method where
  Name : String
  In : List RType
  Out : List RType
  Func : List Value → FuncEffect

/-- The dynamic type of a value handed over as `interface{}`: the type and its
method set, in the order of `Type.Method`, unexported methods included. -/
structure TypeInfo where
  typ : RType
  methods : List Method

end reflect

/-! ## package service -/

namespace service

open reflect

set_option linter.dupNamespace false in
/-- Go `service.Method`. -/
structure Method where
  Method : reflect.Method
  Args : RType
  Reply : RType
  CallNum : Nat

/-- Go `service.Service`; `Methods` maps a method name to its `Method`. The field
`Typ` is the field `Type` of the source. -/
structure Service where
  Name : String
  Typ : TypeInfo
  Value : Value
  Methods : List (String × Method)

/-- Go `Method.CallNums`. -/
def Method.CallNums (m : service.Method) : Nat := m.CallNum

/-- Go `Method.NewArgs`. -/
def Method.NewArgs (m : service.Method) : Except Panic RValue :=
  if m.Args.Kind = Kind.Ptr then
    match m.Args.Elem with
    | Except.ok e => Except.ok (New e)
    | Except.error p => Except.error p
  else
    Except.ok (NewElem m.Args)

/-- Go `Method.NewReply`. -/
def Method.NewReply (m : service.Method) : Except Panic RValue :=
  match m.Reply.Elem with
  | Except.error p => Except.error p
  | Except.ok e =>
    let replyv := New e
    match e.Kind with
    | Kind.Map => Except.ok (replyv.setElem (MakeMap e))
    | Kind.Slice => Except.ok (replyv.setElem (MakeSlice e))
    | _ => Except.ok replyv

/-- Go `ast.IsExported(name)`: whether the first rune of `name` is an upper-case
letter; `IsUpper` is `unicode.IsUpper`. -/
def IsExported (IsUpper : Char → Bool) (name : String) : Bool :=
  match name.data with
  | [] => false
  | ch :: _ => IsUpper ch

/-- The function `isExportedOrBuiltinType`. -/
def isExportedOrBuiltinType (IsUpper : Char → Bool) (t : RType) : Bool :=
  IsExported IsUpper t.Name || t.PkgPath == ""

/-- The methods `Type.Method(0)`, ..., `Type.Method(NumMethod()-1)`: for a
type that is not an interface type these are the exported methods of the method set. -/
def exportedMethods (IsUpper : Char → Bool) (t : TypeInfo) : List reflect.Method :=
  t.methods.filter (fun m => IsExported IsUpper m.Name)

/-- The body of the loop of `Service.registerMethod` for one `method`, on the table built so far. -/
def registerOne (IsUpper : Char → Bool) (methods : List (String × Method))
    (method : reflect.Method) : List (String × Method) :=
  if method.Out.length ≠ 1 || method.In.length ≠ 3 then methods
  else
    match method.Out[0]?, method.In[1]?, method.In[2]? with
    | some out0, some in1, some in2 =>
      if out0 ≠ errorType then methods
      else if !isExportedOrBuiltinType IsUpper in1 || !isExportedOrBuiltinType IsUpper in2 then
        methods
      else
        mapInsert methods method.Name { Method := method, Args := in1, Reply := in2, CallNum := 0 }
    | _, _, _ => methods

/-- Go `Service.registerMethod`. -/
def registerMethod (IsUpper : Char → Bool) (s : Service) : Service :=
  { s with Methods := (exportedMethods IsUpper s.Typ).foldl (registerOne IsUpper) [] }

/-- Go `NewService(val)`; `val` is the non-nil interface value holding `value` of
dynamic type `t`. `reflect.TypeOf(val).Elem()` panics when that type has no element type. -/
def NewService (IsUpper : Char → Bool) (t : TypeInfo) (value : Value) : Except Panic Service :=
  match t.typ.Elem with
  | Except.error p => Except.error p
  | Except.ok e =>
    Except.ok (registerMethod IsUpper { Name := e.Name, Typ := t, Value := value, Methods := [] })

/-- What `Service.Call` leaves behind: the service, the argument lists with
which it called an underlying function, the holders as they are afterwards, and
either the returned error or a panic. -/
structure CallOutcome where
  s : Service
  invoked : List (List Value)
  args : Value
  reply : Value
  result : Except Panic (Option Error)

/-- Go `Service.Call`. The lookup `s.Methods[name]` gives nil for an absent name,
and `&m.CallNum` on the nil `m` panics. `f.Call` is the application of `Func`;
the holders are taken to have the types of the method. -/
def Service.Call (s : Service) (name : String) (args reply : Rpc.Value) : CallOutcome :=
  match mapLookup s.Methods name with
  | none =>
    { s := s, invoked := [], args := args, reply := reply,
      result := Except.error "runtime error: invalid memory address or nil pointer dereference" }
  | some m =>
    let s1 := { s with
      Methods := s.Methods.map
        (fun (kv : String × service.Method) =>
          if kv.1 = name then (kv.1, { kv.2 with CallNum := (kv.2.CallNum + 1) % u64 })
          else kv) }
    let out := m.Method.Func [s.Value, args, reply]
    { s := { s1 with Value := (out.ins[0]?).getD s.Value },
      invoked := [[s.Value, args, reply]],
      args := (out.ins[1]?).getD args,
      reply := (out.ins[2]?).getD reply,
      result := Except.ok out.err }

end service

/-! ## The service `Foo` of `service_test.go` -/

namespace service

open reflect

/-- The type `Foo` (`type Foo int`). -/
def FooType : RType := RType.mk "Foo" "rpc/service" Shape.int

/-- The type `Args` (`type Args struct{ Num1, Num2 int }`). -/
def ArgsType : RType :=
  RType.mk "Args" "rpc/service" (Shape.struct (RTypes.cons intType (RTypes.cons intType RTypes.nil)))

/-- The value `Args{Num1: a, Num2: b}`. -/
def ArgsValue (a b : Int) : Value :=
  Value.structV (Values.cons (Value.int a) (Values.cons (Value.int b) Values.nil))

/-- The sum of two values of type `int` (64 bits, wrapping). -/
def addInt (a b : Int) : Int := (a + b + 2 ^ 63) % 2 ^ 64 - 2 ^ 63

/-- The body shared by `Foo.Sum` and `Foo.sum`: `*reply = args.Num1 + args.Num2; return nil`. -/
def sumBody : List Value → FuncEffect
  | [recv, Value.structV (Values.cons (Value.int a) (Values.cons (Value.int b) Values.nil)),
      Value.ptr _] =>
    { ins := [recv, ArgsValue a b, Value.ptr (Value.int (addInt a b))], err := none }
  | ins => { ins := ins, err := none }

/-- The dynamic type `*Foo` of `&foo`, with its method set: `Sum` and the unexported `sum`. -/
def FooPtrInfo : TypeInfo :=
  { typ := PtrTo FooType,
    methods :=
      [{ Name := "Sum", In := [PtrTo FooType, ArgsType, PtrTo intType], Out := [errorType],
         Func := sumBody },
       { Name := "sum", In := [PtrTo FooType, ArgsType, PtrTo intType], Out := [errorType],
         Func := sumBody }] }

/-- The service that `NewService(&foo)` returns for `var foo Foo`: `registerMethod`
on the service with the name `Foo`. -/
def FooSvc : Service :=
  registerMethod Char.isUpper
    { Name := "Foo", Typ := FooPtrInfo, Value := Value.ptr (Value.int 0), Methods := [] }

end service

/-! ## package server -/

namespace server

open codec reflect

/-- A value on the byte stream of a connection, as the peer's encoder wrote it:
a header, a body, or bytes that do not decode. -/
inductive Item where
  | header (h : Header)
  | body (v : Value)
  | malformed
deriving DecidableEq, Repr

/-- One call of a method of the server's `codec.Codec`; `ReadBody` records
whether it was given a holder (`true`) or nil (`false`). -/
inductive CodecOp where
  | ReadHeader
  | ReadBody (holder : Bool)
  | Write (header : Header) (body : Value)
  | Close
deriving DecidableEq, Repr

/-- The codec of a connection: the values not yet read and the trace of the
calls made on it (oldest first). -/
structure Codec where
  input : List Item
  ops : List CodecOp
deriving DecidableEq, Repr

/-- Go `NewGobCodec(conn)` on a connection on which `input` is still to be read. -/
def NewGobCodec (input : List Item) : Codec :=
  { input := input, ops := [] }

/-- Go `codec.NewCodecFuncMap` after `init`: only `GobType` is registered. -/
def NewCodecFuncMap : List (String × (List Item → Codec)) :=
  [(GobType, NewGobCodec)]

/-- Go `Codec.ReadHeader`: decodes the next value of the stream as a header. An
empty stream gives `EOF`; a value that is not a header is consumed and gives a decode error. -/
def Codec.ReadHeader (c : Codec) : Codec × Except Error Header :=
  match c.input with
  | [] => ({ c with ops := c.ops ++ [CodecOp.ReadHeader] }, Except.error "EOF")
  | Item.header h :: rest =>
    ({ input := rest, ops := c.ops ++ [CodecOp.ReadHeader] }, Except.ok h)
  | _ :: rest =>
    ({ input := rest, ops := c.ops ++ [CodecOp.ReadHeader] }, Except.error "gob: type mismatch")

/-- Go `Codec.ReadBody`: decodes the next value of the stream as a body (into the
holder, or discarding it when the holder is nil). -/
def Codec.ReadBody (c : Codec) (holder : Bool) : Codec × Except Error Value :=
  match c.input with
  | [] => ({ c with ops := c.ops ++ [CodecOp.ReadBody holder] }, Except.error "EOF")
  | Item.body v :: rest =>
    ({ input := rest, ops := c.ops ++ [CodecOp.ReadBody holder] }, Except.ok v)
  | _ :: rest =>
    ({ input := rest, ops := c.ops ++ [CodecOp.ReadBody holder] }, Except.error "gob: type mismatch")

/-- Go `Codec.Write`. -/
def Codec.Write (c : Codec) (h : Header) (body : Value) : Codec :=
  { c with ops := c.ops ++ [CodecOp.Write h body] }

/-- Go `Codec.Close`. -/
def Codec.Close (c : Codec) : Codec :=
  { c with ops := c.ops ++ [CodecOp.Close] }

/-- Go `server.Server`: `ServiceMap` maps a service name to the service. -/
structure Server where
  ServiceMap : List (String × service.Service)

/-- The variable `invalidRequest`, `struct{}{}`. -/
def invalidRequest : Value := Value.structV Values.nil

/-- Go `server.Request`; `args` and `reply` are `none` while they are the zero `reflect.Value`. -/
structure Request where
  header : Header
  args : Option RValue
  reply : Option RValue
  service : Option service.Service
  methodName : String

/-- The pieces of `s` between the occurrences of `sep`. -/
def splitChars (sep : Char) : List Char → List (List Char)
  | [] => [[]]
  | ch :: rest =>
    if ch = sep then [] :: splitChars sep rest
    else
      match splitChars sep rest with
      | [] => [[ch]]
      | piece :: pieces => (ch :: piece) :: pieces

/-- Go `strings.Split(s, sep)` for a separator of one character. -/
def Split (s : String) (sep : Char) : List String :=
  (splitChars sep s.data).map String.mk

/-- Go `Server.findService`: the service, the method, and the error. -/
def findService (s : Server) (serviceMethod : String) :
    Option service.Service × Option service.Method × Option Error :=
  match Split serviceMethod '.' with
  | [name0, name1] =>
    match mapLookup s.ServiceMap name0 with
    | some svc =>
      match mapLookup svc.Methods name1 with
      | none => (none, none, some ("rpc server: can't find method " ++ name1))
      | some method => (some svc, some method, none)
    | none => (none, none, some "the service is not registered")
  | _ => (none, none, some "the format of serviceMethod is wrong")

/-- Go `Server.readRequestHeader`. -/
def readRequestHeader (c : Codec) : Codec × Option Header × Option Error :=
  match c.ReadHeader with
  | (c1, Except.error err) => (c1, none, some err)
  | (c1, Except.ok header) => (c1, some header, none)

/-- Go `Server.readRequest`: the codec afterwards and either a panic or the
returned pair of request and error. -/
def readRequest (s : Server) (c : Codec) :
    Codec × Except Panic (Option Request × Option Error) :=
  match readRequestHeader c with
  | (c1, none, err) => (c1, Except.ok (none, err))
  | (c1, some header, _) =>
    let request : Request :=
      { header := header, args := none, reply := none, service := none, methodName := "" }
    match findService s header.ServiceMethod with
    | (some svc, some methodType, _) =>
      match methodType.NewArgs, methodType.NewReply with
      | Except.error p, _ => (c1, Except.error p)
      | Except.ok _, Except.error p => (c1, Except.error p)
      | Except.ok args, Except.ok reply =>
        let request := { request with
          args := some args, reply := some reply, service := some svc,
          methodName := methodType.Method.Name }
        match c1.ReadBody true with
        | (c2, Except.error err) => (c2, Except.ok (some request, some err))
        | (c2, Except.ok v) =>
          let decoded : RValue :=
            if args.typ.Kind ≠ Kind.Ptr then { typ := args.typ, val := v }
            else { typ := args.typ, val := Value.ptr v }
          (c2, Except.ok (some { request with args := some decoded }, none))
    | (_, _, err) => (c1, Except.ok (some request, err))

/-- Go `Server.sendResponse`. -/
def sendResponse (c : Codec) (h : Header) (body : Value) : Codec :=
  c.Write h body

/-- What the loop of `serveCodec` has done when it is left: the codec, the
requests handed to `handleRequest` (oldest first), and the panic that ended the
loop, if one did. -/
structure Served where
  c : Codec
  dispatched : List Request
  panicked : Option Panic

/-- The loop of `Server.serveCodec`, for at most `fuel` iterations. Only the
reads and writes of the loop itself are followed: the goroutines it starts
write their responses on their own. -/
def serveLoop (s : Server) : Nat → Codec → List Request → Served
  | 0, c, reqs => { c := c, dispatched := reqs, panicked := none }
  | fuel + 1, c, reqs =>
    match readRequest s c with
    | (c1, Except.error p) => { c := c1, dispatched := reqs, panicked := some p }
    | (c1, Except.ok (none, some _)) => { c := c1, dispatched := reqs, panicked := none }
    | (c1, Except.ok (some request, some err)) =>
      serveLoop s fuel (sendResponse c1 { request.header with Err := err } invalidRequest) reqs
    | (c1, Except.ok (some request, none)) => serveLoop s fuel c1 (reqs ++ [request])
    | (c1, Except.ok (none, none)) => { c := c1, dispatched := reqs, panicked := none }

/-- Go `Server.serveCodec`: every iteration of the loop but the last reads a
value, so one more than the length of the stream is enough fuel. After the loop
the codec is closed. -/
def serveCodec (s : Server) (c : Codec) (_opt : option.Option) : Served :=
  let r := serveLoop s (c.input.length + 1) c []
  match r.panicked with
  | some _ => r
  | none => { r with c := r.c.Close }

/-- Go `Server.serveConn`; `preamble` is the result of `decoder.Decode(&opt)` and
`input` what follows the preamble on the connection. The result is `none` when
the function returns without calling `serveCodec`. -/
def serveConn (s : Server) (preamble : Except Error option.Option) (input : List Item) :
    Option Served :=
  match preamble with
  | Except.error _ => none
  | Except.ok opt =>
    if opt.MagicNumber ≠ opt.MagicNumber then none
    else
      match mapLookup NewCodecFuncMap opt.CodecType with
      | some f => some (serveCodec s (f input) opt)
      | none => none

/-! ### `handleRequest` as a transition system -/

/-- Where the goroutine started in `handleRequest` stands: inside
`request.service.Call`; at `ch <- struct{}{}` with the error of the call; past
it, before `sendResponse`; at `send <- struct{}{}`; finished. -/
inductive GoPc where
  | calling
  | atCh (err : Option Error)
  | responding (err : Option Error)
  | atSend
  | finished
deriving DecidableEq, Repr

/-- Where `handleRequest` itself stands: at `<-ch` of the branch
`timeout == 0`; at the `select`; at `<-send`; in the branch of the `select`
taken when the timer has fired, before `sendResponse`; returned. -/
inductive MainPc where
  | recvCh
  | atSelect
  | recvSend
  | timedOut
  | returned
deriving DecidableEq, Repr

/-- The state of one `handleRequest`: the two control points, the header of the
request (shared by both), the reply holder, and the frames written by
`sendResponse` for this request (oldest first). -/
structure Handler where
  g : GoPc
  m : MainPc
  header : Header
  reply : Value
  written : List (Header × Value)
deriving DecidableEq, Repr

/-- The steps of one `handleRequest`: `Service.Call` returns; the unbuffered
channel `ch` passes its value; the goroutine sends its response; the
unbuffered channel `send` passes its value; the `select` takes the branch of
`time.After(timeout)`; `handleRequest` sends the timeout response. -/
inductive HandlerEvent where
  | callReturns (err : Option Error) (reply : Value)
  | chSync
  | respond
  | sendSync
  | timerFires
  | timeoutRespond
deriving DecidableEq, Repr

/-- The state in which `handleRequest` starts the goroutine. -/
def handlerInit (header : Header) (reply : Value) (timeout : Int) : Handler :=
  { g := GoPc.calling, m := if timeout = 0 then MainPc.recvCh else MainPc.atSelect,
    header := header, reply := reply, written := [] }

/-- The text of the timeout error of `handleRequest`. -/
def timeoutErr : String := "rpc server: request handle timeout: expect within 1"

/-- One step of `handleRequest`; a step that is not enabled leaves the state unchanged. -/
def handlerStep (h : Handler) : HandlerEvent → Handler
  | HandlerEvent.callReturns err reply =>
    match h.g with
    | GoPc.calling => { h with g := GoPc.atCh err, reply := reply }
    | _ => h
  | HandlerEvent.chSync =>
    match h.g, h.m with
    | GoPc.atCh err, MainPc.recvCh => { h with g := GoPc.responding err, m := MainPc.recvSend }
    | GoPc.atCh err, MainPc.atSelect => { h with g := GoPc.responding err, m := MainPc.recvSend }
    | _, _ => h
  | HandlerEvent.respond =>
    match h.g with
    | GoPc.responding err =>
      let header := match err with
        | some e => { h.header with Err := e }
        | none => h.header
      { h with g := GoPc.atSend, header := header, written := h.written ++ [(header, h.reply)] }
    | _ => h
  | HandlerEvent.sendSync =>
    match h.g, h.m with
    | GoPc.atSend, MainPc.recvSend => { h with g := GoPc.finished, m := MainPc.returned }
    | _, _ => h
  | HandlerEvent.timerFires =>
    match h.m with
    | MainPc.atSelect => { h with m := MainPc.timedOut }
    | _ => h
  | HandlerEvent.timeoutRespond =>
    match h.m with
    | MainPc.timedOut =>
      let header := { h.header with Err := timeoutErr }
      { h with m := MainPc.returned, header := header,
               written := h.written ++ [(header, invalidRequest)] }
    | _ => h

/-- A run of `handleRequest`. -/
def handlerRun (h : Handler) (evs : List HandlerEvent) : Handler :=
  evs.foldl handlerStep h

end server

/-! ## package client -/

namespace client

open codec

/-- Go `client.Call`. The field `done` counts the values sent into the call's
done channel, that is the executions of `Call.Done` on this call (the channel is
buffered, so the send completes). `Reply` is the content of the reply holder. -/
structure Call where
  ServiceMethod : String
  Args : Value
  Seq : Nat
  done : Nat
  Err : Option Error
  Reply : Value
deriving DecidableEq, Repr

/-- The fields of `client.Client` that the call registry uses; `Pending` maps a
seq to a pointer to the call. -/
structure Client where
  Seq : Nat
  Pending : List (Nat × Nat)
  header : Header
  Closing : Bool
  ShutDown : Bool
deriving DecidableEq, Repr

/-- One call of a method of the client's `codec.Codec`. `ReadBody none` is
`ReadBody(nil)`; `ReadBody (some p)` is `ReadBody(call.Reply)` for the call at `p`. -/
inductive CodecOp where
  | ReadHeader
  | ReadBody (holder : Option Nat)
  | Write (header : Header) (body : Value)
  | Close
deriving DecidableEq, Repr

/-- Where the goroutine started by `go client.receive()` stands: in its loop,
left the loop with `err` and about to run `terminateCalls(err)`, or returned. -/
inductive RecvLoop where
  | running
  | terminating (err : Error)
  | ended
deriving DecidableEq, Repr

/-- A client together with what its methods touch: the heap of `Call` objects,
the trace of codec calls (oldest first), the holder of the `sending` mutex (the
call being sent and its seq) and the state of the receive goroutine. -/
structure World where
  c : Client
  calls : List Call
  codec : List CodecOp
  sending : Option (Nat × Nat)
  loop : RecvLoop
deriving DecidableEq, Repr

/-- The client built by `NewGobClient`: `Seq: 0`, an empty `Pending`, zero
`header`, both flags false, and the receive goroutine started. -/
def NewGobClient : World :=
  { c := { Seq := 0, Pending := [], header := { ServiceMethod := "", Seq := 0, Err := "" },
           Closing := false, ShutDown := false },
    calls := [], codec := [], sending := none, loop := RecvLoop.running }

/-- Go `Client.IsValid`. -/
def IsValid (c : Client) : Bool :=
  if c.ShutDown == false && c.Closing == false then true else false

def ErrShutdown : Error := "the conn is closed"

/-- Apply `f` to the call at pointer `p`. -/
def updateCall (calls : List Call) (p : Nat) (f : Call → Call) : List Call :=
  match calls[p]? with
  | some k => calls.set p (f k)
  | none => calls

/-- Go `Call.Done`: `c.done <- c`. The channel is taken to have room, so that the send completes. -/
def Done (calls : List Call) (p : Nat) : List Call :=
  updateCall calls p (fun k => { k with done := k.done + 1 })

/-- The assignment `call.Err = err`. -/
def setErr (calls : List Call) (p : Nat) (err : Error) : List Call :=
  updateCall calls p (fun k => { k with Err := some err })

/-- Go `Client.registerCall`: returns the world after the call and `(seq, err)`. -/
def registerCall (w : World) (call : Nat) : World × Except Error Nat :=
  if !IsValid w.c then
    (w, Except.error "register fail,the conn is closed")
  else
    let seq := w.c.Seq
    ({ w with
        calls := updateCall w.calls call (fun k => { k with Seq := seq }),
        c := { w.c with Pending := mapInsert w.c.Pending seq call, Seq := (w.c.Seq + 1) % u64 } },
      Except.ok seq)

/-- Go `Client.removeCall`. -/
def removeCall (w : World) (seq : Nat) : World × Option Nat :=
  ({ w with c := { w.c with Pending := mapDelete w.c.Pending seq } }, mapLookup w.c.Pending seq)

/-- Go `Client.terminateCalls`, entered with both mutexes acquired: sets `ShutDown`
and gives `err` to every call in `Pending`, completing it. `Pending` is left as it is. -/
def terminateCalls (w : World) (err : Error) : World :=
  { w with
      c := { w.c with ShutDown := true },
      calls := w.c.Pending.foldl (fun calls kv => Done (setErr calls kv.2 err) kv.2) w.calls }

/-- Go `Client.Close`; `closeErr` is what `c.Codec.Close()` returns. -/
def Close (w : World) (closeErr : Option Error) : World × Option Error :=
  if w.c.ShutDown == true || w.c.Closing == true then (w, some ErrShutdown)
  else
    ({ w with c := { w.c with Closing := true }, codec := w.codec ++ [CodecOp.Close] }, closeErr)

/-- Go `Client.send` from `c.sending.Lock()` up to the call of `c.Codec.Write`
(lines 66-77). When registration fails the call is completed with the error and
the mutex released; otherwise the shared header is filled in and the mutex stays held. -/
def sendRegister (w : World) (call : Nat) : World :=
  match registerCall w call with
  | (w1, Except.error err) => { w1 with calls := Done (setErr w1.calls call err) call }
  | (w1, Except.ok seq) =>
    { w1 with
        c := { w1.c with
                header := { Seq := seq,
                            ServiceMethod := ((w1.calls[call]?).map Call.ServiceMethod).getD "",
                            Err := "" } },
        sending := some (call, seq) }

/-- Go `Client.send` from `c.Codec.Write` to the end (lines 81-89): `err` is what
`Write` returned. On failure the call is removed from `Pending` and, when it was
still there, completed with the error. -/
def sendWritten (w : World) (err : Option Error) : World :=
  match w.sending with
  | none => w
  | some (call, seq) =>
    let w1 := { w with
      codec := w.codec ++ [CodecOp.Write w.c.header (((w.calls[call]?).map Call.Args).getD Value.nilV)],
      sending := none }
    match err with
    | none => w1
    | some e =>
      match removeCall w1 seq with
      | (w2, none) => w2
      | (w2, some call2) => { w2 with calls := Done (setErr w2.calls call2 e) call2 }

/-- Go `Client.Go` up to the point where `send` calls `Write`: allocates the call
and runs `sendRegister` on it. -/
def Go (w : World) (serviceMethod : String) (args reply : Value) : World :=
  sendRegister
    { w with calls := w.calls ++
        [{ ServiceMethod := serviceMethod, Args := args, Seq := 0, done := 0, Err := none,
           Reply := reply }] }
    w.calls.length

/-- One iteration of the loop of `Client.receive` (lines 95-121). `hdr` is the
result of `ReadHeader`, `body` the result of the `ReadBody` of this iteration
(the decoded value on success). `Errorf` is `fmt.Errorf` applied to a format
alone. When the iteration leaves `err` non-nil the loop is left. -/
def receiveIter (Errorf : String → Error) (w : World) (hdr : Except Error Header)
    (body : Except Error Value) : World :=
  match hdr with
  | Except.error e =>
    { w with codec := w.codec ++ [CodecOp.ReadHeader], loop := RecvLoop.terminating e }
  | Except.ok header =>
    match removeCall { w with codec := w.codec ++ [CodecOp.ReadHeader] } header.Seq with
    | (w1, none) =>
      -- case call == nil
      let w2 := { w1 with codec := w1.codec ++ [CodecOp.ReadBody none] }
      match body with
      | Except.error e => { w2 with loop := RecvLoop.terminating e }
      | Except.ok _ => w2
    | (w1, some call) =>
      if w1.c.header.Err ≠ "" then
        -- case c.header.Err != ""
        let w2 := { w1 with
          calls := Done (setErr w1.calls call (Errorf header.Err)) call,
          codec := w1.codec ++ [CodecOp.ReadBody none] }
        match body with
        | Except.error e => { w2 with loop := RecvLoop.terminating e }
        | Except.ok _ => w2
      else
        -- default
        let w2 := { w1 with codec := w1.codec ++ [CodecOp.ReadBody (some call)] }
        match body with
        | Except.error e =>
          { w2 with calls := Done (setErr w2.calls call e) call, loop := RecvLoop.terminating e }
        | Except.ok v =>
          { w2 with calls := Done (updateCall w2.calls call (fun k => { k with Reply := v })) call }

/-- The atomic steps of a client: a caller enters `Go` and `send` registers its
call; the pending `Write` of `send` returns; the receive loop runs one
iteration; the receive goroutine runs `terminateCalls`; a caller runs `Close`
(and `c.Codec.Close()` returns `err`). -/
inductive Event where
  | go (serviceMethod : String) (args reply : Value)
  | written (err : Option Error)
  | recv (header : Except Error Header) (body : Except Error Value)
  | terminate
  | close (err : Option Error)

/-- One step. A step that cannot be taken in `w` leaves it unchanged: `go`
waits for the `sending` mutex, `recv` needs the loop to be running,
`terminate` needs the loop to have been left and the `sending` mutex to be free. -/
def step (Errorf : String → Error) (w : World) : Event → World
  | Event.go sm args reply => if w.sending.isSome then w else Go w sm args reply
  | Event.written err => sendWritten w err
  | Event.recv hdr body =>
    if w.loop = RecvLoop.running then receiveIter Errorf w hdr body else w
  | Event.terminate =>
    match w.loop with
    | RecvLoop.terminating e =>
      if w.sending.isSome then w else { terminateCalls w e with loop := RecvLoop.ended }
    | _ => w
  | Event.close err => (Close w err).1

/-- A run: the steps of `evs` in order. -/
def exec (Errorf : String → Error) (w : World) (evs : List Event) : World :=
  evs.foldl (step Errorf) w

/-- The result of the `registerCall` that the step `ev` performs in `w`, if it performs one. -/
def registerResult (w : World) : Event → Option (Except Error Nat)
  | Event.go sm args reply =>
    if w.sending.isSome then none
    else some (registerCall
      { w with calls := w.calls ++
          [{ ServiceMethod := sm, Args := args, Seq := 0, done := 0, Err := none,
             Reply := reply }] }
      w.calls.length).2
  | _ => none

/-- The seqs returned by the successful `registerCall`s of a run, in order. -/
def issuedSeqs (Errorf : String → Error) (w : World) : List Event → List Nat
  | [] => []
  | ev :: evs =>
    match registerResult w ev with
    | some (Except.ok seq) => seq :: issuedSeqs Errorf (step Errorf w ev) evs
    | _ => issuedSeqs Errorf (step Errorf w ev) evs

end client

/-! ## package xclient -/

namespace xclient

/-- What one task of the fan-out of `BroadCast` brings to its critical section:
the error that `xclient.call` returned and the content of its `copyReply`. -/
structure TaskResult where
  err : Option Error
  copyReply : Value
deriving DecidableEq, Repr

/-- The variables that the tasks of `BroadCast` share under `mu`: `e`,
`replyDone`, the content of the caller's reply holder, and whether `cancel()`
has been called. -/
structure Shared where
  e : Option Error
  replyDone : Bool
  reply : Value
  cancelled : Bool
deriving DecidableEq, Repr

/-- The critical section of one task of `BroadCast` (lines 109-119). -/
def criticalSection (st : Shared) (r : TaskResult) : Shared :=
  let st1 :=
    if r.err ≠ none ∧ st.e = none then { st with e := r.err, cancelled := true } else st
  if r.err = none ∧ st1.replyDone = false then
    { st1 with replyDone := true, reply := r.copyReply }
  else st1

/-- Go `XClient.BroadCast`. `getAll` is the result of `xclient.d.GetAll()`, each
address paired with the result of the task started for it, and the tasks are
listed in the order in which they acquire `mu`. The function returns after
every task has left its critical section, and calls `cancel()` before returning. -/
def BroadCast (getAll : Except Error (List (String × TaskResult))) (reply : Value) :
    Option Error × Shared :=
  match getAll with
  | Except.error err => (some err, { e := none, replyDone := false, reply := reply,
                                     cancelled := false })
  | Except.ok tasks =>
    let st := tasks.foldl (fun st t => criticalSection st t.2)
      { e := none, replyDone := false, reply := reply, cancelled := false }
    (st.e, { st with cancelled := true })

/-- Go `SelectMode`, an `int`: `RandomSelect` is 0 and `RoundRobinSelect` is 1. -/
abbrev SelectMode := Int

def RandomSelect : SelectMode := 0

def RoundRobinSelect : SelectMode := 1

/-- The value of type `int` (64 bits) that the sum or product `x` wraps to. -/
def wrapInt (x : Int) : Int := (x + 2 ^ 63) % 2 ^ 64 - 2 ^ 63

/-- Go `MultiServerDiscovery`, without its random source and its lock. -/
structure MultiServerDiscovery where
  servers : List String
  index : Int
deriving DecidableEq, Repr

/-- Go `NewMultiServerDiscovery(servers)`; `randInt` determines the result of
`rand.Int()`, a non-negative `int` below `2 ^ 63`. -/
def NewMultiServerDiscovery (servers : List String) (randInt : Nat) : MultiServerDiscovery :=
  { servers := servers, index := ((randInt % 2 ^ 63 : Nat) : Int) }

/-- Go `MultiServerDiscovery.Update`. -/
def MultiServerDiscovery.Update (d : MultiServerDiscovery) (servers : List String) :
    MultiServerDiscovery :=
  { d with servers := servers }

/-- The element `servers[i]` of a slice: a panic when `i` is negative or not below the length. -/
def indexServers (servers : List String) (i : Int) : Except Panic String :=
  if i < 0 then Except.error "runtime error: index out of range"
  else
    match servers[i.toNat]? with
    | some s => Except.ok s
    | none => Except.error "runtime error: index out of range"

/-- Go `MultiServerDiscovery.Get`; `rnd` determines the result of `d.r.Intn(n)`.
The operator `%` of Go truncates towards zero (`Int.tmod`), and `d.index + 1`
wraps at 64 bits. The result is the discovery afterwards and either a panic or
the returned address and error. -/
def MultiServerDiscovery.Get (d : MultiServerDiscovery) (mode : SelectMode) (rnd : Nat) :
    MultiServerDiscovery × Except Panic (String × Option Error) :=
  let n : Int := d.servers.length
  if n = 0 then (d, Except.ok ("", some "rpc discovery: no available servers"))
  else if mode = RandomSelect then
    match indexServers d.servers ((rnd % d.servers.length : Nat) : Int) with
    | Except.ok server => (d, Except.ok (server, none))
    | Except.error p => (d, Except.error p)
  else if mode = RoundRobinSelect then
    match indexServers d.servers (Int.tmod d.index n) with
    | Except.ok server =>
      ({ d with index := Int.tmod (wrapInt (d.index + 1)) n }, Except.ok (server, none))
    | Except.error p => (d, Except.error p)
  else (d, Except.ok ("", some "rpc discovery: not supported select mode"))

/-- The results of `m` consecutive calls `Get(RoundRobinSelect)`, and the discovery afterwards. -/
def getRoundRobin : Nat → MultiServerDiscovery →
    MultiServerDiscovery × List (Except Panic (String × Option Error))
  | 0, d => (d, [])
  | m + 1, d =>
    let r := d.Get RoundRobinSelect 0
    let rest := getRoundRobin m r.1
    (rest.1, r.2 :: rest.2)

end xclient
/-! ## package registry -/

namespace registry

/-- Go `ServerItem`; `start` is a time in nanoseconds. -/
structure ServerItem where
  Address : String
  start : Int
deriving DecidableEq, Repr

/-- Go `Registry`, without its lock; `timeOut` is in nanoseconds and
`serverItems` maps an address to its item. -/
structure Registry where
  timeOut : Int
  serverItems : List (String × ServerItem)
deriving DecidableEq, Repr

/-- Go `registry.New`. -/
def New (timeOut : Int) : Registry :=
  { timeOut := timeOut, serverItems := [] }

/-- Go `Registry.putServer`; `now` is the reading of `time.Now()`. -/
def putServer (r : Registry) (addr : String) (now : Int) : Registry :=
  match mapLookup r.serverItems addr with
  | some _ =>
    { r with serverItems := r.serverItems.map (fun (kv : String × ServerItem) =>
        if kv.1 = addr then (kv.1, { kv.2 with start := now }) else kv) }
  | none =>
    { r with serverItems := mapInsert r.serverItems addr { Address := addr, start := now } }

/-- The order of strings that `sort.Strings` uses, on their characters: the
lexicographic order by code point (which is the order of the bytes of UTF-8). -/
def lexLe : List Char → List Char → Bool
  | [], _ => true
  | _ :: _, [] => false
  | a :: as, b :: bs =>
    if a.toNat < b.toNat then true
    else if b.toNat < a.toNat then false
    else lexLe as bs

/-- The test `a <= b` on strings. -/
def strLe (a b : String) : Bool := lexLe a.data b.data

/-- Insertion of `a` into a sorted list. -/
def insertString (a : String) : List String → List String
  | [] => [a]
  | b :: rest => if strLe a b then a :: b :: rest else b :: insertString a rest

/-- Go `sort.Strings`, as a sorting by insertion. -/
def sortStrings : List String → List String
  | [] => []
  | a :: rest => insertString a (sortStrings rest)

/-- The test of `aliveServers` on one item:
`item.start.Add(r.timeOut).After(time.Now()) || r.timeOut == 0`, where `now` is
the reading of `time.Now()` in this evaluation. -/
def isAlive (timeOut : Int) (now : Int) (item : ServerItem) : Bool :=
  decide (item.start + timeOut > now) || decide (timeOut = 0)

/-- The loop of `aliveServers` over the entries `items` of the map, from the
iteration number `k` on: the map and the slice `alive` afterwards. Every
iteration reads the clock anew: `clock k` is the reading of `time.Now()` in the
iteration number `k`. An item that is not alive is deleted under the key
`item.Address`. -/
def aliveLoop (timeOut : Int) (clock : Nat → Int) :
    Nat → List (String × ServerItem) → List (String × ServerItem) → List String →
      List (String × ServerItem) × List String
  | _, [], cur, alive => (cur, alive)
  | k, kv :: rest, cur, alive =>
    if isAlive timeOut (clock k) kv.2 then
      aliveLoop timeOut clock (k + 1) rest cur (alive ++ [kv.2.Address])
    else aliveLoop timeOut clock (k + 1) rest (mapDelete cur kv.2.Address) alive

/-- Go `Registry.aliveServers`; `clock k` is the reading of `time.Now()` in the
iteration number `k` of the loop (counted from 0), the entries being visited in
the order of `serverItems`. The result is the registry afterwards and the
returned slice. -/
def aliveServers (r : Registry) (clock : Nat → Int) : Registry × List String :=
  let res := aliveLoop r.timeOut clock 0 r.serverItems r.serverItems []
  ({ r with serverItems := res.1 }, sortStrings res.2)

end registry
/-! ## package codec: `GobCodec.Write` -/

namespace codec

/-- A value that the encoder of a `GobCodec` has produced. -/
inductive Encoded where
  | header (h : Header)
  | body (v : Value)
deriving DecidableEq, Repr

/-- The state of a `GobCodec` on its writing side: whether `conn` has been
closed, the values in the buffer `buf`, and the values flushed to `conn`. -/
structure GobCodec where
  connClosed : Bool
  buf : List Encoded
  sent : List Encoded
deriving DecidableEq, Repr

/-- What the environment decides in one `GobCodec.Write`: the results of
`g.enc.Encode(header)`, of `g.enc.Encode(body)` and of `g.buf.Flush()`. -/
structure WriteEnv where
  headerErr : Option Error
  bodyErr : Option Error
  flushErr : Option Error
deriving DecidableEq, Repr

/-- The function deferred in `GobCodec.Write`, run with the value `err` of the
named result: it flushes, dropping the result of `Flush`, and closes `conn`
when `err` is not nil. -/
def writeDeferred (g : GobCodec) (flushErr : Option Error) (err : Option Error) : GobCodec :=
  let g1 := match flushErr with
    | none => { g with buf := [], sent := g.sent ++ g.buf }
    | some _ => g
  if err ≠ none then { g1 with connClosed := true } else g1

/-- Go `GobCodec.Write`. The `defer` statement comes after the two calls of
`Encode`, so the deferred function runs only on the path that ends in
`return nil`, which sets the named result `err` to nil. -/
def GobCodec.Write (g : GobCodec) (env : WriteEnv) (header : Header) (body : Value) :
    GobCodec × Option Error :=
  match env.headerErr with
  | some e => (g, some e)
  | none =>
    let g1 := { g with buf := g.buf ++ [Encoded.header header] }
    match env.bodyErr with
    | some e => (g1, some e)
    | none =>
      let g2 := { g1 with buf := g1.buf ++ [Encoded.body body] }
      (writeDeferred g2 env.flushErr none, none)

end codec

/-! ## package client: dialing -/

namespace client

open codec

/-- What has been written to a connection before any frame: the preamble or the `CONNECT` request. -/
inductive Sent where
  | preamble (opt : option.Option)
  | text (s : String)
deriving DecidableEq, Repr

/-- A connection made by `net.DialTimeout`: where it leads, whether it has been
closed, and what has been written to it. -/
structure Conn where
  network : String
  address : String
  closed : Bool
  written : List Sent
deriving DecidableEq, Repr

/-- Go `parseOptions`; an element `none` of `opts` is a nil pointer. -/
def parseOptions (opts : List (Option option.Option)) : Option option.Option :=
  match opts with
  | [] => some option.DefaultOption
  | none :: _ => some option.DefaultOption
  | [some opt] =>
    some { opt with
      MagicNumber := option.MagicNumber,
      CodecType := if opt.CodecType = "" then GobType else opt.CodecType }
  | some _ :: _ :: _ => none

/-- What a client constructor leaves behind: the connection, and the returned client and error. -/
structure Built where
  conn : Conn
  client : Option World
  err : Option Error
deriving DecidableEq, Repr

/-- What the environment decides in one dial: the error of `net.DialTimeout`
(nil when the connection is established); the result of
`json.NewEncoder(conn).Encode(opt)`; the result of `http.ReadResponse` (the
status on success); whether the `select` takes the branch of `time.After`, and
whether the constructor has finished by then. -/
structure DialEnv where
  dialErr : Option Error
  encodeErr : Option Error
  response : Except Error String
  timerFirst : Bool
  constructorDone : Bool

/-- Go `NewGobClient(conn, opt)` as a function of the connection; the client it
returns is the world `NewGobClient`. -/
def NewGobClientOn (env : DialEnv) (conn : Conn) (opt : option.Option) : Built :=
  match mapLookup server.NewCodecFuncMap opt.CodecType with
  | none => { conn := conn, client := none, err := some "UnSupported Codec Type" }
  | some _ =>
    match env.encodeErr with
    | some _ =>
      { conn := { conn with closed := true }, client := none, err := some "EnCode opt fail" }
    | none =>
      { conn := { conn with written := conn.written ++ [Sent.preamble opt] },
        client := some NewGobClient, err := none }

/-- The constant `connected`. -/
def connected : String := "200 Connected to Gee RPC"

/-- The constant `defaultRPCPath`. -/
def defaultRPCPath : String := "/_rpc_"

/-- Go `NewHTTPClient(conn, opt)`. -/
def NewHTTPClient (env : DialEnv) (conn : Conn) (opt : option.Option) : Built :=
  let conn1 := { conn with
    written := conn.written ++ [Sent.text ("CONNECT " ++ defaultRPCPath ++ " HTTP/1.0\n\n")] }
  match env.response with
  | Except.error err => { conn := conn1, client := none, err := some err }
  | Except.ok status =>
    if status = connected then NewGobClientOn env conn1 opt
    else { conn := conn1, client := none, err := some ("unexpected HTTP response:" ++ status) }

/-- What a dial returns, and the connection it made, if it made one, as it is at the return. -/
structure DialResult where
  client : Option World
  err : Option Error
  conn : Option Conn
deriving DecidableEq, Repr

/-- The function deferred in `dialTimeout`, run with the value of the variable
`err` that `conn, err := net.DialTimeout(...)` declares: it closes `conn` when
`err` is not nil. -/
def dialDeferred (err : Option Error) (conn : Conn) : Conn :=
  if err ≠ none then { conn with closed := true } else conn

/-- Go `dialTimeout`. The results of the function are not named, and the
goroutine declares an `err` of its own, so at the `return` statements the
variable `err` of the deferred function still holds the nil that
`net.DialTimeout` returned. When the `select` takes the branch of `time.After`
before the constructor has finished, the connection is as `net.DialTimeout` made it. -/
def dialTimeout (newClient : Conn → option.Option → Built) (env : DialEnv)
    (network address : String) (opts : List (Option option.Option)) : DialResult :=
  match parseOptions opts with
  | none => { client := none, err := some "parse opts fail", conn := none }
  | some opt =>
    match env.dialErr with
    | some err => { client := none, err := some err, conn := none }
    | none =>
      let conn : Conn := { network := network, address := address, closed := false, written := [] }
      let err : Option Error := none
      let result := newClient conn opt
      if opt.ConnectTimeOut = 0 then
        { client := result.client, err := result.err, conn := some (dialDeferred err result.conn) }
      else if env.timerFirst then
        { client := none, err := some "client get response timeout",
          conn := some (dialDeferred err (if env.constructorDone then result.conn else conn)) }
      else
        { client := result.client, err := result.err, conn := some (dialDeferred err result.conn) }

/-- Go `Dial`. -/
def Dial (env : DialEnv) (network address : String) (opts : List (Option option.Option)) :
    DialResult :=
  dialTimeout (NewGobClientOn env) env network address opts

/-- Go `DialHTTP`. -/
def DialHTTP (env : DialEnv) (network address : String) (opts : List (Option option.Option)) :
    DialResult :=
  dialTimeout (NewHTTPClient env) env network address opts

/-- Go `XDial`. -/
def XDial (env : DialEnv) (rpcAddr : String) (opts : List (Option option.Option)) : DialResult :=
  match server.Split rpcAddr '@' with
  | [proto, address] =>
    if proto = "http" then DialHTTP env "tcp" address opts
    else Dial env proto address opts
  | _ =>
    { client := none,
      err := some ("rpc client err: wrong format '" ++ rpcAddr ++ "', expect protocol@addr"),
      conn := none }

end client

/-! ## Instances and invariants used in the theorems -/

open codec reflect

namespace server

/-- A server on which the service `Foo` is registered. -/
def FooServer : Server := { ServiceMap := [("Foo", service.FooSvc)] }

/-- The number of frames written at each combination of control points that
`handleRequest` can reach; `none` for the combinations it cannot reach. -/
def handlerFrames : GoPc → MainPc → Option Nat
  | GoPc.calling, MainPc.recvCh => some 0
  | GoPc.calling, MainPc.atSelect => some 0
  | GoPc.calling, MainPc.timedOut => some 0
  | GoPc.calling, MainPc.returned => some 1
  | GoPc.atCh _, MainPc.recvCh => some 0
  | GoPc.atCh _, MainPc.atSelect => some 0
  | GoPc.atCh _, MainPc.timedOut => some 0
  | GoPc.atCh _, MainPc.returned => some 1
  | GoPc.responding _, MainPc.recvSend => some 0
  | GoPc.atSend, MainPc.recvSend => some 1
  | GoPc.finished, MainPc.returned => some 1
  | _, _ => none

/-- The invariant of `handleRequest` for a request of seq `seq`. -/
def handlerInv (seq : Nat) (h : Handler) : Prop :=
  h.header.Seq = seq ∧ handlerFrames h.g h.m = some h.written.length ∧
    ∀ f ∈ h.written, f.1.Seq = seq

end server

namespace service

/-- The service `Foo` with the call count of every method set to `n`. -/
def FooSvcAt (n : Nat) : Service :=
  { FooSvc with
    Methods := FooSvc.Methods.map (fun (kv : String × service.Method) =>
      (kv.1, { kv.2 with CallNum := n })) }

/-- The dynamic type `*Foo` of a variant of `Foo` with one more method,
`func (f Foo) Bad(args Args, reply int) error`, whose second input is not a pointer. -/
def BadPtrInfo : TypeInfo :=
  { typ := PtrTo FooType,
    methods :=
      [{ Name := "Bad", In := [PtrTo FooType, ArgsType, intType], Out := [errorType],
         Func := fun ins => { ins := ins, err := none } },
       { Name := "Sum", In := [PtrTo FooType, ArgsType, PtrTo intType], Out := [errorType],
         Func := sumBody }] }

/-- The names and call counts of the methods of a service. -/
def callNums (s : Service) : List (String × Nat) :=
  s.Methods.map (fun (kv : String × service.Method) => (kv.1, kv.2.CallNums))

/-- A variant of `Foo` in package `rpc/service` with methods of every sort:
`type hidden struct{}` is a named type that is not exported. -/
def hiddenType : RType := RType.mk "hidden" "rpc/service" (Shape.struct RTypes.nil)

/-- The dynamic type `*Foo` of that variant, with the method set
`Sum(Args, *int) error`, `Inc(int, *int) error`, `HidArgs(hidden, *int) error`,
`HidReply(Args, hidden) error`, `One(Args) error`, `Three(Args, *int, int) error`,
`NoErr(Args, *int) int`, `Two(Args, *int) (int, error)`, `None(Args, *int)` and
the unexported `sum(Args, *int) error`. -/
def MixedPtrInfo : TypeInfo :=
  { typ := PtrTo FooType,
    methods :=
      [{ Name := "Sum", In := [PtrTo FooType, ArgsType, PtrTo intType], Out := [errorType],
         Func := sumBody },
       { Name := "Inc", In := [PtrTo FooType, intType, PtrTo intType], Out := [errorType],
         Func := fun ins => { ins := ins, err := none } },
       { Name := "HidArgs", In := [PtrTo FooType, hiddenType, PtrTo intType],
         Out := [errorType], Func := fun ins => { ins := ins, err := none } },
       { Name := "HidReply", In := [PtrTo FooType, ArgsType, hiddenType], Out := [errorType],
         Func := fun ins => { ins := ins, err := none } },
       { Name := "One", In := [PtrTo FooType, ArgsType], Out := [errorType],
         Func := fun ins => { ins := ins, err := none } },
       { Name := "Three", In := [PtrTo FooType, ArgsType, PtrTo intType, intType],
         Out := [errorType], Func := fun ins => { ins := ins, err := none } },
       { Name := "NoErr", In := [PtrTo FooType, ArgsType, PtrTo intType], Out := [intType],
         Func := fun ins => { ins := ins, err := none } },
       { Name := "Two", In := [PtrTo FooType, ArgsType, PtrTo intType],
         Out := [intType, errorType], Func := fun ins => { ins := ins, err := none } },
       { Name := "None", In := [PtrTo FooType, ArgsType, PtrTo intType], Out := [],
         Func := fun ins => { ins := ins, err := none } },
       { Name := "sum", In := [PtrTo FooType, ArgsType, PtrTo intType], Out := [errorType],
         Func := sumBody }] }

/-- An exported name, in the words of the specification: a name whose first
character is an upper-case letter. -/
def exportedName (IsUpper : Char → Bool) (name : String) : Prop :=
  ∃ ch rest, name.data = ch :: rest ∧ IsUpper ch = true

/-- An exported-or-builtin type, in the words of the specification: a type
with an exported name or an empty package path. -/
def exportedOrBuiltin (IsUpper : Char → Bool) (t : RType) : Prop :=
  exportedName IsUpper t.Name ∨ t.PkgPath = ""

/-- The methods that the specification lets into the table: the method is
exported, it has exactly two inputs after the receiver, the args and the
reply, both of a type that is exported or builtin, and exactly one output, of
the type `error`. -/
def eligible (IsUpper : Char → Bool) (m : reflect.Method) : Prop :=
  exportedName IsUpper m.Name ∧
    (∃ recv args reply, m.In = [recv, args, reply] ∧
      exportedOrBuiltin IsUpper args ∧ exportedOrBuiltin IsUpper reply) ∧
    m.Out = [errorType]

end service

namespace client

/-- The call at `p` is live: it is in `Pending` and the client is not shut down. -/
def liveIn (pending : List (Nat × Nat)) (shutDown : Bool) (p : Nat) : Prop :=
  shutDown = false ∧ p ∈ pending.map Prod.snd

/-- The invariant of the client, on the parts of a world that it concerns:
`Seq`, `Pending`, `ShutDown`, the calls, the holder of the `sending` mutex and
the state of the receive goroutine. `n` is the number of successful
registrations so far. A live call has not been completed; any other call has
been completed at most once, and exactly once as long as `Seq` has not wrapped. -/
structure Core (n seq : Nat) (pending : List (Nat × Nat)) (shutDown : Bool)
    (calls : List Call) (sending : Option (Nat × Nat)) (loop : RecvLoop) : Prop where
  seq_eq : seq = n % u64
  keys : (pending.map Prod.fst).Nodup
  vals : (pending.map Prod.snd).Nodup
  bound : ∀ kv ∈ pending, kv.2 < calls.length
  fresh : n ≤ u64 → ∀ kv ∈ pending, kv.1 < n
  shut : shutDown = true ↔ loop = RecvLoop.ended
  lock : ∀ p s, sending = some (p, s) →
    shutDown = false ∧ (mapLookup pending s = none ∨ mapLookup pending s = some p)
  doneLive : ∀ p k, calls[p]? = some k → liveIn pending shutDown p → k.done = 0
  doneDead : ∀ p k, calls[p]? = some k → ¬ liveIn pending shutDown p →
    k.done ≤ 1 ∧ (n ≤ u64 → k.done = 1)

/-- The invariant of the client, for a world. -/
def ClientInv (w : World) (n : Nat) : Prop :=
  Core n w.c.Seq w.c.Pending w.c.ShutDown w.calls w.sending w.loop

/-- Whether the step `ev` in `w` registers a call: 1 if it does, 0 if not. -/
def registered (w : World) (ev : Event) : Nat :=
  match registerResult w ev with
  | some (Except.ok _) => 1
  | _ => 0

/-- A run that goes through every kind of step: four sends, the write of the
second failing; the reply to the first call; a reply with an unknown seq; a
reply with an error header whose body does not decode, which ends the loop;
`terminateCalls`; and one more send. -/
def sampleRun : List Event :=
  [Event.go "Foo.Sum" (service.ArgsValue 1 3) (Value.int 0), Event.written none,
   Event.go "Foo.Sum" (service.ArgsValue 2 2) (Value.int 0),
   Event.written (some "write: broken pipe"),
   Event.go "Foo.Sum" (service.ArgsValue 5 6) (Value.int 0), Event.written none,
   Event.go "Foo.Sum" (service.ArgsValue 7 8) (Value.int 0), Event.written none,
   Event.recv (Except.ok { ServiceMethod := "Foo.Sum", Seq := 0, Err := "" })
     (Except.ok (Value.int 4)),
   Event.recv (Except.ok { ServiceMethod := "Foo.Sum", Seq := 99, Err := "" })
     (Except.ok (Value.int 0)),
   Event.recv (Except.ok { ServiceMethod := "Foo.Sum", Seq := 2, Err := "boom" })
     (Except.error "gob: decode error"),
   Event.terminate,
   Event.go "Foo.Sum" (service.ArgsValue 9 9) (Value.int 0)]

/-- The run of `n` sends, each a `Go` whose `Write` succeeds and whose reply does not arrive. -/
def sendRounds : Nat → List Event
  | 0 => []
  | n + 1 => Event.go "" Value.nilV Value.nilV :: Event.written none :: sendRounds n

/-- The invariant of the runs `sendRounds`, after `n` sends: nobody holds
`sending`, the client is valid, `n` calls exist, the first one has not been
completed, and it can be in `Pending` only under the key 0 and only while
`n ≤ 2 ^ 64`. -/
def LostInv (w : World) (n : Nat) : Prop :=
  w.sending = none ∧ IsValid w.c = true ∧ w.loop = RecvLoop.running ∧ w.calls.length = n ∧
    w.c.Seq = n % u64 ∧ (0 < n → (w.calls[0]?).map Call.done = some 0) ∧
    ∀ kv ∈ w.c.Pending, kv.2 = 0 → kv.1 = 0 ∧ n ≤ u64

end client

namespace xclient

/-- The addresses that a list of results of `Get` returned with a nil error, in order. -/
def returnedAddrs (rs : List (Except Panic (String × Option Error))) : List String :=
  rs.filterMap (fun r =>
    match r with
    | Except.ok (s, none) => some s
    | _ => none)

end xclient
namespace registry

/-- The states that a registry can be in: no address is a key twice, and every
item is stored under its own address. -/
def WellFormed (r : Registry) : Prop :=
  (r.serverItems.map Prod.fst).Nodup ∧ ∀ kv ∈ r.serverItems, kv.2.Address = kv.1

/-- The keys of the items of `items` that are not alive when the loop of
`aliveServers` visits them, the first of them in the iteration number `k`. -/
def deadKeys (timeOut : Int) (clock : Nat → Int) (k : Nat)
    (items : List (String × ServerItem)) : List String :=
  ((items.enumFrom k).filter (fun p => !isAlive timeOut (clock p.1) p.2.2)).map
    (fun p => p.2.2.Address)

end registry

/-! ## Theorems -/

open codec reflect

namespace client

/-- Every step keeps the `Err` of the client's own header empty. -/
theorem step_header_Err (Errorf : String → Error) (w : World) (ev : Event)
    (h : w.c.header.Err = "") : (step Errorf w ev).c.header.Err = "" := by
  cases ev with
  | go sm args reply =>
    simp only [step]
    split
    · exact h
    · by_cases hv : IsValid w.c = true <;> simp [Go, sendRegister, registerCall, hv, h]
  | written err =>
    simp only [step, sendWritten]
    split
    · exact h
    · cases err with
      | none => simpa using h
      | some e =>
        simp only [removeCall]
        split <;> rename_i heq <;> simp at heq <;> obtain ⟨rfl, _⟩ := heq <;> simpa using h
  | recv hdr body =>
    simp only [step]
    split
    · cases hdr with
      | error e => simpa [receiveIter] using h
      | ok header =>
        simp only [receiveIter, removeCall]
        split <;> rename_i heq <;> simp at heq <;> obtain ⟨rfl, _⟩ := heq
        · cases body <;> simpa using h
        · split <;> cases body <;> simpa using h
    · exact h
  | terminate =>
    simp only [step]
    split
    · split
      · exact h
      · simpa [terminateCalls] using h
    · exact h
  | close err =>
    simp only [step, Close]
    split <;> simpa using h

/-- Every run keeps the `Err` of the client's own header empty. -/
theorem exec_header_Err (Errorf : String → Error) (evs : List Event) (w : World)
    (h : w.c.header.Err = "") : (exec Errorf w evs).c.header.Err = "" := by
  induction evs generalizing w with
  | nil => exact h
  | cons ev evs ih => exact ih (step Errorf w ev) (step_header_Err Errorf w ev h)

/-- C1 (the code departs from the claim). The receive loop tests the `Err` of the
client's own header, which every run keeps empty, instead of the `Err` of the
header it has just read. So for a reply header whose seq is pending, whatever
its `Err`, the iteration calls `ReadBody(call.Reply)` and stores the decoded
body in the reply holder, and it sets no error on the call; for the header
with `Err` "boom" the call ends with `Err` nil and the reply 7, after the codec
calls `Write`, `ReadHeader`, `ReadBody(call.Reply)`. -/
theorem receive_tests_own_header :
    (∀ (Errorf : String → Error) (evs : List Event),
        (exec Errorf NewGobClient evs).c.header.Err = "") ∧
    (∀ (Errorf : String → Error) (evs : List Event) (header : Header) (v : Value) (call : Nat),
        mapLookup (exec Errorf NewGobClient evs).c.Pending header.Seq = some call →
        (receiveIter Errorf (exec Errorf NewGobClient evs) (Except.ok header) (Except.ok v)).codec
          = (exec Errorf NewGobClient evs).codec
              ++ [CodecOp.ReadHeader, CodecOp.ReadBody (some call)] ∧
        (receiveIter Errorf (exec Errorf NewGobClient evs) (Except.ok header) (Except.ok v)).calls
          = Done (updateCall (exec Errorf NewGobClient evs).calls call
              (fun k => { k with Reply := v })) call) ∧
    (exec (fun s => s) NewGobClient
        [Event.go "Foo.Sum" (service.ArgsValue 1 3) (Value.int 0), Event.written none,
         Event.recv (Except.ok { ServiceMethod := "Foo.Sum", Seq := 0, Err := "boom" })
           (Except.ok (Value.int 7))]).calls
      = [{ ServiceMethod := "Foo.Sum", Args := service.ArgsValue 1 3, Seq := 0, done := 1,
           Err := none, Reply := Value.int 7 }] ∧
    (exec (fun s => s) NewGobClient
        [Event.go "Foo.Sum" (service.ArgsValue 1 3) (Value.int 0), Event.written none,
         Event.recv (Except.ok { ServiceMethod := "Foo.Sum", Seq := 0, Err := "boom" })
           (Except.ok (Value.int 7))]).codec
      = [CodecOp.Write { ServiceMethod := "Foo.Sum", Seq := 0, Err := "" } (service.ArgsValue 1 3),
         CodecOp.ReadHeader, CodecOp.ReadBody (some 0)] := by
  refine ⟨fun Errorf evs => exec_header_Err Errorf evs _ rfl, ?_, by decide, by decide⟩
  intro Errorf evs header v call hl
  have h0 := exec_header_Err Errorf evs NewGobClient rfl
  simp [receiveIter, removeCall, hl, h0]

end client

namespace server

/-- When `readRequest` returns a request, it has consumed at least the header. -/
theorem readRequest_consumes (s : Server) (c c1 : Codec) (request : Request) (e : Option Error)
    (h : readRequest s c = (c1, Except.ok (some request, e))) :
    c1.input.length < c.input.length := by
  unfold readRequest readRequestHeader Codec.ReadHeader at h
  cases hin : c.input with
  | nil => simp [hin] at h
  | cons item rest =>
    cases item with
    | body v => simp [hin] at h
    | malformed => simp [hin] at h
    | header hd =>
      simp only [hin] at h
      split at h
      · split at h
        · cases h
        · cases h
        · unfold Codec.ReadBody at h
          cases rest with
          | nil =>
            simp only at h
            cases h
            simp
          | cons item2 rest2 =>
            cases item2 <;> simp only at h <;> cases h <;> simp <;> omega
      · cases h
        simp

/-- The loop of `serveCodec` is left before the fuel runs out: with more fuel
than the stream has values, more fuel changes nothing. -/
theorem serveLoop_fuel_enough (s : Server) (n : Nat) (c : Codec) (reqs : List Request)
    (fuel : Nat) (hlen : c.input.length < n) (hle : n ≤ fuel) :
    serveLoop s fuel c reqs = serveLoop s n c reqs := by
  induction n generalizing c reqs fuel with
  | zero => omega
  | succ n ih =>
    obtain ⟨f, rfl⟩ : ∃ f, fuel = f + 1 := ⟨fuel - 1, by omega⟩
    unfold serveLoop
    split
    · rfl
    · rfl
    · rename_i c1 request err heq
      have := readRequest_consumes s c c1 request (some err) heq
      exact ih _ _ _ (by simp [sendResponse, Codec.Write]; omega) (by omega)
    · rename_i c1 request heq
      have := readRequest_consumes s c c1 request none heq
      exact ih _ _ _ (by omega) (by omega)
    · rfl

/-- When `findService` finds no service for the header just read, `readRequest`
returns after the one `ReadHeader`: it performs no `ReadBody`, and the body
stays on the stream. -/
theorem readRequest_skips_body_on_lookup_failure (s : Server) (c : Codec) (header : Header)
    (rest : List Item) (hin : c.input = Item.header header :: rest)
    (hf : (findService s header.ServiceMethod).1 = none) :
    (readRequest s c).1 = { input := rest, ops := c.ops ++ [CodecOp.ReadHeader] } := by
  simp only [readRequest, readRequestHeader, Codec.ReadHeader, hin]
  split
  · rename_i heq; simp [heq] at hf
  · rfl

/-- When `findService` finds the service and the method and both holders can
be built, `readRequest` performs the `ReadHeader` and then one `ReadBody` into
the args holder. -/
theorem readRequest_reads_body_when_found (s : Server) (c : Codec) (header : Header)
    (rest : List Item) (svc : service.Service) (m : service.Method) (args reply : RValue)
    (hin : c.input = Item.header header :: rest)
    (hf : findService s header.ServiceMethod = (some svc, some m, none))
    (ha : m.NewArgs = Except.ok args) (hr : m.NewReply = Except.ok reply) :
    (readRequest s c).1.ops = c.ops ++ [CodecOp.ReadHeader, CodecOp.ReadBody true] := by
  simp only [readRequest, readRequestHeader, Codec.ReadHeader, hin, hf, ha, hr, Codec.ReadBody]
  cases rest with
  | nil => simp
  | cons item rest2 => cases item <;> simp

/-- C2 (the code departs from the claim). For a header whose service-method
name is malformed ("Foo"), whose service is not registered ("Bar.Sum") or whose
method is not registered ("Foo.sum"), `readRequest` performs the `ReadHeader`
and no `ReadBody`: the body stays on the stream. `serveCodec` then answers
with the error response and its next `ReadHeader` consumes that body, fails,
and ends the loop: the well-formed request that follows is never dispatched. -/
theorem readRequest_leaves_body_unread :
    (readRequest FooServer (NewGobCodec
        [Item.header { ServiceMethod := "Foo", Seq := 0, Err := "" },
         Item.body (service.ArgsValue 1 3)])).1
      = { input := [Item.body (service.ArgsValue 1 3)], ops := [CodecOp.ReadHeader] } ∧
    (readRequest FooServer (NewGobCodec
        [Item.header { ServiceMethod := "Bar.Sum", Seq := 0, Err := "" },
         Item.body (service.ArgsValue 1 3)])).1
      = { input := [Item.body (service.ArgsValue 1 3)], ops := [CodecOp.ReadHeader] } ∧
    (readRequest FooServer (NewGobCodec
        [Item.header { ServiceMethod := "Foo.sum", Seq := 0, Err := "" },
         Item.body (service.ArgsValue 1 3)])).1
      = { input := [Item.body (service.ArgsValue 1 3)], ops := [CodecOp.ReadHeader] } ∧
    (serveCodec FooServer (NewGobCodec
        [Item.header { ServiceMethod := "Foo", Seq := 0, Err := "" },
         Item.body (service.ArgsValue 1 3),
         Item.header { ServiceMethod := "Foo.Sum", Seq := 1, Err := "" },
         Item.body (service.ArgsValue 1 3)]) option.DefaultOption).c
      = { input := [Item.header { ServiceMethod := "Foo.Sum", Seq := 1, Err := "" },
                    Item.body (service.ArgsValue 1 3)],
          ops := [CodecOp.ReadHeader,
                  CodecOp.Write { ServiceMethod := "Foo", Seq := 0,
                                  Err := "the format of serviceMethod is wrong" } invalidRequest,
                  CodecOp.ReadHeader, CodecOp.Close] } ∧
    (serveCodec FooServer (NewGobCodec
        [Item.header { ServiceMethod := "Foo", Seq := 0, Err := "" },
         Item.body (service.ArgsValue 1 3),
         Item.header { ServiceMethod := "Foo.Sum", Seq := 1, Err := "" },
         Item.body (service.ArgsValue 1 3)]) option.DefaultOption).dispatched.length = 0 := by
  refine ⟨by decide, by decide, by decide, by decide, by decide⟩

/-- C6 (the code departs from the claim). `serveConn` compares
`opt.MagicNumber` with itself, so whatever the magic number of the decoded
`Option` is, with codec type `GobType` it builds the codec and calls `serveCodec`. -/
theorem serveConn_accepts_any_magic (s : Server) (magic : Nat) (connectTimeOut handleTimeOut : Int)
    (input : List Item) :
    serveConn s (Except.ok { MagicNumber := magic, CodecType := GobType,
                             ConnectTimeOut := connectTimeOut, HandleTimeOut := handleTimeOut })
        input
      = some (serveCodec s (NewGobCodec input)
          { MagicNumber := magic, CodecType := GobType,
            ConnectTimeOut := connectTimeOut, HandleTimeOut := handleTimeOut }) := by
  simp [serveConn, NewCodecFuncMap, mapLookup]

/-- The invariant holds when `handleRequest` starts. -/
theorem handlerInv_init (header : Header) (reply : Value) (timeout : Int) :
    handlerInv header.Seq (handlerInit header reply timeout) := by
  unfold handlerInv handlerInit
  by_cases ht : timeout = 0 <;> simp [ht, handlerFrames]

/-- Every step of `handleRequest` keeps the invariant. -/
theorem handlerInv_step (seq : Nat) (h : Handler) (ev : HandlerEvent)
    (hi : handlerInv seq h) : handlerInv seq (handlerStep h ev) := by
  obtain ⟨g, m, header, reply, written⟩ := h
  obtain ⟨h1, h2, h3⟩ := hi
  simp only at h1 h2 h3
  cases ev with
  | callReturns err reply2 =>
    cases g <;> simp only [handlerStep, handlerInv] <;> first
      | exact ⟨h1, h2, h3⟩
      | (refine ⟨h1, ?_, h3⟩; cases m <;> simp_all [handlerFrames])
  | chSync =>
    cases g <;> cases m <;> simp only [handlerStep, handlerInv] <;> first
      | exact ⟨h1, h2, h3⟩
  | respond =>
    cases g <;> simp only [handlerStep, handlerInv] <;> first
      | exact ⟨h1, h2, h3⟩
      | (rename_i err
         cases m <;> simp [handlerFrames] at h2
         have hw : written = [] := List.eq_nil_of_length_eq_zero h2.symm
         subst hw
         cases err <;> simp [handlerFrames, h1])
  | sendSync =>
    cases g <;> cases m <;> simp only [handlerStep, handlerInv] <;> first
      | exact ⟨h1, h2, h3⟩
  | timerFires =>
    cases m <;> simp only [handlerStep, handlerInv] <;> first
      | exact ⟨h1, h2, h3⟩
      | (refine ⟨h1, ?_, h3⟩; cases g <;> simp_all [handlerFrames])
  | timeoutRespond =>
    cases m <;> simp only [handlerStep, handlerInv] <;> first
      | exact ⟨h1, h2, h3⟩
      | (cases g <;> simp [handlerFrames] at h2 <;>
          (have hw : written = [] := List.eq_nil_of_length_eq_zero h2.symm
           subst hw
           simp [handlerFrames, h1]))

/-- Every run of `handleRequest` keeps the invariant. -/
theorem handlerInv_run (seq : Nat) (evs : List HandlerEvent) (h : Handler)
    (hi : handlerInv seq h) : handlerInv seq (handlerRun h evs) := by
  induction evs generalizing h with
  | nil => exact hi
  | cons ev evs ih => exact ih (handlerStep h ev) (handlerInv_step seq h ev hi)

/-- No reachable combination of control points has more than one frame written. -/
theorem handlerFrames_le_one (g : GoPc) (m : MainPc) (n : Nat)
    (h : handlerFrames g m = some n) : n ≤ 1 := by
  cases g <;> cases m <;> simp_all [handlerFrames] <;> omega

/-- A step only appends to the frames written. -/
theorem handlerStep_written (h : Handler) (ev : HandlerEvent) :
    ∃ l, (handlerStep h ev).written = h.written ++ l := by
  cases ev <;> simp only [handlerStep] <;> split <;>
    first
      | exact ⟨_, rfl⟩
      | exact ⟨[], (List.append_nil _).symm⟩

/-- A run only appends to the frames written. -/
theorem handlerRun_written (evs : List HandlerEvent) (h : Handler) :
    ∃ l, (handlerRun h evs).written = h.written ++ l := by
  induction evs generalizing h with
  | nil => exact ⟨[], by simp [handlerRun]⟩
  | cons ev evs ih =>
    obtain ⟨l1, h1⟩ := handlerStep_written h ev
    obtain ⟨l2, h2⟩ := ih (handlerStep h ev)
    refine ⟨l1 ++ l2, ?_⟩
    simp only [handlerRun, List.foldl_cons] at h2 ⊢
    rw [h2, h1, List.append_assoc]

/-- A run of a concatenation is the run of the second part after the first. -/
theorem handlerRun_append (h : Handler) (evs evs2 : List HandlerEvent) :
    handlerRun h (evs ++ evs2) = handlerRun (handlerRun h evs) evs2 := by
  simp [handlerRun, List.foldl_append]

/-- C3. For every timeout (zero or not) and every interleaving of the steps of
`handleRequest`, of its goroutine and of the timer, at most one response frame
is written, and it carries the seq of the request. Once a frame is written no
continuation of the run writes another: after the timeout response the
goroutine stays blocked at `ch <- struct{}{}` and its late result is never
written, and after the response of the invocation no timeout response is
written. Both outcomes occur: the run in which the timer fires first writes
only the timeout response, the run in which `ch` is received first writes only
the response of the invocation. -/
theorem handleRequest_at_most_one_response (header : Header) (reply : Value) (timeout : Int)
    (evs : List HandlerEvent) :
    (handlerRun (handlerInit header reply timeout) evs).written.length ≤ 1 ∧
    (∀ f ∈ (handlerRun (handlerInit header reply timeout) evs).written, f.1.Seq = header.Seq) ∧
    (∀ evs2 : List HandlerEvent,
      (handlerRun (handlerInit header reply timeout) evs).written ≠ [] →
      (handlerRun (handlerInit header reply timeout) (evs ++ evs2)).written
        = (handlerRun (handlerInit header reply timeout) evs).written) ∧
    (timeout ≠ 0 →
      (handlerRun (handlerInit header reply timeout)
          [HandlerEvent.timerFires, HandlerEvent.timeoutRespond,
           HandlerEvent.callReturns none reply, HandlerEvent.chSync, HandlerEvent.respond]).written
        = [({ header with Err := timeoutErr }, invalidRequest)]) ∧
    (handlerRun (handlerInit header reply timeout)
        [HandlerEvent.callReturns none reply, HandlerEvent.chSync, HandlerEvent.timerFires,
         HandlerEvent.timeoutRespond, HandlerEvent.respond, HandlerEvent.sendSync]).written
      = [(header, reply)] := by
  have hinv : ∀ es, handlerInv header.Seq (handlerRun (handlerInit header reply timeout) es) :=
    fun es => handlerInv_run _ es _ (handlerInv_init header reply timeout)
  refine ⟨handlerFrames_le_one _ _ _ (hinv evs).2.1, (hinv evs).2.2, ?_, ?_, ?_⟩
  · intro evs2 hne
    obtain ⟨l, hl⟩ := handlerRun_written evs2 (handlerRun (handlerInit header reply timeout) evs)
    have hlen := handlerFrames_le_one _ _ _ (hinv (evs ++ evs2)).2.1
    rw [handlerRun_append, hl] at hlen ⊢
    have h1 : 0 < (handlerRun (handlerInit header reply timeout) evs).written.length :=
      List.length_pos.mpr hne
    rw [List.length_append] at hlen
    have h0 : l = [] := List.eq_nil_of_length_eq_zero (by omega)
    rw [h0, List.append_nil]
  · intro ht
    simp [handlerRun, handlerInit, handlerStep, ht]
  · by_cases ht : timeout = 0 <;> simp [handlerRun, handlerInit, handlerStep, ht]

end server

/-- Looking a key up after a deletion. -/
theorem mapLookup_mapDelete {κ β : Type} [DecidableEq κ] (m : List (κ × β)) (k k2 : κ) :
    mapLookup (mapDelete m k) k2 = if k2 = k then none else mapLookup m k2 := by
  induction m with
  | nil => simp [mapDelete, mapLookup]
  | cons p rest ih =>
    simp only [mapDelete] at ih
    by_cases h1 : p.1 = k <;> by_cases h2 : p.1 = k2 <;> by_cases h3 : k2 = k <;>
      simp_all [mapDelete, mapLookup, List.filter_cons]

/-- Looking a key up after an insertion. -/
theorem mapLookup_mapInsert {κ β : Type} [DecidableEq κ] (m : List (κ × β)) (k k2 : κ) (v : β) :
    mapLookup (mapInsert m k v) k2 = if k2 = k then some v else mapLookup m k2 := by
  by_cases h : k2 = k
  · subst h; simp [mapInsert, mapLookup]
  · have h2 : ¬ k = k2 := fun e => h e.symm
    simp [mapInsert, mapLookup, h, h2, mapLookup_mapDelete]

namespace service

/-- Looking a name up after the counts of the entries of `name` have been changed by `f`. -/
theorem mapLookup_bump (l : List (String × service.Method)) (name name2 : String)
    (f : service.Method → service.Method) :
    mapLookup (l.map (fun (kv : String × service.Method) =>
        if kv.1 = name then (kv.1, f kv.2) else kv)) name2
      = (mapLookup l name2).map (fun m => if name2 = name then f m else m) := by
  induction l with
  | nil => simp [mapLookup]
  | cons kv rest ih =>
    by_cases h1 : kv.1 = name <;> by_cases h2 : kv.1 = name2 <;>
      simp_all [mapLookup]

/-- C7 (the code departs from the claim). For a name that is not a key of
`Methods`, `Service.Call` does not return a method-not-found error: the lookup
gives a nil `*Method` and `atomic.AddUint64(&m.CallNum, 1)` panics with a nil
pointer dereference. No underlying function is invoked and no call count
changes. So it is for `Foo` and the unexported name "sum". -/
theorem Call_unknown_method_panics :
    (∀ (s : Service) (name : String) (args reply : Value),
        mapLookup s.Methods name = none →
        (s.Call name args reply).result
          = Except.error "runtime error: invalid memory address or nil pointer dereference" ∧
        (s.Call name args reply).invoked = [] ∧
        callNums (s.Call name args reply).s = callNums s) ∧
    mapLookup FooSvc.Methods "sum" = none ∧
    (FooSvc.Call "sum" (ArgsValue 1 3) (Value.ptr (Value.int 0))).result
      = Except.error "runtime error: invalid memory address or nil pointer dereference" := by
  refine ⟨?_, rfl, rfl⟩
  intro s name args reply h
  simp [Service.Call, h]

/-- C8, counterexample. The call count is a `uint64`: for the service `Foo`
whose method `Sum` has the count `2 ^ 64 - 1`, `Service.Call` leaves the count
0, which is not an increase by 1. -/
theorem Call_count_wraps :
    callNums (FooSvcAt (2 ^ 64 - 1)) = [("Sum", 2 ^ 64 - 1)] ∧
    callNums ((FooSvcAt (2 ^ 64 - 1)).Call "Sum" (ArgsValue 1 3) (Value.ptr (Value.int 0))).s
      = [("Sum", 0)] := by
  constructor <;> decide

/-- For a registered method, `Service.Call` calls the underlying function once,
with the receiver, `args` and `reply`, returns what the function returned as
its error, adds 1 modulo `2 ^ 64` to the count of the method, and leaves the
count of every other method as it was. -/
theorem Call_registered (s : Service) (name : String) (m : service.Method)
    (args reply : Value) (h : mapLookup s.Methods name = some m) :
    (s.Call name args reply).invoked = [[s.Value, args, reply]] ∧
    (s.Call name args reply).result = Except.ok (m.Method.Func [s.Value, args, reply]).err ∧
    (mapLookup (s.Call name args reply).s.Methods name).map Method.CallNums
      = some ((m.CallNums + 1) % u64) ∧
    (m.CallNums + 1 < u64 →
      (mapLookup (s.Call name args reply).s.Methods name).map Method.CallNums
        = some (m.CallNums + 1)) ∧
    (∀ name2, name2 ≠ name →
      (mapLookup (s.Call name args reply).s.Methods name2).map Method.CallNums
        = (mapLookup s.Methods name2).map Method.CallNums) := by
  have hb := fun name2 => mapLookup_bump s.Methods name name2
    (fun m2 => { m2 with CallNum := (m2.CallNum + 1) % u64 })
  refine ⟨?_, ?_, ?_, ?_, ?_⟩
  · simp [Service.Call, h]
  · simp [Service.Call, h]
  · simp [Service.Call, h, hb, Method.CallNums]
  · intro hlt
    simp only [Method.CallNums] at hlt
    simp [Service.Call, h, hb, Method.CallNums, Nat.mod_eq_of_lt hlt]
  · intro name2 hne
    simp only [Service.Call, h, hb]
    cases mapLookup s.Methods name2 <;> simp [hne]

/-- C8, amended. For every registered method and every args and reply holder,
`Service.Call` invokes the underlying function once with (receiver, args,
reply), sets the `CallNums` of that method to its old value plus 1 modulo
`2 ^ 64` (an increase by exactly 1 unless the count was `2 ^ 64 - 1`), leaves
the count of every other method unchanged, and returns nil if the function
returned a nil error and that same error otherwise. For `Foo.Sum` with
`Args{Num1: 1, Num2: 3}` on a fresh service the result is nil, the reply is 4
and `CallNums` is 1. -/
theorem Call_registered_method :
    (∀ (s : Service) (name : String) (m : service.Method) (args reply : Value),
      mapLookup s.Methods name = some m →
      (s.Call name args reply).invoked = [[s.Value, args, reply]] ∧
      (s.Call name args reply).result = Except.ok (m.Method.Func [s.Value, args, reply]).err ∧
      (mapLookup (s.Call name args reply).s.Methods name).map Method.CallNums
        = some ((m.CallNums + 1) % u64) ∧
      (m.CallNums + 1 < u64 →
        (mapLookup (s.Call name args reply).s.Methods name).map Method.CallNums
          = some (m.CallNums + 1)) ∧
      (∀ name2, name2 ≠ name →
        (mapLookup (s.Call name args reply).s.Methods name2).map Method.CallNums
          = (mapLookup s.Methods name2).map Method.CallNums)) ∧
    (∃ m : service.Method, mapLookup FooSvc.Methods "Sum" = some m ∧ m.CallNums = 0 ∧
      m.NewReply = Except.ok { typ := PtrTo intType, val := Value.ptr (Value.int 0) }) ∧
    (FooSvc.Call "Sum" (ArgsValue 1 3) (Value.ptr (Value.int 0))).reply
      = Value.ptr (Value.int 4) ∧
    (FooSvc.Call "Sum" (ArgsValue 1 3) (Value.ptr (Value.int 0))).result = Except.ok none ∧
    (FooSvc.Call "Sum" (ArgsValue 1 3) (Value.ptr (Value.int 0))).invoked
      = [[Value.ptr (Value.int 0), ArgsValue 1 3, Value.ptr (Value.int 0)]] ∧
    (mapLookup (FooSvc.Call "Sum" (ArgsValue 1 3) (Value.ptr (Value.int 0))).s.Methods
        "Sum").map Method.CallNums = some 1 := by
  refine ⟨Call_registered, ⟨_, rfl, rfl, rfl⟩, rfl, rfl, ?_, ?_⟩
  · exact (Call_registered FooSvc "Sum" _ (ArgsValue 1 3) (Value.ptr (Value.int 0)) rfl).1
  · exact (Call_registered FooSvc "Sum" _ (ArgsValue 1 3)
      (Value.ptr (Value.int 0)) rfl).2.2.2.1 (by decide)

/-- The keys of the table after one iteration of the loop of `registerMethod`. -/
theorem registerOne_lookup (IsUpper : Char → Bool) (acc : List (String × service.Method))
    (m : reflect.Method) (name : String) :
    (mapLookup (registerOne IsUpper acc m) name).isSome = true ↔
      (mapLookup acc name).isSome = true ∨
        (m.Name = name ∧ m.In.length = 3 ∧ m.Out = [errorType] ∧
          (∀ t, m.In[1]? = some t → isExportedOrBuiltinType IsUpper t = true) ∧
          (∀ t, m.In[2]? = some t → isExportedOrBuiltinType IsUpper t = true)) := by
  obtain ⟨mname, ins, outs, func⟩ := m
  simp only [registerOne]
  match outs, ins with
  | [out0], [in0, in1, in2] =>
    by_cases ho : out0 = errorType <;> by_cases h1 : isExportedOrBuiltinType IsUpper in1 = true <;>
      by_cases h2 : isExportedOrBuiltinType IsUpper in2 = true <;>
      by_cases hn : name = mname <;>
      simp_all [mapLookup_mapInsert]
    intro h
    exact absurd h.symm (by assumption)
  | [], _ => simp
  | _ :: _ :: _, _ => simp
  | [_], [] => simp
  | [_], [_] => simp
  | [_], [_, _] => simp
  | [_], _ :: _ :: _ :: _ :: _ => simp

/-- The keys of the table after the loop of `registerMethod`. -/
theorem foldl_registerOne_lookup (IsUpper : Char → Bool) (ms : List reflect.Method)
    (acc : List (String × service.Method)) (name : String) :
    (mapLookup (ms.foldl (registerOne IsUpper) acc) name).isSome = true ↔
      (mapLookup acc name).isSome = true ∨
        ∃ m ∈ ms, m.Name = name ∧ m.In.length = 3 ∧ m.Out = [errorType] ∧
          (∀ t, m.In[1]? = some t → isExportedOrBuiltinType IsUpper t = true) ∧
          (∀ t, m.In[2]? = some t → isExportedOrBuiltinType IsUpper t = true) := by
  induction ms generalizing acc with
  | nil => simp
  | cons m rest ih =>
    rw [List.foldl_cons, ih, registerOne_lookup]
    constructor
    · rintro ((h | h) | ⟨m2, hm2, h⟩)
      · exact Or.inl h
      · exact Or.inr ⟨m, List.mem_cons_self _ _, h⟩
      · exact Or.inr ⟨m2, List.mem_cons_of_mem _ hm2, h⟩
    · rintro (h | ⟨m2, hm2, h⟩)
      · exact Or.inl (Or.inl h)
      · rcases List.mem_cons.mp hm2 with rfl | hr
        · exact Or.inl (Or.inr h)
        · exact Or.inr ⟨m2, hr, h⟩

/-- The test `ast.IsExported` accepts the names that are exported in the words
of the specification. -/
theorem IsExported_iff (IsUpper : Char → Bool) (name : String) :
    IsExported IsUpper name = true ↔ exportedName IsUpper name := by
  unfold IsExported exportedName
  cases h : name.data with
  | nil => simp
  | cons ch rest => simp

/-- The test `isExportedOrBuiltinType` accepts the types with an exported name
or an empty package path. -/
theorem isExportedOrBuiltinType_iff (IsUpper : Char → Bool) (t : RType) :
    isExportedOrBuiltinType IsUpper t = true ↔ exportedOrBuiltin IsUpper t := by
  unfold isExportedOrBuiltinType exportedOrBuiltin
  rw [Bool.or_eq_true, IsExported_iff, beq_iff_eq]

/-- The conditions of `registerMethod` on a method that is exported, in the
words of the specification. -/
theorem eligible_iff (IsUpper : Char → Bool) (m : reflect.Method) :
    eligible IsUpper m ↔
      IsExported IsUpper m.Name = true ∧ m.In.length = 3 ∧ m.Out = [errorType] ∧
        (∀ t, m.In[1]? = some t → isExportedOrBuiltinType IsUpper t = true) ∧
        (∀ t, m.In[2]? = some t → isExportedOrBuiltinType IsUpper t = true) := by
  obtain ⟨mname, ins, outs, func⟩ := m
  simp only [eligible, IsExported_iff, isExportedOrBuiltinType_iff]
  constructor
  · rintro ⟨hn, ⟨recv, args, reply, hin, ha, hr⟩, ho⟩
    subst hin
    refine ⟨hn, rfl, ho, ?_, ?_⟩
    · intro t ht
      simp at ht
      subst ht
      exact ha
    · intro t ht
      simp at ht
      subst ht
      exact hr
  · rintro ⟨hn, hlen, ho, ha, hr⟩
    match ins, hlen with
    | [recv, args, reply], _ =>
      exact ⟨hn, ⟨recv, args, reply, rfl, ha args (by simp), hr reply (by simp)⟩, ho⟩

/-- C9. For every value passed to `NewService` (which returns a service
whenever the type of the value has an element type), a name is a key of the
resulting `Methods` exactly when the method set has a method of that name that
is exported (its name starts with an upper-case letter), has exactly two inputs
after the receiver, has exactly one output, of the type `error`, and whose args
type and reply type both have an exported name or an empty package path. For
`Foo` with the methods `Sum` and `sum`, `Methods` has the one entry "Sum" and
"sum" is absent. For a type with ten methods, the table holds `Sum` and `Inc`
(whose args type `int` has a lower-case name and an empty package path) and
none of the others: `HidArgs` and `HidReply` have the type `hidden` of package
`rpc/service` as args or reply type, `One` and `Three` have one and three
inputs, `NoErr` returns an `int`, `Two` two values, `None` nothing, and `sum` is
not exported. -/
theorem NewService_registers_eligible_methods :
    (∀ (IsUpper : Char → Bool) (t : TypeInfo) (value : Value) (s : Service),
      NewService IsUpper t value = Except.ok s →
      ∀ name : String,
        (mapLookup s.Methods name).isSome = true ↔
          ∃ m ∈ t.methods, m.Name = name ∧ eligible IsUpper m) ∧
    (∀ (IsUpper : Char → Bool) (t : TypeInfo) (value : Value),
      (∃ e, t.typ.Elem = Except.ok e) → ∃ s, NewService IsUpper t value = Except.ok s) ∧
    NewService Char.isUpper FooPtrInfo (Value.ptr (Value.int 0)) = Except.ok FooSvc ∧
    FooSvc.Methods.map Prod.fst = ["Sum"] ∧
    mapLookup FooSvc.Methods "sum" = none ∧
    (∃ s, NewService Char.isUpper MixedPtrInfo (Value.ptr (Value.int 0)) = Except.ok s ∧
      s.Methods.map Prod.fst = ["Inc", "Sum"]) ∧
    (MixedPtrInfo.methods.map reflect.Method.Name
      = ["Sum", "Inc", "HidArgs", "HidReply", "One", "Three", "NoErr", "Two", "None", "sum"]) ∧
    (∀ m ∈ MixedPtrInfo.methods,
      eligible Char.isUpper m ↔ m.Name = "Sum" ∨ m.Name = "Inc") ∧
    ¬ exportedOrBuiltin Char.isUpper hiddenType ∧
    exportedOrBuiltin Char.isUpper intType ∧
    exportedOrBuiltin Char.isUpper ArgsType ∧
    exportedOrBuiltin Char.isUpper (PtrTo hiddenType) := by
  have hhid : ¬ exportedOrBuiltin Char.isUpper hiddenType := by
    rw [← isExportedOrBuiltinType_iff]
    decide
  refine ⟨?_, ?_, rfl, by decide, rfl, ⟨_, rfl, by decide⟩, by decide, ?_, hhid,
    Or.inr rfl, Or.inl ⟨'A', ['r', 'g', 's'], rfl, by decide⟩, Or.inr rfl⟩
  · intro IsUpper t value s h name
    unfold NewService at h
    split at h
    · cases h
    · injection h with h
      subst h
      simp only [registerMethod, exportedMethods, foldl_registerOne_lookup, mapLookup,
        Option.isSome_none, Bool.false_eq_true, false_or, List.mem_filter, eligible_iff]
      constructor
      · rintro ⟨m, ⟨hm, he⟩, hn, h3⟩
        exact ⟨m, hm, hn, he, h3⟩
      · rintro ⟨m, hm, hn, he, h3⟩
        exact ⟨m, ⟨hm, he⟩, hn, h3⟩
  · rintro IsUpper t value ⟨e, he⟩
    simp [NewService, he]
  · intro m hm
    rw [eligible_iff]
    simp only [MixedPtrInfo, List.mem_cons, List.mem_singleton, List.not_mem_nil, or_false] at hm
    rcases hm with rfl | rfl | rfl | rfl | rfl | rfl | rfl | rfl | rfl | rfl <;> decide

/-- C10 (the code departs from the claim). `registerMethod` does not test that
the second input is a pointer: the exported method
`Bad(args Args, reply int) error` is entered in `Methods` with the reply type
`int`, and `NewReply` for it panics in `m.Reply.Elem()`. For a method whose
reply type is a pointer type `*e`, `NewReply` does return a non-nil pointer to a
fresh value: an empty non-nil map or slice when `e` is a map or slice type,
the zero value of `e` otherwise. -/
theorem registerMethod_accepts_non_pointer_reply :
    (∃ (s : Service) (m : service.Method),
      NewService Char.isUpper BadPtrInfo (Value.ptr (Value.int 0)) = Except.ok s ∧
      mapLookup s.Methods "Bad" = some m ∧ m.Reply = intType ∧ m.Reply.Kind = Kind.Int ∧
      m.NewReply = Except.error "reflect: Elem of invalid type int") ∧
    (∀ (m : service.Method) (e : RType), m.Reply.shape = Shape.ptr e →
      ∃ target, m.NewReply = Except.ok { typ := PtrTo e, val := Value.ptr target } ∧
        (e.Kind = Kind.Map → target = Value.mapV Values.nil Values.nil) ∧
        (e.Kind = Kind.Slice → target = Value.sliceV Values.nil) ∧
        (e.Kind ≠ Kind.Map → e.Kind ≠ Kind.Slice → target = e.zero)) := by
  refine ⟨⟨_, _, rfl, rfl, rfl, rfl, rfl⟩, ?_⟩
  intro m e h
  simp only [Method.NewReply, RType.Elem, h]
  cases hk : e.Kind <;> simp [New, RValue.setElem, MakeMap, MakeSlice, hk]

end service

namespace client

/-- Updating a call keeps the number of calls. -/
theorem updateCall_length (calls : List Call) (p : Nat) (f : Call → Call) :
    (updateCall calls p f).length = calls.length := by
  unfold updateCall
  split <;> simp

/-- The call at `q` after the call at `p` has been updated. -/
theorem updateCall_getElem (calls : List Call) (p q : Nat) (f : Call → Call) :
    (updateCall calls p f)[q]? = if q = p then (calls[q]?).map f else calls[q]? := by
  unfold updateCall
  by_cases h : q = p
  · subst h
    cases hc : calls[q]? with
    | none => simp [hc]
    | some k =>
      have hlt : q < calls.length := by
        by_contra hge
        rw [List.getElem?_eq_none (by omega)] at hc
        cases hc
      simp [hc, List.getElem?_set, hlt]
  · have h2 : ¬ p = q := fun e => h e.symm
    cases hc : calls[p]? with
    | none => simp [h]
    | some k => simp [h, h2, List.getElem?_set]

/-- The function `Done` keeps the number of calls. -/
theorem Done_length (calls : List Call) (p : Nat) : (Done calls p).length = calls.length :=
  updateCall_length _ _ _

/-- The entries of a map after a deletion. -/
theorem mem_mapDelete {κ β : Type} [DecidableEq κ] (m : List (κ × β)) (k : κ) (kv : κ × β) :
    kv ∈ mapDelete m k ↔ kv ∈ m ∧ kv.1 ≠ k := by
  simp [mapDelete, List.mem_filter]

/-- Deleting a key that is absent changes nothing. -/
theorem mapDelete_eq_self {κ β : Type} [DecidableEq κ] (m : List (κ × β)) (k : κ)
    (h : ∀ kv ∈ m, kv.1 ≠ k) : mapDelete m k = m := by
  simp only [mapDelete, List.filter_eq_self]
  intro kv hkv
  simpa using h kv hkv

/-- A successful lookup finds an entry of the map. -/
theorem mapLookup_some_mem {κ β : Type} [DecidableEq κ] (m : List (κ × β)) (k : κ) (v : β)
    (h : mapLookup m k = some v) : (k, v) ∈ m := by
  induction m with
  | nil => simp [mapLookup] at h
  | cons p rest ih =>
    simp only [mapLookup] at h
    split at h
    · rename_i hk
      cases h
      rw [← hk]
      exact List.mem_cons_self _ _
    · exact List.mem_cons_of_mem _ (ih h)

/-- A failed lookup means that no entry has the key. -/
theorem mapLookup_none_not_mem {κ β : Type} [DecidableEq κ] (m : List (κ × β)) (k : κ)
    (h : mapLookup m k = none) : ∀ kv ∈ m, kv.1 ≠ k := by
  induction m with
  | nil => simp
  | cons p rest ih =>
    simp only [mapLookup] at h
    split at h
    · cases h
    · rename_i hk
      intro kv hkv
      rcases List.mem_cons.mp hkv with rfl | hr
      · exact hk
      · exact ih h kv hr

/-- In a map without repeated keys every entry is found by lookup. -/
theorem mapLookup_of_mem_nodup {κ β : Type} [DecidableEq κ] (m : List (κ × β)) (k : κ) (v : β)
    (hn : (m.map Prod.fst).Nodup) (h : (k, v) ∈ m) : mapLookup m k = some v := by
  induction m with
  | nil => cases h
  | cons p rest ih =>
    simp only [List.map_cons, List.nodup_cons] at hn
    rcases List.mem_cons.mp h with rfl | hr
    · simp [mapLookup]
    · have hne : p.1 ≠ k := by
        intro e
        apply hn.1
        rw [e]
        exact List.mem_map.mpr ⟨(k, v), hr, rfl⟩
      simp [mapLookup, hne, ih hn.2 hr]

/-- The call at `q` after the call at `p` has been updated by `f` and completed. -/
theorem signal_getElem (calls : List Call) (p q : Nat) (f : Call → Call) :
    (Done (updateCall calls p f) p)[q]?
      = if q = p then (calls[q]?).map (fun k => { f k with done := (f k).done + 1 })
        else calls[q]? := by
  unfold Done
  rw [updateCall_getElem, updateCall_getElem]
  by_cases h : q = p
  · simp [h]
    rfl
  · simp [h]

/-- Updating and completing a call keeps the number of calls. -/
theorem signal_length (calls : List Call) (p : Nat) (f : Call → Call) :
    (Done (updateCall calls p f) p).length = calls.length := by
  rw [Done_length, updateCall_length]

/-- The invariant holds for the client that `NewGobClient` builds. -/
theorem core_init : Core 0 0 [] false [] none RecvLoop.running where
  seq_eq := by simp
  keys := by simp
  vals := by simp
  bound := by simp
  fresh := by simp
  shut := by simp
  lock := by simp
  doneLive := by simp
  doneDead := by simp

/-- The invariant does not depend on who holds `sending` beyond the clause on the holder, nor on the state of the loop beyond the clause on `ShutDown`. -/
theorem core_frame {n seq : Nat} {pending : List (Nat × Nat)} {shutDown : Bool}
    {calls : List Call} {sending : Option (Nat × Nat)} {loop : RecvLoop}
    (h : Core n seq pending shutDown calls sending loop)
    (sending2 : Option (Nat × Nat)) (loop2 : RecvLoop)
    (hs : sending2 = none ∨ sending2 = sending)
    (hl : shutDown = true ↔ loop2 = RecvLoop.ended) :
    Core n seq pending shutDown calls sending2 loop2 where
  seq_eq := h.seq_eq
  keys := h.keys
  vals := h.vals
  bound := h.bound
  fresh := h.fresh
  shut := hl
  lock := by
    intro p s hps
    rcases hs with rfl | rfl
    · cases hps
    · exact h.lock p s hps
  doneLive := h.doneLive
  doneDead := h.doneDead

/-- Deleting a key whose lookup fails changes nothing. -/
theorem mapDelete_of_lookup_none {κ β : Type} [DecidableEq κ] (m : List (κ × β)) (k : κ)
    (h : mapLookup m k = none) : mapDelete m k = m :=
  mapDelete_eq_self m k (mapLookup_none_not_mem m k h)

/-- In a map without repeated values, a value determines its key. -/
theorem key_unique_of_vals_nodup (m : List (Nat × Nat)) (a b v : Nat)
    (hn : (m.map Prod.snd).Nodup) (ha : (a, v) ∈ m) (hb : (b, v) ∈ m) : a = b := by
  induction m with
  | nil => cases ha
  | cons p rest ih =>
    simp only [List.map_cons, List.nodup_cons] at hn
    rcases List.mem_cons.mp ha with h1 | h1 <;> rcases List.mem_cons.mp hb with h2 | h2
    · rw [← h1] at h2
      exact (Prod.mk.inj h2).1.symm
    · exfalso
      apply hn.1
      rw [← h1]
      exact List.mem_map.mpr ⟨(b, v), h2, rfl⟩
    · exfalso
      apply hn.1
      rw [← h2]
      exact List.mem_map.mpr ⟨(a, v), h1, rfl⟩
    · exact ih hn.2 h1 h2

/-- Deletion keeps the keys free of repetition. -/
theorem mapDelete_keys_nodup (m : List (Nat × Nat)) (k : Nat) (h : (m.map Prod.fst).Nodup) :
    ((mapDelete m k).map Prod.fst).Nodup :=
  h.sublist ((List.filter_sublist m).map Prod.fst)

/-- Deletion keeps the values free of repetition. -/
theorem mapDelete_vals_nodup (m : List (Nat × Nat)) (k : Nat) (h : (m.map Prod.snd).Nodup) :
    ((mapDelete m k).map Prod.snd).Nodup :=
  h.sublist ((List.filter_sublist m).map Prod.snd)

/-- The invariant survives `removeCall` of a pending call followed by its completion. -/
theorem core_remove_some {n seq : Nat} {pending : List (Nat × Nat)}
    {calls : List Call} {sending : Option (Nat × Nat)} {loop : RecvLoop}
    (h : Core n seq pending false calls sending loop) (k p : Nat) (f : Call → Call)
    (hl : mapLookup pending k = some p) (hf : ∀ c, (f c).done = c.done)
    (sending2 : Option (Nat × Nat)) (loop2 : RecvLoop)
    (hs : sending2 = none ∨ sending2 = sending) (hloop : loop2 ≠ RecvLoop.ended) :
    Core n seq (mapDelete pending k) false (Done (updateCall calls p f) p) sending2 loop2 where
  seq_eq := h.seq_eq
  keys := mapDelete_keys_nodup _ _ h.keys
  vals := mapDelete_vals_nodup _ _ h.vals
  bound := by
    intro kv hkv
    rw [signal_length]
    exact h.bound kv ((mem_mapDelete _ _ _).mp hkv).1
  fresh := by
    intro hn kv hkv
    exact h.fresh hn kv ((mem_mapDelete _ _ _).mp hkv).1
  shut := by simp [hloop]
  lock := by
    intro q s hqs
    refine ⟨rfl, ?_⟩
    rcases hs with rfl | rfl
    · cases hqs
    · rw [mapLookup_mapDelete]
      by_cases hsk : s = k
      · simp [hsk]
      · simpa [hsk] using (h.lock q s hqs).2
  doneLive := by
    intro q c hq hlive
    obtain ⟨kv, hkv, hkq⟩ := List.mem_map.mp hlive.2
    obtain ⟨hkvm, hne⟩ := (mem_mapDelete _ _ _).mp hkv
    have hqp : q ≠ p := by
      intro e
      apply hne
      have h1 : (kv.1, p) ∈ pending := by rw [← e, ← hkq]; exact hkvm
      exact key_unique_of_vals_nodup pending kv.1 k p h.vals h1 (mapLookup_some_mem _ _ _ hl)
    rw [signal_getElem, if_neg hqp] at hq
    exact h.doneLive q c hq ⟨rfl, List.mem_map.mpr ⟨kv, hkvm, hkq⟩⟩
  doneDead := by
    intro q c hq hdead
    rw [signal_getElem] at hq
    by_cases hqp : q = p
    · rw [if_pos hqp] at hq
      cases hc : calls[q]? with
      | none => rw [hc] at hq; cases hq
      | some c0 =>
        rw [hc] at hq
        simp only [Option.map_some'] at hq
        cases hq
        have hlive : liveIn pending false q :=
          ⟨rfl, List.mem_map.mpr ⟨(k, p), mapLookup_some_mem _ _ _ hl, hqp.symm⟩⟩
        have h0 := h.doneLive q c0 hc hlive
        simp [hf, h0]
    · rw [if_neg hqp] at hq
      by_cases hmem : q ∈ pending.map Prod.snd
      · exfalso
        apply hdead
        refine ⟨rfl, ?_⟩
        obtain ⟨kv, hkv, hkq⟩ := List.mem_map.mp hmem
        refine List.mem_map.mpr ⟨kv, (mem_mapDelete _ _ _).mpr ⟨hkv, ?_⟩, hkq⟩
        intro e
        apply hqp
        have h1 : (k, q) ∈ pending := by rw [← e, ← hkq]; exact hkv
        have h2 := mapLookup_of_mem_nodup pending k q h.keys h1
        rw [hl] at h2
        exact (Option.some.inj h2).symm
      · exact h.doneDead q c hq (fun hl2 => hmem hl2.2)

/-- Indexing a heap with one more call. -/
theorem getElem_append_one (calls : List Call) (c0 : Call) (q : Nat) :
    (calls ++ [c0])[q]? = if q = calls.length then some c0 else calls[q]? := by
  by_cases h : q = calls.length
  · subst h; simp
  · rw [if_neg h]
    by_cases hlt : q < calls.length
    · rw [List.getElem?_append_left hlt]
    · rw [List.getElem?_eq_none (by simp; omega), List.getElem?_eq_none (by omega)]

/-- The invariant survives a `Go` whose registration fails. -/
theorem core_alloc_fail {n seq : Nat} {pending : List (Nat × Nat)} {shutDown : Bool}
    {calls : List Call} {loop : RecvLoop}
    (h : Core n seq pending shutDown calls none loop) (c0 : Call) (f : Call → Call)
    (h0 : c0.done = 0) (hf : ∀ c, (f c).done = c.done) :
    Core n seq pending shutDown
      (Done (updateCall (calls ++ [c0]) calls.length f) calls.length) none loop where
  seq_eq := h.seq_eq
  keys := h.keys
  vals := h.vals
  bound := by
    intro kv hkv
    rw [signal_length, List.length_append]
    have := h.bound kv hkv
    omega
  fresh := h.fresh
  shut := h.shut
  lock := by
    intro q s hqs
    cases hqs
  doneLive := by
    intro q c hq hlive
    obtain ⟨kv, hkv, hkq⟩ := List.mem_map.mp hlive.2
    have hlt : q < calls.length := by rw [← hkq]; exact h.bound kv hkv
    rw [signal_getElem, if_neg (by omega), getElem_append_one, if_neg (by omega)] at hq
    exact h.doneLive q c hq hlive
  doneDead := by
    intro q c hq hdead
    rw [signal_getElem, getElem_append_one] at hq
    by_cases hqp : q = calls.length
    · simp only [hqp, if_true, Option.map_some'] at hq
      cases hq
      simp [hf, h0]
    · simp only [hqp, if_false] at hq
      exact h.doneDead q c hq hdead

/-- The invariant survives a `Go` whose registration succeeds. -/
theorem core_alloc_ok {n seq : Nat} {pending : List (Nat × Nat)}
    {calls : List Call} {loop : RecvLoop}
    (h : Core n seq pending false calls none loop) (c0 : Call) (f : Call → Call)
    (h0 : c0.done = 0) (hf : ∀ c, (f c).done = c.done) :
    Core (n + 1) ((seq + 1) % u64) (mapInsert pending seq calls.length) false
      (updateCall (calls ++ [c0]) calls.length f) (some (calls.length, seq)) loop where
  seq_eq := by
    rw [h.seq_eq]
    simp [u64]
  keys := by
    simp only [mapInsert, List.map_cons, List.nodup_cons]
    refine ⟨?_, mapDelete_keys_nodup _ _ h.keys⟩
    intro hm
    obtain ⟨kv, hkv, hk⟩ := List.mem_map.mp hm
    exact ((mem_mapDelete _ _ _).mp hkv).2 hk
  vals := by
    simp only [mapInsert, List.map_cons, List.nodup_cons]
    refine ⟨?_, mapDelete_vals_nodup _ _ h.vals⟩
    intro hm
    obtain ⟨kv, hkv, hk⟩ := List.mem_map.mp hm
    have := h.bound kv ((mem_mapDelete _ _ _).mp hkv).1
    omega
  bound := by
    intro kv hkv
    rw [updateCall_length, List.length_append]
    rcases List.mem_cons.mp hkv with rfl | hr
    · simp
    · have := h.bound kv ((mem_mapDelete _ _ _).mp hr).1
      simp only [List.length_singleton]
      omega
  fresh := by
    intro hn kv hkv
    rcases List.mem_cons.mp hkv with rfl | hr
    · have hlt : n < u64 := by omega
      simp only [h.seq_eq, Nat.mod_eq_of_lt hlt]
      omega
    · have := h.fresh (by omega) kv ((mem_mapDelete _ _ _).mp hr).1
      omega
  shut := h.shut
  lock := by
    intro q s hqs
    cases hqs
    exact ⟨rfl, Or.inr (by simp [mapLookup_mapInsert])⟩
  doneLive := by
    intro q c hq hlive
    rw [updateCall_getElem, getElem_append_one] at hq
    by_cases hqp : q = calls.length
    · simp only [hqp, if_true, Option.map_some'] at hq
      cases hq
      simp [hf, h0]
    · simp only [hqp, if_false] at hq
      have hm := hlive.2
      simp only [mapInsert, List.map_cons, List.mem_cons] at hm
      rcases hm with hm | hm
      · exact absurd hm hqp
      · obtain ⟨kv, hkv, hkq⟩ := List.mem_map.mp hm
        exact h.doneLive q c hq
          ⟨rfl, List.mem_map.mpr ⟨kv, ((mem_mapDelete _ _ _).mp hkv).1, hkq⟩⟩
  doneDead := by
    intro q c hq hdead
    rw [updateCall_getElem, getElem_append_one] at hq
    have hqp : q ≠ calls.length := by
      intro e
      apply hdead
      exact ⟨rfl, by simp [mapInsert, e]⟩
    simp only [hqp, if_false] at hq
    by_cases hmem : q ∈ pending.map Prod.snd
    · have hz := h.doneLive q c hq ⟨rfl, hmem⟩
      refine ⟨by omega, ?_⟩
      intro hn
      exfalso
      apply hdead
      refine ⟨rfl, ?_⟩
      have hlt : n < u64 := by omega
      have hsame : mapDelete pending seq = pending := by
        apply mapDelete_eq_self
        intro kv hkv
        have := h.fresh (by omega) kv hkv
        rw [h.seq_eq, Nat.mod_eq_of_lt hlt]
        omega
      simp only [mapInsert, hsame, List.map_cons, List.mem_cons]
      exact Or.inr hmem
    · obtain ⟨h1, h2⟩ := h.doneDead q c hq (fun hl2 => hmem hl2.2)
      exact ⟨h1, fun hn => h2 (by omega)⟩

/-- The loop of `terminateCalls` keeps the number of calls. -/
theorem terminate_fold_length (err : Error) (ps : List (Nat × Nat)) (calls : List Call) :
    (ps.foldl (fun calls kv => Done (setErr calls kv.2 err) kv.2) calls).length
      = calls.length := by
  induction ps generalizing calls with
  | nil => rfl
  | cons kv rest ih =>
    rw [List.foldl_cons, ih]
    exact signal_length _ _ _

/-- The loop of `terminateCalls` completes a call once for each of its occurrences in `Pending`. -/
theorem terminate_fold_done (err : Error) (ps : List (Nat × Nat)) (calls : List Call)
    (q : Nat) (c : Call)
    (h : (ps.foldl (fun calls kv => Done (setErr calls kv.2 err) kv.2) calls)[q]? = some c) :
    ∃ c0, calls[q]? = some c0 ∧ c.done = c0.done + (ps.map Prod.snd).count q := by
  induction ps generalizing calls with
  | nil => exact ⟨c, h, by simp⟩
  | cons kv rest ih =>
    rw [List.foldl_cons] at h
    obtain ⟨c1, hc1, hd⟩ := ih _ h
    have hg := signal_getElem calls kv.2 q (fun k => { k with Err := some err })
    have hc1b : (Done (updateCall calls kv.2 (fun k => { k with Err := some err })) kv.2)[q]?
        = some c1 := hc1
    rw [hg] at hc1b
    by_cases hq : q = kv.2
    · rw [if_pos hq] at hc1b
      cases hc : calls[q]? with
      | none => rw [hc] at hc1b; cases hc1b
      | some c0 =>
        rw [hc] at hc1b
        simp only [Option.map_some'] at hc1b
        cases hc1b
        refine ⟨c0, rfl, ?_⟩
        rw [hd]
        simp [hq]
        omega
    · rw [if_neg hq] at hc1b
      refine ⟨c1, hc1b, ?_⟩
      rw [hd]
      have hne : ¬ kv.2 = q := fun e => hq e.symm
      simp [List.count_cons, hne]

/-- The invariant survives `terminateCalls`. -/
theorem core_terminate {n seq : Nat} {pending : List (Nat × Nat)}
    {calls : List Call} {loop : RecvLoop}
    (h : Core n seq pending false calls none loop) (err : Error) :
    Core n seq pending true
      (pending.foldl (fun calls kv => Done (setErr calls kv.2 err) kv.2) calls) none
      RecvLoop.ended where
  seq_eq := h.seq_eq
  keys := h.keys
  vals := h.vals
  bound := by
    intro kv hkv
    rw [terminate_fold_length]
    exact h.bound kv hkv
  fresh := h.fresh
  shut := by simp
  lock := by
    intro q s hqs
    cases hqs
  doneLive := by
    intro q c _ hlive
    cases hlive.1
  doneDead := by
    intro q c hq _
    obtain ⟨c0, hc0, hd⟩ := terminate_fold_done err pending calls q c hq
    by_cases hmem : q ∈ pending.map Prod.snd
    · have hz := h.doneLive q c0 hc0 ⟨rfl, hmem⟩
      have hone : (pending.map Prod.snd).count q = 1 := List.count_eq_one_of_mem h.vals hmem
      rw [hz, hone] at hd
      exact ⟨by omega, fun _ => by omega⟩
    · have hzero : (pending.map Prod.snd).count q = 0 := List.count_eq_zero_of_not_mem hmem
      rw [hzero] at hd
      obtain ⟨h1, h2⟩ := h.doneDead q c0 hc0 (fun hl2 => hmem hl2.2)
      exact ⟨by omega, fun hn => by have := h2 hn; omega⟩

/-- The test `IsValid` holds exactly when both flags are false. -/
theorem IsValid_iff (c : Client) : IsValid c = true ↔ c.ShutDown = false ∧ c.Closing = false := by
  unfold IsValid
  cases c.ShutDown <;> cases c.Closing <;> simp

/-- The step `go` keeps the invariant. -/
theorem clientInv_go (Errorf : String → Error) (w : World) (n : Nat) (sm : String)
    (args reply : Value) (h : ClientInv w n) :
    ClientInv (step Errorf w (Event.go sm args reply))
      (n + registered w (Event.go sm args reply)) := by
  unfold ClientInv at h ⊢
  cases hs : w.sending with
  | some ps => simpa [step, registered, registerResult, hs] using h
  | none =>
    rw [hs] at h
    by_cases hv : IsValid w.c = true
    · have hsd := ((IsValid_iff _).mp hv).1
      rw [hsd] at h
      have := core_alloc_ok h
        { ServiceMethod := sm, Args := args, Seq := 0, done := 0, Err := none, Reply := reply }
        (fun k => { k with Seq := w.c.Seq }) rfl (fun _ => rfl)
      simpa [step, registered, registerResult, hs, Go, sendRegister, registerCall, hv, hsd]
        using this
    · have := core_alloc_fail h
        { ServiceMethod := sm, Args := args, Seq := 0, done := 0, Err := none, Reply := reply }
        (fun k => { k with Err := some "register fail,the conn is closed" }) rfl (fun _ => rfl)
      simpa [step, registered, registerResult, hs, Go, sendRegister, registerCall, hv, setErr]
        using this

/-- The step `written` keeps the invariant. -/
theorem clientInv_written (Errorf : String → Error) (w : World) (n : Nat) (err : Option Error)
    (h : ClientInv w n) :
    ClientInv (step Errorf w (Event.written err)) (n + registered w (Event.written err)) := by
  unfold ClientInv at h ⊢
  cases hs : w.sending with
  | none => simpa [step, registered, registerResult, sendWritten, hs] using h
  | some ps =>
    obtain ⟨p, s⟩ := ps
    cases err with
    | none =>
      have := core_frame h none w.loop (Or.inl rfl) h.shut
      simpa [step, registered, registerResult, sendWritten, hs] using this
    | some e =>
      obtain ⟨hsd, hlk⟩ := h.lock p s hs
      have hloop : w.loop ≠ RecvLoop.ended := by
        intro e2
        have := h.shut.mpr e2
        rw [hsd] at this
        cases this
      rcases hlk with hlk | hlk
      · have := core_frame h none w.loop (Or.inl rfl) h.shut
        simpa [step, registered, registerResult, sendWritten, hs, removeCall, hlk,
          mapDelete_of_lookup_none _ _ hlk] using this
      · rw [hsd] at h
        have := core_remove_some h s p (fun k => { k with Err := some e }) hlk (fun _ => rfl)
          none w.loop (Or.inl rfl) hloop
        simpa [step, registered, registerResult, sendWritten, hs, removeCall, hlk, setErr, hsd]
          using this

/-- The step `recv` keeps the invariant. -/
theorem clientInv_recv (Errorf : String → Error) (w : World) (n : Nat)
    (hdr : Except Error Header) (body : Except Error Value) (h : ClientInv w n) :
    ClientInv (step Errorf w (Event.recv hdr body)) (n + registered w (Event.recv hdr body)) := by
  unfold ClientInv at h ⊢
  by_cases hrun : w.loop = RecvLoop.running
  · have hsd : w.c.ShutDown = false := by
      cases hb : w.c.ShutDown with
      | false => rfl
      | true =>
        have := h.shut.mp hb
        rw [hrun] at this
        cases this
    have hshut : ∀ e, (w.c.ShutDown = true ↔ RecvLoop.terminating e = RecvLoop.ended) := by
      intro e
      simp [hsd]
    cases hdr with
    | error e =>
      have := core_frame h w.sending (RecvLoop.terminating e) (Or.inr rfl) (hshut e)
      simpa [step, registered, registerResult, hrun, receiveIter] using this
    | ok header =>
      cases hl : mapLookup w.c.Pending header.Seq with
      | none =>
        cases body with
        | error e =>
          have := core_frame h w.sending (RecvLoop.terminating e) (Or.inr rfl) (hshut e)
          simpa [step, registered, registerResult, hrun, receiveIter, removeCall, hl,
            mapDelete_of_lookup_none _ _ hl] using this
        | ok v =>
          simpa [step, registered, registerResult, hrun, receiveIter, removeCall, hl,
            mapDelete_of_lookup_none _ _ hl] using h
      | some p =>
        have hne : w.loop ≠ RecvLoop.ended := by rw [hrun]; simp
        rw [hsd] at h
        by_cases hE : w.c.header.Err = ""
        · cases body with
          | error e =>
            have := core_remove_some h header.Seq p (fun k => { k with Err := some e }) hl
              (fun _ => rfl) w.sending (RecvLoop.terminating e) (Or.inr rfl) (by simp)
            simpa [step, registered, registerResult, hrun, receiveIter, removeCall, hl, hE,
              setErr, hsd] using this
          | ok v =>
            have := core_remove_some h header.Seq p (fun k => { k with Reply := v }) hl
              (fun _ => rfl) w.sending w.loop (Or.inr rfl) hne
            simpa [step, registered, registerResult, hrun, receiveIter, removeCall, hl, hE,
              setErr, hsd] using this
        · cases body with
          | error e =>
            have := core_remove_some h header.Seq p
              (fun k => { k with Err := some (Errorf header.Err) }) hl
              (fun _ => rfl) w.sending (RecvLoop.terminating e) (Or.inr rfl) (by simp)
            simpa [step, registered, registerResult, hrun, receiveIter, removeCall, hl, hE,
              setErr, hsd] using this
          | ok v =>
            have := core_remove_some h header.Seq p
              (fun k => { k with Err := some (Errorf header.Err) }) hl
              (fun _ => rfl) w.sending w.loop (Or.inr rfl) hne
            simpa [step, registered, registerResult, hrun, receiveIter, removeCall, hl, hE,
              setErr, hsd] using this
  · simpa [step, registered, registerResult, hrun] using h

/-- The step `terminate` keeps the invariant. -/
theorem clientInv_terminate (Errorf : String → Error) (w : World) (n : Nat) (h : ClientInv w n) :
    ClientInv (step Errorf w Event.terminate) (n + registered w Event.terminate) := by
  unfold ClientInv at h ⊢
  cases hloop : w.loop with
  | running => simpa [step, registered, registerResult, hloop] using h
  | ended => simpa [step, registered, registerResult, hloop] using h
  | terminating e =>
    cases hs : w.sending with
    | some ps => simpa [step, registered, registerResult, hloop, hs] using h
    | none =>
      have hsd : w.c.ShutDown = false := by
        cases hb : w.c.ShutDown with
        | false => rfl
        | true =>
          have := h.shut.mp hb
          rw [hloop] at this
          cases this
      rw [hsd, hs] at h
      have := core_terminate h e
      simpa [step, registered, registerResult, hloop, hs, terminateCalls] using this

/-- The step `close` keeps the invariant. -/
theorem clientInv_close (Errorf : String → Error) (w : World) (n : Nat) (err : Option Error)
    (h : ClientInv w n) :
    ClientInv (step Errorf w (Event.close err)) (n + registered w (Event.close err)) := by
  unfold ClientInv at h ⊢
  simp only [step, Close, registered, registerResult, Nat.add_zero]
  split <;> simpa using h

/-- Every step keeps the invariant, counting the registration it performs. -/
theorem clientInv_step (Errorf : String → Error) (w : World) (n : Nat) (ev : Event)
    (h : ClientInv w n) : ClientInv (step Errorf w ev) (n + registered w ev) := by
  cases ev with
  | go sm args reply => exact clientInv_go Errorf w n sm args reply h
  | written err => exact clientInv_written Errorf w n err h
  | recv hdr body => exact clientInv_recv Errorf w n hdr body h
  | terminate => exact clientInv_terminate Errorf w n h
  | close err => exact clientInv_close Errorf w n err h

/-- The invariant holds for the client that `NewGobClient` builds, with no registration so far. -/
theorem clientInv_init : ClientInv NewGobClient 0 := core_init

/-- A successful `registerCall` returns the `Seq` of the client. -/
theorem registerResult_ok (w : World) (ev : Event) (seq : Nat)
    (h : registerResult w ev = some (Except.ok seq)) : seq = w.c.Seq := by
  cases ev with
  | go sm args reply =>
    simp only [registerResult, registerCall] at h
    split at h
    · cases h
    · split at h
      · simp at h
      · simp at h
        exact h.symm
  | written err => simp [registerResult] at h
  | recv hdr body => simp [registerResult] at h
  | terminate => simp [registerResult] at h
  | close err => simp [registerResult] at h

/-- A step registers no call or one call. -/
theorem registered_cases (w : World) (ev : Event) :
    registered w ev = 0 ∨ registered w ev = 1 := by
  unfold registered
  split
  · exact Or.inr rfl
  · exact Or.inl rfl

/-- The seqs issued by a run, in terms of its first step and the rest. -/
theorem issuedSeqs_cons (Errorf : String → Error) (w : World) (ev : Event) (evs : List Event) :
    issuedSeqs Errorf w (ev :: evs)
      = (if registered w ev = 1 then [w.c.Seq] else []) ++ issuedSeqs Errorf (step Errorf w ev) evs ∧
    (issuedSeqs Errorf w (ev :: evs)).length
      = registered w ev + (issuedSeqs Errorf (step Errorf w ev) evs).length := by
  cases hr : registerResult w ev with
  | none => simp [issuedSeqs, registered, hr]
  | some r =>
    cases r with
    | error e => simp [issuedSeqs, registered, hr]
    | ok seq =>
      have := registerResult_ok w ev seq hr
      subst this
      simp [issuedSeqs, registered, hr]
      omega

/-- Every run keeps the invariant, counting its successful registrations. -/
theorem clientInv_exec (Errorf : String → Error) (evs : List Event) (w : World) (n : Nat)
    (h : ClientInv w n) :
    ClientInv (exec Errorf w evs) (n + (issuedSeqs Errorf w evs).length) := by
  induction evs generalizing w n with
  | nil => simpa [exec, issuedSeqs] using h
  | cons ev evs ih =>
    have h1 := ih _ _ (clientInv_step Errorf w n ev h)
    rw [(issuedSeqs_cons Errorf w ev evs).2, ← Nat.add_assoc]
    exact h1

/-- After `n` registrations the seqs issued by a run are `n`, `n + 1`, ... modulo `2 ^ 64`. -/
theorem issuedSeqs_eq (Errorf : String → Error) (evs : List Event) (w : World) (n : Nat)
    (h : ClientInv w n) :
    issuedSeqs Errorf w evs
      = (List.range (issuedSeqs Errorf w evs).length).map (fun i => (n + i) % u64) := by
  induction evs generalizing w n with
  | nil => simp [issuedSeqs]
  | cons ev evs ih =>
    have h1 := ih _ _ (clientInv_step Errorf w n ev h)
    obtain ⟨hc, hl⟩ := issuedSeqs_cons Errorf w ev evs
    rw [hl]
    by_cases hr : registered w ev = 1
    · rw [hc, if_pos hr, hr, Nat.add_comm 1, List.range_succ_eq_map, List.map_cons, List.map_map]
      rw [hr] at h1
      have hseq : w.c.Seq = (n + 0) % u64 := by simpa using h.seq_eq
      rw [List.singleton_append, ← hseq]
      congr 1
      rw [h1]
      simp only [List.length_map, List.length_range]
      apply List.map_congr_left
      intro i _
      simp only [Function.comp, Nat.succ_eq_add_one]
      congr 1
      omega
    · have h0 : registered w ev = 0 := by
        rcases registered_cases w ev with h0 | h0
        · exact h0
        · exact absurd h0 hr
      rw [hc, if_neg hr, h0, Nat.zero_add, List.nil_append]
      rw [h0, Nat.add_zero] at h1
      exact h1

/-- Each of the `n` sends of `sendRounds n` registers its call. -/
theorem sendRounds_issued (Errorf : String → Error) (n : Nat) (w : World)
    (hs : w.sending = none) (hv : IsValid w.c = true) :
    (issuedSeqs Errorf w (sendRounds n)).length = n := by
  induction n generalizing w with
  | zero => rfl
  | succ n ih =>
    have hsd := ((IsValid_iff _).mp hv)
    have h1 : registered w (Event.go "" Value.nilV Value.nilV) = 1 := by
      simp [registered, registerResult, hs, registerCall, hv]
    have h2 : ∀ w2 : World, registered w2 (Event.written none) = 0 := by
      intro w2
      simp [registered, registerResult]
    rw [sendRounds, (issuedSeqs_cons _ _ _ _).2, (issuedSeqs_cons _ _ _ _).2, h1, h2, ih]
    · omega
    · simp [step, hs, Go, sendRegister, registerCall, hv, sendWritten]
    · simp [step, hs, Go, sendRegister, registerCall, hv, sendWritten, IsValid_iff, hsd]

/-- C4, counterexample. `Seq` is a `uint64`: in the run of `2 ^ 64 + 1` sends
from the client of `NewGobClient`, every send registers its call, and the
registration number `2 ^ 64` returns the seq 0, not `2 ^ 64`; the seq 0 was
already returned by the registration number 0. -/
theorem seq_wraps_after_u64_registrations :
    (issuedSeqs (fun s => s) NewGobClient (sendRounds (2 ^ 64 + 1))).length = 2 ^ 64 + 1 ∧
    (issuedSeqs (fun s => s) NewGobClient (sendRounds (2 ^ 64 + 1)))[0]? = some 0 ∧
    (issuedSeqs (fun s => s) NewGobClient (sendRounds (2 ^ 64 + 1)))[2 ^ 64]? = some 0 := by
  have hlen := sendRounds_issued (fun s => s) (2 ^ 64 + 1) NewGobClient rfl rfl
  have heq := issuedSeqs_eq (fun s => s) (sendRounds (2 ^ 64 + 1)) NewGobClient 0 clientInv_init
  rw [hlen] at heq
  refine ⟨hlen, ?_, ?_⟩
  · rw [heq, List.getElem?_map, List.getElem?_range (by norm_num)]
    simp [u64]
  · rw [heq, List.getElem?_map, List.getElem?_range (by norm_num)]
    simp [u64]

/-- C4, amended. For the client of `NewGobClient` and every run, the k-th
successful `registerCall` (k = 0, 1, 2, ...) returns the seq `k mod 2 ^ 64`; as
long as at most `2 ^ 64` calls have been registered the issued seqs are
0, 1, 2, ... in order, so pairwise distinct and strictly increasing. A
successful `registerCall` returns `Seq`, assigns it to the call, binds it to
the call in `Pending` (leaving the other keys as they are) and increments `Seq`
modulo `2 ^ 64`; a `registerCall` that fails issues no seq and leaves the
client, `Seq` and `Pending` included, unchanged. In the run `sampleRun` the
four registrations that succeed return 0, 1, 2, 3 and the one that fails, after
the client is shut down, returns none. -/
theorem registerCall_issues_consecutive_seqs :
    (∀ (Errorf : String → Error) (evs : List Event),
      issuedSeqs Errorf NewGobClient evs
        = (List.range (issuedSeqs Errorf NewGobClient evs).length).map (fun k => k % u64) ∧
      ((issuedSeqs Errorf NewGobClient evs).length ≤ u64 →
        issuedSeqs Errorf NewGobClient evs
          = List.range (issuedSeqs Errorf NewGobClient evs).length ∧
        (issuedSeqs Errorf NewGobClient evs).Pairwise (fun a b => a < b))) ∧
    (∀ (w : World) (call : Nat), IsValid w.c = true →
      (registerCall w call).2 = Except.ok w.c.Seq ∧
      mapLookup (registerCall w call).1.c.Pending w.c.Seq = some call ∧
      (∀ seq, seq ≠ w.c.Seq →
        mapLookup (registerCall w call).1.c.Pending seq = mapLookup w.c.Pending seq) ∧
      (registerCall w call).1.c.Seq = (w.c.Seq + 1) % u64 ∧
      (∀ k, w.calls[call]? = some k →
        (registerCall w call).1.calls[call]? = some { k with Seq := w.c.Seq })) ∧
    (∀ (w : World) (call : Nat), IsValid w.c = false →
      (registerCall w call).1 = w ∧
      (registerCall w call).2 = Except.error "register fail,the conn is closed") ∧
    issuedSeqs (fun s => s) NewGobClient sampleRun = [0, 1, 2, 3] := by
  refine ⟨?_, ?_, ?_, by decide⟩
  · intro Errorf evs
    have heq := issuedSeqs_eq Errorf evs NewGobClient 0 clientInv_init
    simp only [Nat.zero_add] at heq
    refine ⟨heq, ?_⟩
    intro hle
    have hr : issuedSeqs Errorf NewGobClient evs
        = List.range (issuedSeqs Errorf NewGobClient evs).length := by
      conv_lhs => rw [heq]
      conv_rhs => rw [← List.map_id (List.range _)]
      apply List.map_congr_left
      intro k hk
      have hk2 := List.mem_range.mp hk
      exact Nat.mod_eq_of_lt (by omega)
    refine ⟨hr, ?_⟩
    rw [hr]
    exact List.pairwise_lt_range _
  · intro w call hv
    refine ⟨by simp [registerCall, hv], by simp [registerCall, hv, mapLookup_mapInsert], ?_,
      by simp [registerCall, hv], ?_⟩
    · intro seq hne
      simp [registerCall, hv, mapLookup_mapInsert, hne]
    · intro k hk
      simp [registerCall, hv, updateCall_getElem, hk]
  · intro w call hv
    simp [registerCall, hv]

/-- A run of a concatenation is the run of the second part after the first. -/
theorem exec_append (Errorf : String → Error) (w : World) (evs evs2 : List Event) :
    exec Errorf w (evs ++ evs2) = exec Errorf (exec Errorf w evs) evs2 := by
  simp [exec, List.foldl_append]

/-- One send keeps the invariant of `sendRounds`. -/
theorem lostInv_round (Errorf : String → Error) (w : World) (n : Nat) (h : LostInv w n) :
    LostInv (step Errorf (step Errorf w (Event.go "" Value.nilV Value.nilV)) (Event.written none))
      (n + 1) := by
  obtain ⟨hs, hv, hl, hlen, hseq, hd, hp⟩ := h
  have hflags := (IsValid_iff _).mp hv
  have hstep : step Errorf (step Errorf w (Event.go "" Value.nilV Value.nilV))
      (Event.written none)
      = { c := { w.c with
                  Pending := mapInsert w.c.Pending w.c.Seq w.calls.length,
                  Seq := (w.c.Seq + 1) % u64,
                  header := { ServiceMethod := "", Seq := w.c.Seq, Err := "" } },
          calls := updateCall
            (w.calls ++ [{ ServiceMethod := "", Args := Value.nilV, Seq := 0, done := 0,
                           Err := none, Reply := Value.nilV }])
            w.calls.length (fun k => { k with Seq := w.c.Seq }),
          codec := w.codec ++ [CodecOp.Write { ServiceMethod := "", Seq := w.c.Seq, Err := "" }
            Value.nilV],
          sending := none,
          loop := w.loop } := by
    simp [step, hs, Go, sendRegister, registerCall, hv, sendWritten, updateCall_getElem]
  rw [hstep]
  refine ⟨rfl, ?_, hl, ?_, ?_, ?_, ?_⟩
  · simp [IsValid_iff, hflags]
  · simp [updateCall_length, hlen]
  · simp only [hseq]
    simp [u64]
  · intro _
    simp only [updateCall_getElem, getElem_append_one]
    by_cases h0 : n = 0
    · subst h0
      simp [hlen]
    · have hne : ¬ (0 = w.calls.length) := by omega
      simp only [hne, if_false]
      exact hd (by omega)
  · intro kv hkv hk0
    simp only [mapInsert] at hkv
    rcases List.mem_cons.mp hkv with rfl | hr
    · simp only at hk0
      have hn0 : n = 0 := by omega
      subst hn0
      simp [hseq, u64]
    · obtain ⟨hm, hne⟩ := (mem_mapDelete _ _ _).mp hr
      obtain ⟨hk1, hle⟩ := hp kv hm hk0
      refine ⟨hk1, ?_⟩
      by_contra hgt
      have hn : n = u64 := by omega
      apply hne
      rw [hk1, hseq, hn]
      simp

/-- The run `sendRounds n` keeps the invariant of `sendRounds`. -/
theorem lostInv_sendRounds (Errorf : String → Error) (n : Nat) (w : World) (m : Nat)
    (h : LostInv w m) : LostInv (exec Errorf w (sendRounds n)) (m + n) := by
  induction n generalizing w m with
  | zero => exact h
  | succ n ih =>
    have h1 := ih _ _ (lostInv_round Errorf w m h)
    have he : exec Errorf w (sendRounds (n + 1))
        = exec Errorf (step Errorf (step Errorf w (Event.go "" Value.nilV Value.nilV))
            (Event.written none)) (sendRounds n) := rfl
    rw [he]
    have ha : m + (n + 1) = m + 1 + n := by omega
    rw [ha]
    exact h1

/-- The invariant of `sendRounds` holds for the client that `NewGobClient` builds. -/
theorem lostInv_init : LostInv NewGobClient 0 := by
  refine ⟨rfl, rfl, rfl, rfl, rfl, ?_, ?_⟩
  · intro h
    cases h
  · intro kv hkv
    cases hkv

/-- After more than `2 ^ 64` sends whose replies do not arrive, the end of the connection terminates the client and leaves the first call not completed. -/
theorem lost_after_wrap (Errorf : String → Error) (N : Nat) (hN : u64 < N) :
    (exec Errorf NewGobClient
        (sendRounds N ++
          [Event.recv (Except.error "EOF") (Except.ok Value.nilV), Event.terminate])).c.ShutDown
      = true ∧
    ((exec Errorf NewGobClient
        (sendRounds N ++
          [Event.recv (Except.error "EOF") (Except.ok Value.nilV), Event.terminate])).calls[0]?).map
        Call.done = some 0 := by
  have hinv := lostInv_sendRounds Errorf N NewGobClient 0 lostInv_init
  rw [Nat.zero_add] at hinv
  obtain ⟨hs, hv, hl, hlen, hseq, hd, hp⟩ := hinv
  rw [exec_append]
  generalize exec Errorf NewGobClient (sendRounds N) = w at *
  have hexec : exec Errorf w
      [Event.recv (Except.error "EOF") (Except.ok Value.nilV), Event.terminate]
      = { terminateCalls { w with codec := w.codec ++ [CodecOp.ReadHeader],
                                  loop := RecvLoop.terminating "EOF" } "EOF"
          with loop := RecvLoop.ended } := by
    simp [exec, step, hl, receiveIter, hs]
  rw [hexec]
  refine ⟨rfl, ?_⟩
  simp only [terminateCalls]
  have hpos : 0 < w.calls.length := by omega
  have hnot : 0 ∉ w.c.Pending.map Prod.snd := by
    intro hm
    obtain ⟨kv, hkv, hk0⟩ := List.mem_map.mp hm
    have := (hp kv hkv hk0).2
    omega
  cases hc : (w.c.Pending.foldl (fun calls kv => Done (setErr calls kv.2 "EOF") kv.2) w.calls)[0]? with
  | none =>
    exfalso
    have hlt : 0 < (w.c.Pending.foldl (fun calls kv => Done (setErr calls kv.2 "EOF") kv.2)
        w.calls).length := by
      rw [terminate_fold_length]
      exact hpos
    rw [List.getElem?_eq_getElem hlt] at hc
    cases hc
  | some c =>
    obtain ⟨c0, hc0, hdone⟩ := terminate_fold_done "EOF" w.c.Pending w.calls 0 c hc
    have h0 := hd (by omega)
    rw [hc0] at h0
    simp only [Option.map_some', Option.some.injEq] at h0
    rw [List.count_eq_zero_of_not_mem hnot, h0] at hdone
    simp [hdone]

/-- C5, counterexample. `Seq` is a `uint64`: in the run of `2 ^ 64 + 1` sends
whose replies do not arrive, the last send is registered under the seq 0 and
replaces the first call in `Pending`. When the connection then ends and
`terminateCalls` runs, the client is shut down and the first call, which was
passed to `send`, has never been completed. -/
theorem first_call_lost_after_wrap :
    (exec (fun s => s) NewGobClient
        (sendRounds (2 ^ 64 + 1) ++
          [Event.recv (Except.error "EOF") (Except.ok Value.nilV), Event.terminate])).c.ShutDown
      = true ∧
    ((exec (fun s => s) NewGobClient
        (sendRounds (2 ^ 64 + 1) ++
          [Event.recv (Except.error "EOF") (Except.ok Value.nilV), Event.terminate])).calls[0]?).map
        Call.done = some 0 :=
  lost_after_wrap (fun s => s) (2 ^ 64 + 1) (by simp [u64])

/-- A step removes no call from the heap. -/
theorem step_calls_length (Errorf : String → Error) (w : World) (ev : Event) :
    w.calls.length ≤ (step Errorf w ev).calls.length := by
  cases ev with
  | go sm args reply =>
    simp only [step]
    split
    · exact Nat.le_refl _
    · by_cases hv : IsValid w.c = true <;>
        simp [Go, sendRegister, registerCall, hv, signal_length, updateCall_length, setErr,
          Done_length]
  | written err =>
    simp only [step, sendWritten]
    split
    · exact Nat.le_refl _
    · cases err with
      | none => exact Nat.le_refl _
      | some e =>
        simp only [removeCall]
        split <;> rename_i heq <;> simp at heq <;> obtain ⟨rfl, _⟩ := heq <;>
          simp [setErr, signal_length]
  | recv hdr body =>
    simp only [step]
    split
    · cases hdr with
      | error e => simp [receiveIter]
      | ok header =>
        simp only [receiveIter, removeCall]
        split <;> rename_i heq <;> simp at heq <;> obtain ⟨rfl, _⟩ := heq
        · cases body <;> simp
        · split <;> cases body <;> simp [setErr, signal_length]
    · exact Nat.le_refl _
  | terminate =>
    simp only [step]
    split
    · split
      · exact Nat.le_refl _
      · simp [terminateCalls, terminate_fold_length]
    · exact Nat.le_refl _
  | close err =>
    simp only [step, Close]
    split <;> simp

/-- A `Go` that gets the `sending` mutex puts its call at the next pointer of the heap. -/
theorem go_allocates (Errorf : String → Error) (w : World) (sm : String) (args reply : Value)
    (hs : w.sending = none) :
    ∃ k, (step Errorf w (Event.go sm args reply)).calls[w.calls.length]? = some k ∧
      k.ServiceMethod = sm ∧ k.Args = args := by
  by_cases hv : IsValid w.c = true <;>
    simp [step, hs, Go, sendRegister, registerCall, hv, setErr, signal_getElem,
      updateCall_getElem]

/-- C5, amended. In every run of the client (sends with their write succeeding
or failing, iterations of the receive loop on a matching seq, an unknown seq,
an error header, a body that does not decode or a header that cannot be read,
`terminateCalls`, `Close`), no call is ever completed more than once. In every
run that registers at most `2 ^ 64` calls, once the client is shut down every
call in the heap has been completed exactly once; the heap holds every call
passed to `send`, since a `Go` that gets the `sending` mutex puts its call
there and no step removes a call. The run `sampleRun` goes through all these
kinds of steps, registers four calls and ends shut down with every call
completed once. -/
theorem calls_completed_once :
    (∀ (Errorf : String → Error) (evs : List Event) (p : Nat) (k : Call),
      (exec Errorf NewGobClient evs).calls[p]? = some k → k.done ≤ 1) ∧
    (∀ (Errorf : String → Error) (evs : List Event),
      (issuedSeqs Errorf NewGobClient evs).length ≤ u64 →
      (exec Errorf NewGobClient evs).c.ShutDown = true →
      ∀ (p : Nat) (k : Call), (exec Errorf NewGobClient evs).calls[p]? = some k → k.done = 1) ∧
    (∀ (Errorf : String → Error) (w : World) (sm : String) (args reply : Value),
      w.sending = none →
      ∃ k, (step Errorf w (Event.go sm args reply)).calls[w.calls.length]? = some k ∧
        k.ServiceMethod = sm ∧ k.Args = args) ∧
    (∀ (Errorf : String → Error) (w : World) (ev : Event),
      w.calls.length ≤ (step Errorf w ev).calls.length) ∧
    (issuedSeqs (fun s => s) NewGobClient sampleRun).length ≤ u64 ∧
    (exec (fun s => s) NewGobClient sampleRun).c.ShutDown = true ∧
    (exec (fun s => s) NewGobClient sampleRun).calls.map (fun k => (k.done, k.Err))
      = [(1, none), (1, some "write: broken pipe"), (1, some "gob: decode error"),
         (1, some "gob: decode error"), (1, some "register fail,the conn is closed")] := by
  refine ⟨?_, ?_, go_allocates, step_calls_length, by decide, by decide, by decide⟩
  · intro Errorf evs p k hk
    have hinv := clientInv_exec Errorf evs NewGobClient 0 clientInv_init
    by_cases hlive : liveIn (exec Errorf NewGobClient evs).c.Pending
        (exec Errorf NewGobClient evs).c.ShutDown p
    · have := hinv.doneLive p k hk hlive
      omega
    · exact (hinv.doneDead p k hk hlive).1
  · intro Errorf evs hle hsd p k hk
    have hinv := clientInv_exec Errorf evs NewGobClient 0 clientInv_init
    have hdead : ¬ liveIn (exec Errorf NewGobClient evs).c.Pending
        (exec Errorf NewGobClient evs).c.ShutDown p := by
      intro hl
      have := hl.1
      rw [hsd] at this
      cases this
    exact (hinv.doneDead p k hk hdead).2 (by omega)

end client

namespace xclient

/-- The variable `e` after one critical section. -/
theorem criticalSection_e (st : Shared) (r : TaskResult) :
    (criticalSection st r).e = match st.e with
      | some e => some e
      | none => r.err := by
  obtain ⟨e, rd, rep, c⟩ := st
  obtain ⟨err, cr⟩ := r
  cases e <;> cases err <;> cases rd <;> simp [criticalSection]

/-- The variable `replyDone` after one critical section. -/
theorem criticalSection_replyDone (st : Shared) (r : TaskResult) :
    (criticalSection st r).replyDone = (st.replyDone || r.err.isNone) := by
  obtain ⟨e, rd, rep, c⟩ := st
  obtain ⟨err, cr⟩ := r
  cases e <;> cases err <;> cases rd <;> simp [criticalSection]

/-- The reply holder after one critical section. -/
theorem criticalSection_reply (st : Shared) (r : TaskResult) :
    (criticalSection st r).reply
      = if st.replyDone = false ∧ r.err = none then r.copyReply else st.reply := by
  obtain ⟨e, rd, rep, c⟩ := st
  obtain ⟨err, cr⟩ := r
  cases e <;> cases err <;> cases rd <;> simp [criticalSection]

/-- The variable `e` after the critical sections of `tasks`: the error it held,
or else the error of the first task that failed. -/
theorem fold_e (tasks : List (String × TaskResult)) (st : Shared) :
    (tasks.foldl (fun st t => criticalSection st t.2) st).e
      = match st.e with
        | some e => some e
        | none => (tasks.find? (fun t => t.2.err.isSome)).bind (fun t => t.2.err) := by
  induction tasks generalizing st with
  | nil => cases h : st.e <;> simp [h]
  | cons t rest ih =>
    rw [List.foldl_cons, ih, criticalSection_e]
    cases he : st.e <;> cases ht : t.2.err <;> simp [ht, List.find?_cons]

/-- The reply holder after the critical sections of `tasks`: once `replyDone`
is set the holder stays as it is, and before that it takes the reply of the
first task that succeeded. -/
theorem fold_reply (tasks : List (String × TaskResult)) (st : Shared) :
    (tasks.foldl (fun st t => criticalSection st t.2) st).reply
      = if st.replyDone = true then st.reply
        else match tasks.find? (fun t => t.2.err.isNone) with
          | some t => t.2.copyReply
          | none => st.reply := by
  induction tasks generalizing st with
  | nil => cases h : st.replyDone <;> simp [h]
  | cons t rest ih =>
    rw [List.foldl_cons, ih, criticalSection_replyDone, criticalSection_reply]
    cases hd : st.replyDone <;> cases ht : t.2.err <;> simp [ht, List.find?_cons]


/-- `BroadCast` returns the error of the first task that failed, if one did. -/
theorem BroadCast_err (tasks : List (String × TaskResult)) (reply : Value) :
    (BroadCast (Except.ok tasks) reply).1
      = (tasks.find? (fun t => t.2.err.isSome)).bind (fun t => t.2.err) := by
  simp [BroadCast, fold_e]

/-- `BroadCast` returns an error exactly when some task failed. -/
theorem BroadCast_err_iff (tasks : List (String × TaskResult)) (reply : Value) :
    (BroadCast (Except.ok tasks) reply).1 ≠ none ↔ ∃ t ∈ tasks, t.2.err ≠ none := by
  rw [BroadCast_err]
  constructor
  · intro h
    cases hf : tasks.find? (fun t => t.2.err.isSome) with
    | none => simp [hf] at h
    | some t =>
      refine ⟨t, List.mem_of_find?_eq_some hf, ?_⟩
      have := List.find?_some hf
      intro hn
      simp [hn] at this
  · rintro ⟨t, ht, hne⟩
    cases hf : tasks.find? (fun t => t.2.err.isSome) with
    | none =>
      exfalso
      have := List.find?_eq_none.mp hf t ht
      cases he : t.2.err with
      | none => exact hne he
      | some e => simp [he] at this
    | some t2 =>
      have := List.find?_some hf
      cases he : t2.2.err with
      | none => simp [he] at this
      | some e => simp [he]

/-- C11, counterexample. With three backends of
which exactly one fails (so k = 2 calls succeed, k is not 0), `BroadCast` does
not return nil: it returns the error "boom" of the failing backend. -/
theorem BroadCast_one_failure_of_three :
    [("a", ({ err := none, copyReply := Value.int 1 } : TaskResult)),
     ("b", { err := some "boom", copyReply := Value.int 0 }),
     ("c", { err := none, copyReply := Value.int 3 })].countP (fun t => t.2.err.isNone) = 2 ∧
    (BroadCast (Except.ok
      [("a", { err := none, copyReply := Value.int 1 }),
       ("b", { err := some "boom", copyReply := Value.int 0 }),
       ("c", { err := none, copyReply := Value.int 3 })]) (Value.int 0)).1 = some "boom" := by
  constructor <;> decide

/-- C11, amended. For every list of outcomes of the fan-out tasks, in the
order in which the tasks take the mutex, `BroadCast` returns a non-nil error if
and only if at least one task fails, that is if and only if the number k of
successes is below the number N of tasks; the error is that of the first
failing task in that order. Whether the result is nil does not depend on the
order of completion. In particular it returns nil when all of three backends
succeed, and an error when all fail. -/
theorem BroadCast_error_iff_some_failure :
    (∀ (tasks : List (String × TaskResult)) (reply : Value),
      ((BroadCast (Except.ok tasks) reply).1 ≠ none ↔ ∃ t ∈ tasks, t.2.err ≠ none) ∧
      ((BroadCast (Except.ok tasks) reply).1 ≠ none ↔
        tasks.countP (fun t => t.2.err.isNone) < tasks.length) ∧
      (BroadCast (Except.ok tasks) reply).1
        = (tasks.find? (fun t => t.2.err.isSome)).bind (fun t => t.2.err)) ∧
    (∀ (tasks tasks2 : List (String × TaskResult)) (reply : Value), tasks.Perm tasks2 →
      ((BroadCast (Except.ok tasks) reply).1 = none ↔
        (BroadCast (Except.ok tasks2) reply).1 = none)) ∧
    (BroadCast (Except.ok
      [("a", { err := none, copyReply := Value.int 1 }),
       ("b", { err := none, copyReply := Value.int 2 }),
       ("c", { err := none, copyReply := Value.int 3 })]) (Value.int 0)).1 = none ∧
    (BroadCast (Except.ok
      [("a", { err := some "down", copyReply := Value.int 0 }),
       ("b", { err := some "boom", copyReply := Value.int 0 }),
       ("c", { err := some "late", copyReply := Value.int 0 })]) (Value.int 0)).1
      = some "down" := by
  refine ⟨?_, ?_, by decide, by decide⟩
  · intro tasks reply
    refine ⟨BroadCast_err_iff tasks reply, ?_, BroadCast_err tasks reply⟩
    rw [BroadCast_err_iff]
    constructor
    · rintro ⟨t, ht, hne⟩
      rw [List.countP_eq_length_filter]
      apply List.length_filter_lt_length_iff_exists.mpr
      refine ⟨t, ht, ?_⟩
      cases he : t.2.err with
      | none => exact absurd he hne
      | some e => simp
    · intro hlt
      rw [List.countP_eq_length_filter] at hlt
      obtain ⟨t, ht, hn⟩ := List.length_filter_lt_length_iff_exists.mp hlt
      refine ⟨t, ht, ?_⟩
      intro he
      simp [he] at hn
  · intro tasks tasks2 reply hp
    have h1 := BroadCast_err_iff tasks reply
    have h2 := BroadCast_err_iff tasks2 reply
    constructor
    · intro hn
      by_contra hc
      obtain ⟨t, ht, hne⟩ := h2.mp hc
      exact h1.mpr ⟨t, hp.mem_iff.mpr ht, hne⟩ hn
    · intro hn
      by_contra hc
      obtain ⟨t, ht, hne⟩ := h1.mp hc
      exact h2.mpr ⟨t, hp.mem_iff.mp ht, hne⟩ hn

/-- C12. For every list of outcomes of the fan-out tasks, in the order in
which the tasks take the mutex, after `BroadCast` the reply holder of the caller
is the cloned reply of the first task that succeeded in that order (a later
success does not overwrite it), and it is unchanged when no task succeeds. -/
theorem BroadCast_reply_is_first_success :
    (∀ (tasks : List (String × TaskResult)) (reply : Value),
      (BroadCast (Except.ok tasks) reply).2.reply
        = match tasks.find? (fun t => t.2.err.isNone) with
          | some t => t.2.copyReply
          | none => reply) ∧
    (∀ (before after : List (String × TaskResult)) (t : String × TaskResult) (reply : Value),
      (∀ b ∈ before, b.2.err ≠ none) → t.2.err = none →
      (BroadCast (Except.ok (before ++ t :: after)) reply).2.reply = t.2.copyReply) ∧
    (∀ (tasks : List (String × TaskResult)) (reply : Value),
      (∀ t ∈ tasks, t.2.err ≠ none) →
      (BroadCast (Except.ok tasks) reply).2.reply = reply) ∧
    (BroadCast (Except.ok
      [("a", { err := some "boom", copyReply := Value.int 0 }),
       ("b", { err := none, copyReply := Value.int 2 }),
       ("c", { err := none, copyReply := Value.int 3 })]) (Value.int 0)).2.reply
      = Value.int 2 := by
  have hmain : ∀ (tasks : List (String × TaskResult)) (reply : Value),
      (BroadCast (Except.ok tasks) reply).2.reply
        = match tasks.find? (fun t => t.2.err.isNone) with
          | some t => t.2.copyReply
          | none => reply := by
    intro tasks reply
    simp [BroadCast, fold_reply]
  refine ⟨hmain, ?_, ?_, by decide⟩
  · intro before after t reply hb ht
    rw [hmain]
    have hf : (before ++ t :: after).find? (fun t => t.2.err.isNone) = some t := by
      rw [List.find?_append]
      have hnone : before.find? (fun t => t.2.err.isNone) = none := by
        apply List.find?_eq_none.mpr
        intro b hbm
        cases he : b.2.err with
        | none => exact absurd he (hb b hbm)
        | some e => simp
      simp [hnone, List.find?_cons, ht]
    rw [hf]
  · intro tasks reply hall
    rw [hmain]
    have hnone : tasks.find? (fun t => t.2.err.isNone) = none := by
      apply List.find?_eq_none.mpr
      intro b hbm
      cases he : b.2.err with
      | none => exact absurd he (hall b hbm)
      | some e => simp
    rw [hnone]


/-- A non-negative `int` below `2 ^ 63` is not changed by wrapping. -/
theorem wrapInt_small (x : Int) (h1 : 0 ≤ x) (h2 : x < 2 ^ 63) : wrapInt x = x := by
  unfold wrapInt
  norm_num at h2 ⊢
  omega

/-- One `Get(RoundRobinSelect)` from an index `k` with `k + 1` below `2 ^ 63`:
it returns `servers[k % n]` and leaves the index `(k + 1) % n`. -/
theorem Get_roundRobin (d : MultiServerDiscovery) (k rnd : Nat)
    (hidx : d.index = (k : Int)) (hk : k + 1 < 2 ^ 63) (hn : 0 < d.servers.length) :
    ∃ s, d.servers[k % d.servers.length]? = some s ∧
      d.Get RoundRobinSelect rnd
        = ({ d with index := (((k + 1) % d.servers.length : Nat) : Int) },
           Except.ok (s, none)) := by
  have hlt : k % d.servers.length < d.servers.length := Nat.mod_lt _ hn
  refine ⟨d.servers[k % d.servers.length], by simp [hlt], ?_⟩
  have hn0 : ¬ ((d.servers.length : Int) = 0) := by omega
  have hmode : ¬ (RoundRobinSelect = RandomSelect) := by decide
  have hw : wrapInt ((k : Int) + 1) = ((k + 1 : Nat) : Int) := by
    rw [wrapInt_small]
    · simp
    · omega
    · have : ((k : Int) + 1) < ((2 ^ 63 : Nat) : Int) := by exact_mod_cast hk
      simpa using this
  simp only [MultiServerDiscovery.Get, hn0, hmode, if_false, if_true, hidx, hw,
    ← Int.ofNat_tmod, indexServers]
  have hneg : ¬ (((k % d.servers.length : Nat) : Int) < 0) := by omega
  rw [if_neg hneg, Int.toNat_natCast, List.getElem?_eq_getElem hlt]


/-- The results of `m` consecutive calls `Get(RoundRobinSelect)` from an index
`k` with `k + 1` below `2 ^ 63`: call number `j` returns `servers[(k + j) % n]`
with a nil error. -/
theorem getRoundRobin_eq (m : Nat) (d : MultiServerDiscovery) (k : Nat)
    (hidx : d.index = (k : Int)) (hk : k + 1 < 2 ^ 63) (hn : 0 < d.servers.length)
    (hlen : d.servers.length < 2 ^ 63) :
    (getRoundRobin m d).2
      = (List.range m).map (fun j =>
          Except.ok (d.servers.getD ((k + j) % d.servers.length) "", none)) := by
  induction m generalizing d k with
  | zero => rfl
  | succ m ih =>
    obtain ⟨s, hs, hget⟩ := Get_roundRobin d k 0 hidx hk hn
    have hk2 : (k + 1) % d.servers.length + 1 < 2 ^ 63 := by
      have := Nat.mod_lt (k + 1) hn
      omega
    have ih2 := ih { d with index := (((k + 1) % d.servers.length : Nat) : Int) }
      ((k + 1) % d.servers.length) rfl hk2 hn hlen
    simp only [getRoundRobin, hget, ih2, List.range_succ_eq_map, List.map_cons, List.map_map]
    congr 1
    · simp [List.getD_eq_getElem?_getD, hs]
    · apply List.map_congr_left
      intro j _
      simp only [Function.comp, Nat.succ_eq_add_one]
      congr 3
      rw [Nat.mod_add_mod]
      congr 1
      omega

/-- With `kk` and `r` below `n`: the call number `j` hits the residue `r`
exactly when `j` is congruent to `r + n - kk` modulo `n`. -/
theorem hit_iff_modEq (n k r j : Nat) (hn : 0 < n) (hr : r < n) :
    (k + j) % n = r ↔ j ≡ r + n - k % n [MOD n] := by
  have hkk : k % n < n := Nat.mod_lt _ hn
  have hjj : j % n < n := Nat.mod_lt _ hn
  unfold Nat.ModEq
  rw [Nat.add_mod k j n]
  by_cases h1 : k % n + j % n < n
  · rw [Nat.mod_eq_of_lt h1]
    by_cases h2 : k % n ≤ r
    · have hv : (r + n - k % n) % n = r - k % n := by
        have : r + n - k % n = (r - k % n) + n := by omega
        rw [this, Nat.add_mod_right, Nat.mod_eq_of_lt (by omega)]
      rw [hv]
      omega
    · have hv : (r + n - k % n) % n = r + n - k % n := Nat.mod_eq_of_lt (by omega)
      rw [hv]
      omega
  · have hsub : (k % n + j % n) % n = k % n + j % n - n := by
      rw [Nat.mod_eq_sub_mod (by omega), Nat.mod_eq_of_lt (by omega)]
    rw [hsub]
    by_cases h2 : k % n ≤ r
    · have hv : (r + n - k % n) % n = r - k % n := by
        have : r + n - k % n = (r - k % n) + n := by omega
        rw [this, Nat.add_mod_right, Nat.mod_eq_of_lt (by omega)]
      rw [hv]
      omega
    · have hv : (r + n - k % n) % n = r + n - k % n := Nat.mod_eq_of_lt (by omega)
      rw [hv]
      omega

/-- Among `m` consecutive numbers of calls, those that hit the residue `r`
are `m / n` or, when `n` does not divide `m`, possibly one more. -/
theorem count_hits (n k r m : Nat) (hn : 0 < n) (hr : r < n) :
    (List.range m).countP (fun j => decide ((k + j) % n = r)) = m / n ∨
      (m % n ≠ 0 ∧ (List.range m).countP (fun j => decide ((k + j) % n = r)) = m / n + 1) := by
  have hcount : (List.range m).countP (fun j => decide ((k + j) % n = r))
      = Nat.count (fun x => x ≡ r + n - k % n [MOD n]) m := by
    unfold Nat.count
    apply List.countP_congr
    intro j _
    simp [hit_iff_modEq n k r j hn hr]
  rw [hcount, Nat.count_modEq_card m hn]
  by_cases h : (r + n - k % n) % n < m % n
  · right
    exact ⟨by omega, by simp [h]⟩
  · left
    simp [h]


/-- Round robin from an index below `2 ^ 63 - 1`: `m` consecutive calls all
return an address of the list with a nil error, and an address of a list
without repetition is returned `m / n` times or, when `n` does not divide `m`,
possibly once more. -/
theorem roundRobin_fair (servers : List String) (k m : Nat) (hnd : servers.Nodup)
    (hn : 0 < servers.length) (hlen : servers.length < 2 ^ 63) (hk : k + 1 < 2 ^ 63) :
    (getRoundRobin m { servers := servers, index := (k : Int) }).2.length = m ∧
    (∀ r ∈ (getRoundRobin m { servers := servers, index := (k : Int) }).2,
      ∃ s ∈ servers, r = Except.ok (s, none)) ∧
    (∀ a ∈ servers,
      (returnedAddrs (getRoundRobin m { servers := servers, index := (k : Int) }).2).count a
          = m / servers.length ∨
        (m % servers.length ≠ 0 ∧
          (returnedAddrs (getRoundRobin m { servers := servers, index := (k : Int) }).2).count a
            = m / servers.length + 1)) := by
  have heq := getRoundRobin_eq m { servers := servers, index := (k : Int) } k rfl hk hn hlen
  simp only at heq
  rw [heq]
  refine ⟨by simp, ?_, ?_⟩
  · intro r hr
    obtain ⟨j, _, rfl⟩ := List.mem_map.mp hr
    have hlt : (k + j) % servers.length < servers.length := Nat.mod_lt _ hn
    refine ⟨servers[(k + j) % servers.length], List.getElem_mem _, ?_⟩
    simp [List.getD_eq_getElem?_getD, hlt]
  · intro a ha
    obtain ⟨r, hr, rfl⟩ := List.mem_iff_getElem.mp ha
    have hret : returnedAddrs ((List.range m).map (fun j =>
        (Except.ok (servers.getD ((k + j) % servers.length) "", none) :
          Except Panic (String × Option Error))))
        = (List.range m).map (fun j => servers.getD ((k + j) % servers.length) "") := by
      simp only [returnedAddrs, List.filterMap_map]
      exact congrFun (List.filterMap_eq_map _) _
    have hcnt : ((List.range m).map (fun j => servers.getD ((k + j) % servers.length) "")).count
          servers[r]
        = (List.range m).countP (fun j => decide ((k + j) % servers.length = r)) := by
      rw [List.count, List.countP_map]
      apply List.countP_congr
      intro j _
      have hlt : (k + j) % servers.length < servers.length := Nat.mod_lt _ hn
      simp only [Function.comp, List.getD_eq_getElem?_getD, List.getElem?_eq_getElem hlt,
        Option.getD_some, beq_iff_eq, decide_eq_true_eq]
      exact hnd.getElem_inj_iff
    rw [hret, hcnt]
    exact count_hits servers.length k r m hn hr

/-- C13 (the code departs from the claim). `NewMultiServerDiscovery` takes
the initial index from `rand.Int()`, which may be 2^63 - 1. With the three
addresses "a", "b", "c" and that index, the first `Get(RoundRobinSelect)`
returns "b" and leaves the index `(index + 1) % 3 = -2`, the sum having
overflowed to -2^63; the second `Get` indexes the slice at -2 and panics. For
every other initial index that `rand.Int()` can give (below 2^63 - 1), every
list of pairwise distinct addresses and every number m of calls, all calls
succeed with an address of the list, and each address is returned `m / n` or
`m / n + 1` times (the latter only when n does not divide m); from the index
5, seven calls return "c", "a", "b", "c", "a", "b", "c". -/
theorem roundRobin_panics_after_max_index :
    (NewMultiServerDiscovery ["a", "b", "c"] (2 ^ 63 - 1)).index = 2 ^ 63 - 1 ∧
    ((NewMultiServerDiscovery ["a", "b", "c"] (2 ^ 63 - 1)).Get RoundRobinSelect 0).1.index
      = -2 ∧
    (getRoundRobin 2 (NewMultiServerDiscovery ["a", "b", "c"] (2 ^ 63 - 1))).2
      = [Except.ok ("b", none), Except.error "runtime error: index out of range"] ∧
    (∀ (servers : List String) (randInt m : Nat), servers.Nodup → 0 < servers.length →
      servers.length < 2 ^ 63 → randInt % 2 ^ 63 + 1 < 2 ^ 63 →
      (∀ r ∈ (getRoundRobin m (NewMultiServerDiscovery servers randInt)).2,
        ∃ s ∈ servers, r = Except.ok (s, none)) ∧
      (∀ a ∈ servers,
        (returnedAddrs (getRoundRobin m (NewMultiServerDiscovery servers randInt)).2).count a
            = m / servers.length ∨
          (m % servers.length ≠ 0 ∧
            (returnedAddrs (getRoundRobin m (NewMultiServerDiscovery servers randInt)).2).count a
              = m / servers.length + 1))) ∧
    returnedAddrs (getRoundRobin 7 (NewMultiServerDiscovery ["a", "b", "c"] 5)).2
      = ["c", "a", "b", "c", "a", "b", "c"] := by
  refine ⟨by decide, by decide, rfl, ?_, rfl⟩
  intro servers randInt m hnd hn hlen hk
  have h := roundRobin_fair servers (randInt % 2 ^ 63) m hnd hn hlen hk
  exact ⟨h.2.1, h.2.2⟩

end xclient

namespace registry

/-- The order `lexLe` is total. -/
theorem lexLe_total (a b : List Char) : lexLe a b = true ∨ lexLe b a = true := by
  induction a generalizing b with
  | nil => simp [lexLe]
  | cons x xs ih =>
    cases b with
    | nil => simp [lexLe]
    | cons y ys =>
      simp only [lexLe]
      by_cases h1 : x.toNat < y.toNat
      · simp [h1]
      · by_cases h2 : y.toNat < x.toNat
        · simp [h2]
        · simpa [h1, h2] using ih ys

/-- The order `lexLe` is transitive. -/
theorem lexLe_trans (a b c : List Char) (h1 : lexLe a b = true) (h2 : lexLe b c = true) :
    lexLe a c = true := by
  induction a generalizing b c with
  | nil => simp [lexLe]
  | cons x xs ih =>
    cases b with
    | nil => simp [lexLe] at h1
    | cons y ys =>
      cases c with
      | nil => simp [lexLe] at h2
      | cons z zs =>
        simp only [lexLe] at h1 h2 ⊢
        by_cases hxy : x.toNat < y.toNat
        · by_cases hyz : y.toNat < z.toNat
          · have : x.toNat < z.toNat := by omega
            simp [this]
          · by_cases hzy : z.toNat < y.toNat
            · simp [hyz, hzy] at h2
            · have : x.toNat < z.toNat := by omega
              simp [this]
        · by_cases hyx : y.toNat < x.toNat
          · simp [hxy, hyx] at h1
          · simp only [hxy, hyx, if_false] at h1
            by_cases hyz : y.toNat < z.toNat
            · have : x.toNat < z.toNat := by omega
              simp [this]
            · by_cases hzy : z.toNat < y.toNat
              · simp [hyz, hzy] at h2
              · simp only [hyz, hzy, if_false] at h2
                have e1 : ¬ x.toNat < z.toNat := by omega
                have e2 : ¬ z.toNat < x.toNat := by omega
                simp only [e1, e2, if_false]
                exact ih ys zs h1 h2

/-- The function `sortStrings` is the sorting by insertion for the order `strLe`. -/
theorem sortStrings_eq (l : List String) :
    sortStrings l = l.insertionSort (fun a b => strLe a b = true) := by
  induction l with
  | nil => rfl
  | cons a rest ih =>
    have hins : ∀ l2 : List String,
        insertString a l2 = l2.orderedInsert (fun a b => strLe a b = true) a := by
      intro l2
      induction l2 with
      | nil => rfl
      | cons b l3 ih2 =>
        simp only [insertString, List.orderedInsert]
        split <;> simp_all
    simp [sortStrings, List.insertionSort, ih, hins]

/-- The result of `sortStrings` holds the same strings as the argument. -/
theorem sortStrings_perm (l : List String) : (sortStrings l).Perm l := by
  rw [sortStrings_eq]
  exact List.perm_insertionSort _ l

/-- The result of `sortStrings` is ascending. -/
theorem sortStrings_sorted (l : List String) :
    (sortStrings l).Pairwise (fun a b => strLe a b = true) := by
  rw [sortStrings_eq]
  exact @List.sorted_insertionSort String (fun a b => strLe a b = true) _
    ⟨fun a b => lexLe_total a.data b.data⟩
    ⟨fun a b c h1 h2 => lexLe_trans a.data b.data c.data h1 h2⟩ l


/-- A well-formed registry stays well-formed under `putServer`, and the empty
registry is well-formed. -/
theorem wellFormed_putServer (r : Registry) (addr : String) (now : Int) (h : WellFormed r) :
    WellFormed (putServer r addr now) := by
  obtain ⟨hn, ha⟩ := h
  unfold putServer
  cases hl : mapLookup r.serverItems addr with
  | some item =>
    refine ⟨?_, ?_⟩
    · have : (r.serverItems.map (fun (kv : String × ServerItem) =>
          if kv.1 = addr then (kv.1, { kv.2 with start := now }) else kv)).map Prod.fst
          = r.serverItems.map Prod.fst := by
        rw [List.map_map]
        apply List.map_congr_left
        intro kv _
        by_cases e : kv.1 = addr <;> simp [e]
      simpa [this] using hn
    · intro kv hkv
      simp only [List.mem_map] at hkv
      obtain ⟨kv0, hm, rfl⟩ := hkv
      by_cases e : kv0.1 = addr
      · simpa [e] using ha kv0 hm
      · simpa [e] using ha kv0 hm
  | none =>
    have hd := client.mapDelete_of_lookup_none r.serverItems addr hl
    have hnot := client.mapLookup_none_not_mem r.serverItems addr hl
    refine ⟨?_, ?_⟩
    · simp only [mapInsert, hd, List.map_cons, List.nodup_cons]
      refine ⟨?_, hn⟩
      intro hmem
      obtain ⟨kv, hkv, e⟩ := List.mem_map.mp hmem
      exact hnot kv hkv e
    · intro kv hkv
      simp only [mapInsert, hd, List.mem_cons] at hkv
      rcases hkv with rfl | hkv
      · rfl
      · exact ha kv hkv

/-- The loop of `aliveServers` in closed form: the entries with the key of an
item that was dead when visited are deleted, and the addresses of the items
that were alive when visited are appended in their order. -/
theorem aliveLoop_eq (timeOut : Int) (clock : Nat → Int) (k : Nat)
    (items cur : List (String × ServerItem)) (alive : List String) :
    aliveLoop timeOut clock k items cur alive
      = (cur.filter (fun kv => decide (kv.1 ∉ deadKeys timeOut clock k items)),
         alive ++ ((items.enumFrom k).filter
           (fun p => isAlive timeOut (clock p.1) p.2.2)).map (fun p => p.2.2.Address)) := by
  induction items generalizing k cur alive with
  | nil => simp [aliveLoop, deadKeys]
  | cons kv rest ih =>
    by_cases h : isAlive timeOut (clock k) kv.2 = true
    · simp only [aliveLoop, h, if_true, ih, deadKeys, List.enumFrom_cons, List.filter_cons,
        Bool.not_true, List.map_cons, List.append_assoc, List.singleton_append]
      simp
    · simp only [Bool.not_eq_true] at h
      simp only [aliveLoop, h, ih, deadKeys, List.enumFrom_cons, List.filter_cons,
        Bool.not_false, if_true, List.map_cons, mapDelete, List.filter_filter]
      simp only [Bool.false_eq_true, if_false, Prod.mk.injEq, and_true]
      apply List.filter_congr
      intro x _
      rw [Bool.eq_iff_iff]
      simp only [Bool.and_eq_true, decide_eq_true_eq, List.mem_cons, not_or]
      exact and_comm

/-- In a well-formed registry an address is the key of one entry only. -/
theorem index_unique (items : List (String × ServerItem))
    (hn : (items.map Prod.fst).Nodup) (i j : Nat) (kv kv2 : String × ServerItem)
    (hi : items[i]? = some kv) (hj : items[j]? = some kv2) (hk : kv.1 = kv2.1) :
    i = j ∧ kv = kv2 := by
  obtain ⟨hil, hie⟩ := List.getElem?_eq_some.mp hi
  obtain ⟨hjl, hje⟩ := List.getElem?_eq_some.mp hj
  have hil2 : i < (items.map Prod.fst).length := by simpa using hil
  have hjl2 : j < (items.map Prod.fst).length := by simpa using hjl
  have e : (items.map Prod.fst)[i] = (items.map Prod.fst)[j] := by
    simp only [List.getElem_map, hie, hje, hk]
  have hij : i = j := (hn.getElem_inj_iff).mp e
  subst hij
  rw [hi] at hj
  exact ⟨rfl, Option.some.inj hj⟩

/-- In a well-formed registry the key of the entry number `i` is among the dead
keys exactly when that entry is not alive at the reading number `i`. -/
theorem mem_deadKeys (r : Registry) (clock : Nat → Int) (h : WellFormed r)
    (i : Nat) (kv : String × ServerItem) (hi : r.serverItems[i]? = some kv) :
    kv.1 ∈ deadKeys r.timeOut clock 0 r.serverItems
      ↔ isAlive r.timeOut (clock i) kv.2 = false := by
  obtain ⟨hn, ha⟩ := h
  simp only [deadKeys, List.mem_map, List.mem_filter, Bool.not_eq_true']
  constructor
  · rintro ⟨p, ⟨hp, hdead⟩, e⟩
    have hp2 : r.serverItems[p.1]? = some p.2 := List.mem_enum_iff_getElem?.mp hp
    have hmem : p.2 ∈ r.serverItems := List.getElem?_mem hp2
    have hk : p.2.1 = kv.1 := by rw [← ha p.2 hmem, e]
    obtain ⟨hij, hkv⟩ := index_unique r.serverItems hn p.1 i p.2 kv hp2 hi hk
    rw [← hij, ← hkv]
    exact hdead
  · intro hdead
    have hmem : kv ∈ r.serverItems := List.getElem?_mem hi
    exact ⟨(i, kv), ⟨List.mem_enum_iff_getElem?.mpr hi, hdead⟩, ha kv hmem⟩

/-- The test of `aliveServers` under a positive timeout: an item is alive when
its age at the reading is below the timeout. -/
theorem isAlive_pos (timeOut now : Int) (item : ServerItem) (h : 0 < timeOut) :
    isAlive timeOut now item = true ↔ now - item.start < timeOut := by
  have h0 : ¬ timeOut = 0 := by omega
  simp only [isAlive, h0, decide_False, Bool.or_false, decide_eq_true_eq]
  omega

/-- The entries of a well-formed registry after `aliveServers`: those that were
alive at the reading of their iteration, unchanged. -/
theorem mem_aliveServers_items (r : Registry) (clock : Nat → Int) (h : WellFormed r)
    (kv : String × ServerItem) :
    kv ∈ (aliveServers r clock).1.serverItems
      ↔ ∃ i, r.serverItems[i]? = some kv ∧ isAlive r.timeOut (clock i) kv.2 = true := by
  simp only [aliveServers, aliveLoop_eq, List.mem_filter, decide_eq_true_eq]
  constructor
  · rintro ⟨hmem, hnd⟩
    obtain ⟨i, hi⟩ := List.mem_iff_getElem?.mp hmem
    refine ⟨i, hi, ?_⟩
    have := (mem_deadKeys r clock h i kv hi).not.mp hnd
    simpa using this
  · rintro ⟨i, hi, hal⟩
    refine ⟨List.getElem?_mem hi, ?_⟩
    rw [mem_deadKeys r clock h i kv hi, hal]
    simp

/-- The slice that `aliveServers` sorts, for a well-formed registry: the keys of
the entries that were alive at the reading of their iteration. -/
theorem mem_aliveServers_addrs (r : Registry) (clock : Nat → Int) (h : WellFormed r)
    (a : String) :
    a ∈ (aliveServers r clock).2
      ↔ ∃ i item, r.serverItems[i]? = some (a, item) ∧
          isAlive r.timeOut (clock i) item = true := by
  simp only [aliveServers, aliveLoop_eq, List.nil_append]
  rw [(sortStrings_perm _).mem_iff]
  simp only [List.mem_map, List.mem_filter]
  constructor
  · rintro ⟨p, ⟨hp, hal⟩, e⟩
    have hp2 : r.serverItems[p.1]? = some p.2 := List.mem_enum_iff_getElem?.mp hp
    have hk : p.2.2.Address = p.2.1 := h.2 p.2 (List.getElem?_mem hp2)
    refine ⟨p.1, p.2.2, ?_, hal⟩
    rw [hp2, ← e, hk]
  · rintro ⟨i, item, hi, hal⟩
    exact ⟨(i, (a, item)), ⟨List.mem_enum_iff_getElem?.mpr hi, hal⟩,
      h.2 (a, item) (List.getElem?_mem hi)⟩

/-- The slice that `aliveServers` returns has no address twice, for a well-formed registry. -/
theorem aliveServers_nodup (r : Registry) (clock : Nat → Int) (h : WellFormed r) :
    (aliveServers r clock).2.Nodup := by
  simp only [aliveServers, aliveLoop_eq, List.nil_append]
  rw [(sortStrings_perm _).nodup_iff]
  have hsub : (((r.serverItems.enumFrom 0).filter
      (fun p => isAlive r.timeOut (clock p.1) p.2.2)).map Prod.snd).Sublist r.serverItems := by
    have hf : ((r.serverItems.enumFrom 0).filter
        (fun p => isAlive r.timeOut (clock p.1) p.2.2)).Sublist (r.serverItems.enumFrom 0) :=
      List.filter_sublist _
    have := hf.map Prod.snd
    rwa [List.enumFrom_map_snd] at this
  have hmap : ((r.serverItems.enumFrom 0).filter
        (fun p => isAlive r.timeOut (clock p.1) p.2.2)).map (fun p => p.2.2.Address)
      = (((r.serverItems.enumFrom 0).filter
        (fun p => isAlive r.timeOut (clock p.1) p.2.2)).map Prod.snd).map Prod.fst := by
    rw [List.map_map]
    apply List.map_congr_left
    intro p hp
    have hp2 : p.2 ∈ r.serverItems :=
      List.snd_mem_of_mem_enumFrom (List.mem_filter.mp hp).1
    exact h.2 p.2 hp2
  rw [hmap]
  exact h.1.sublist (hsub.map Prod.fst)

/-- C14, counterexample. An entry whose age equals the timeout is not dead in
the sense of the claim (its age does not exceed the timeout), yet
`aliveServers` does not return it and removes it: with a timeout of 5, the
address "b" registered at time 0 is gone in a query at time 5. So the returned
addresses are not the entries with `now - start > timeOut` false. Moreover the
clock is read anew for every entry: with "x" registered at 0 and "y" at 1,
the entry "x" visited at the reading 4 and "y" at the reading 6, the query
returns "x" alone, which is the set of the claim for no single `now`. -/
theorem aliveServers_removes_entry_at_timeout :
    (putServer (New 5) "b" 0).serverItems = [("b", { Address := "b", start := 0 })] ∧
    WellFormed (putServer (New 5) "b" 0) ∧
    ¬ ((5 : Int) - 0 > 5) ∧
    aliveServers (putServer (New 5) "b" 0) (fun _ => 5)
      = ({ timeOut := 5, serverItems := [] }, []) ∧
    ¬ (∀ (r : Registry) (now : Int), WellFormed r → 0 < r.timeOut →
        ∀ a, a ∈ (aliveServers r (fun _ => now)).2 ↔
          ∃ item, (a, item) ∈ r.serverItems ∧ ¬ (now - item.start > r.timeOut)) ∧
    (putServer (putServer (New 5) "y" 1) "x" 0).serverItems
      = [("x", { Address := "x", start := 0 }), ("y", { Address := "y", start := 1 })] ∧
    aliveServers (putServer (putServer (New 5) "y" 1) "x" 0) (fun k => if k = 0 then 4 else 6)
      = ({ timeOut := 5, serverItems := [("x", { Address := "x", start := 0 })] }, ["x"]) ∧
    ¬ (∃ now : Int, ∀ a,
        a ∈ (aliveServers (putServer (putServer (New 5) "y" 1) "x" 0)
              (fun k => if k = 0 then 4 else 6)).2 ↔
          ∃ item, (a, item) ∈ (putServer (putServer (New 5) "y" 1) "x" 0).serverItems ∧
            ¬ (now - item.start > 5)) := by
  have hwf : WellFormed (putServer (New 5) "b" 0) :=
    wellFormed_putServer _ _ _ ⟨by simp [New], by simp [New]⟩
  have hitems : (putServer (putServer (New 5) "y" 1) "x" 0).serverItems
      = [("x", { Address := "x", start := 0 }), ("y", { Address := "y", start := 1 })] := by
    decide
  have hres : aliveServers (putServer (putServer (New 5) "y" 1) "x" 0)
        (fun k => if k = 0 then 4 else 6)
      = ({ timeOut := 5, serverItems := [("x", { Address := "x", start := 0 })] }, ["x"]) := by
    decide
  refine ⟨by decide, hwf, by decide, by decide, ?_, hitems, hres, ?_⟩
  · intro hall
    have h := (hall (putServer (New 5) "b" 0) 5 hwf (by decide) "b").mpr
      ⟨{ Address := "b", start := 0 }, by decide, by decide⟩
    revert h
    decide
  · rintro ⟨now, h⟩
    rw [hres, hitems] at h
    have hx := (h "x").mp (by simp)
    have hy := (h "y").not.mp (by decide)
    obtain ⟨item, hmem, hle⟩ := hx
    have hitem : item = { Address := "x", start := 0 } := by
      simp only [List.mem_cons, Prod.mk.injEq, List.mem_singleton, List.not_mem_nil,
        or_false] at hmem
      rcases hmem with ⟨_, e⟩ | ⟨e, _⟩
      · exact e
      · exact absurd e (by decide)
    subst hitem
    apply hy
    refine ⟨{ Address := "y", start := 1 }, by simp, ?_⟩
    simp only at hle ⊢
    omega

/-- C14, amended. For every registry state that `New` and `putServer` can
produce (no address twice, every item under its own address) and every positive
timeout, `aliveServers` reads the clock once for every entry and returns
exactly the addresses whose entry has an age below the timeout at the reading
taken for it (an entry is dead when `reading - start >= timeOut`), as a list
sorted ascending with no duplicates; afterwards the registry holds exactly the
entries of the returned addresses, each with its heartbeat time unchanged, and
the timeout is unchanged. When every reading of a query is the same `now`, the
returned addresses are exactly those with `now - start < timeOut`. When the
readings lie between `t0` and `t1`, every entry with `t1 - start < timeOut` is
returned and no entry with `t0 - start >= timeOut` is. -/
theorem aliveServers_returns_entries_within_timeout :
    (∀ t, WellFormed (New t)) ∧
    (∀ r addr now, WellFormed r → WellFormed (putServer r addr now)) ∧
    (∀ (r : Registry) (clock : Nat → Int), WellFormed r → 0 < r.timeOut →
      (∀ a, a ∈ (aliveServers r clock).2 ↔
        ∃ i item, r.serverItems[i]? = some (a, item) ∧ clock i - item.start < r.timeOut) ∧
      (aliveServers r clock).2.Pairwise (fun a b => strLe a b = true ∧ a ≠ b) ∧
      (∀ kv, kv ∈ (aliveServers r clock).1.serverItems ↔
        ∃ i, r.serverItems[i]? = some kv ∧ clock i - kv.2.start < r.timeOut) ∧
      (aliveServers r clock).1.serverItems.Sublist r.serverItems ∧
      (∀ a, a ∈ (aliveServers r clock).2 ↔
        a ∈ (aliveServers r clock).1.serverItems.map Prod.fst) ∧
      (aliveServers r clock).1.timeOut = r.timeOut ∧
      WellFormed (aliveServers r clock).1) ∧
    (∀ (r : Registry) (now : Int), WellFormed r → 0 < r.timeOut →
      (∀ a, a ∈ (aliveServers r (fun _ => now)).2 ↔
        ∃ item, (a, item) ∈ r.serverItems ∧ now - item.start < r.timeOut) ∧
      (aliveServers r (fun _ => now)).1.serverItems
        = r.serverItems.filter (fun kv => decide (now - kv.2.start < r.timeOut))) ∧
    (∀ (r : Registry) (clock : Nat → Int) (t0 t1 : Int), WellFormed r → 0 < r.timeOut →
      (∀ i, t0 ≤ clock i ∧ clock i ≤ t1) →
      ∀ a item, (a, item) ∈ r.serverItems →
        (t1 - item.start < r.timeOut → a ∈ (aliveServers r clock).2) ∧
        (r.timeOut ≤ t0 - item.start → a ∉ (aliveServers r clock).2)) ∧
    aliveServers (putServer (putServer (putServer (New 5) "c" 0) "a" 3) "b" 1) (fun _ => 5)
      = ({ timeOut := 5,
           serverItems := [("b", { Address := "b", start := 1 }),
                           ("a", { Address := "a", start := 3 })] },
         ["a", "b"]) ∧
    aliveServers (putServer (putServer (putServer (New 5) "c" 0) "a" 3) "b" 1)
        (fun k => if k = 0 then 4 else if k = 1 then 8 else 4)
      = ({ timeOut := 5,
           serverItems := [("b", { Address := "b", start := 1 }),
                           ("c", { Address := "c", start := 0 })] },
         ["b", "c"]) := by
  have hitems : ∀ (r : Registry) (clock : Nat → Int),
      (aliveServers r clock).1.serverItems
        = r.serverItems.filter
            (fun kv => decide (kv.1 ∉ deadKeys r.timeOut clock 0 r.serverItems)) := by
    intro r clock
    simp only [aliveServers, aliveLoop_eq]
  have hmemA : ∀ (r : Registry) (clock : Nat → Int), WellFormed r → 0 < r.timeOut →
      ∀ a, a ∈ (aliveServers r clock).2 ↔
        ∃ i item, r.serverItems[i]? = some (a, item) ∧ clock i - item.start < r.timeOut := by
    intro r clock hwf hpos a
    rw [mem_aliveServers_addrs r clock hwf a]
    simp only [isAlive_pos _ _ _ hpos]
  have hmemI : ∀ (r : Registry) (clock : Nat → Int), WellFormed r → 0 < r.timeOut →
      ∀ kv, kv ∈ (aliveServers r clock).1.serverItems ↔
        ∃ i, r.serverItems[i]? = some kv ∧ clock i - kv.2.start < r.timeOut := by
    intro r clock hwf hpos kv
    rw [mem_aliveServers_items r clock hwf kv]
    simp only [isAlive_pos _ _ _ hpos]
  refine ⟨?_, wellFormed_putServer, ?_, ?_, ?_, by decide, by decide⟩
  · intro t
    exact ⟨by simp [New], by simp [New]⟩
  · intro r clock hwf hpos
    have hsub : (aliveServers r clock).1.serverItems.Sublist r.serverItems := by
      rw [hitems]
      exact List.filter_sublist _
    refine ⟨hmemA r clock hwf hpos, ?_, hmemI r clock hwf hpos, hsub, ?_, rfl, ?_⟩
    · have hs : (aliveServers r clock).2.Pairwise (fun a b => strLe a b = true) := by
        simp only [aliveServers]
        exact sortStrings_sorted _
      exact hs.and (aliveServers_nodup r clock hwf)
    · intro a
      rw [hmemA r clock hwf hpos a, List.mem_map]
      constructor
      · rintro ⟨i, item, hi, hlt⟩
        exact ⟨(a, item), (hmemI r clock hwf hpos _).mpr ⟨i, hi, hlt⟩, rfl⟩
      · rintro ⟨kv, hkv, rfl⟩
        obtain ⟨i, hi, hlt⟩ := (hmemI r clock hwf hpos kv).mp hkv
        exact ⟨i, kv.2, hi, hlt⟩
    · refine ⟨hwf.1.sublist (hsub.map Prod.fst), ?_⟩
      intro kv hkv
      exact hwf.2 kv (hsub.subset hkv)
  · intro r now hwf hpos
    refine ⟨?_, ?_⟩
    · intro a
      rw [hmemA r (fun _ => now) hwf hpos a]
      constructor
      · rintro ⟨i, item, hi, hlt⟩
        exact ⟨item, List.getElem?_mem hi, hlt⟩
      · rintro ⟨item, hmem, hlt⟩
        obtain ⟨i, hi⟩ := List.mem_iff_getElem?.mp hmem
        exact ⟨i, item, hi, hlt⟩
    · rw [hitems]
      apply List.filter_congr
      intro kv hkv
      obtain ⟨i, hi⟩ := List.mem_iff_getElem?.mp hkv
      rw [Bool.eq_iff_iff]
      simp only [decide_eq_true_eq]
      rw [mem_deadKeys r (fun _ => now) hwf i kv hi, ← isAlive_pos _ _ _ hpos]
      simp
  · intro r clock t0 t1 hwf hpos hclock a item hmem
    obtain ⟨i, hi⟩ := List.mem_iff_getElem?.mp hmem
    refine ⟨?_, ?_⟩
    · intro hlt
      rw [hmemA r clock hwf hpos a]
      have := (hclock i).2
      exact ⟨i, item, hi, by omega⟩
    · intro hge hin
      obtain ⟨j, item2, hj, hlt⟩ := (hmemA r clock hwf hpos a).mp hin
      obtain ⟨_, e⟩ := index_unique r.serverItems hwf.1 i j (a, item) (a, item2) hi hj rfl
      have e2 : item = item2 := (Prod.mk.inj e).2
      subst e2
      have := (hclock j).1
      omega

end registry

namespace codec

/-- C15 (the code departs from the claim). `GobCodec.Write` registers its
deferred function after the two `return` statements of the failing calls of
`Encode`, and that function drops the result of `Flush`. So `Write` never closes
the connection, whatever fails: when the body cannot be encoded it returns the
error with the connection open, and when only the flush fails it returns nil
with nothing sent. What holds: `Write` returns nil exactly when the header and
then the body were encoded, it returns the error of the first `Encode` that
fails, and when the flush succeeds too the buffer, with the header followed by
the body at its end, has been sent. -/
theorem Write_never_closes_conn :
    (∀ (g : GobCodec) (env : WriteEnv) (header : Header) (body : Value),
      (g.Write env header body).1.connClosed = g.connClosed) ∧
    (GobCodec.Write { connClosed := false, buf := [], sent := [] }
        { headerErr := none, bodyErr := some "gob: type not registered", flushErr := none }
        { ServiceMethod := "Foo.Sum", Seq := 0, Err := "" } (Value.int 1))
      = ({ connClosed := false,
           buf := [Encoded.header { ServiceMethod := "Foo.Sum", Seq := 0, Err := "" }],
           sent := [] },
         some "gob: type not registered") ∧
    (GobCodec.Write { connClosed := false, buf := [], sent := [] }
        { headerErr := none, bodyErr := none, flushErr := some "broken pipe" }
        { ServiceMethod := "Foo.Sum", Seq := 0, Err := "" } (Value.int 1))
      = ({ connClosed := false,
           buf := [Encoded.header { ServiceMethod := "Foo.Sum", Seq := 0, Err := "" },
                   Encoded.body (Value.int 1)],
           sent := [] },
         none) ∧
    (∀ (g : GobCodec) (env : WriteEnv) (header : Header) (body : Value),
      ((g.Write env header body).2 = none ↔ env.headerErr = none ∧ env.bodyErr = none) ∧
      (∀ e, env.headerErr = some e → g.Write env header body = (g, some e)) ∧
      (∀ e, env.headerErr = none → env.bodyErr = some e →
        (g.Write env header body).2 = some e) ∧
      (env.headerErr = none → env.bodyErr = none → env.flushErr = none →
        g.Write env header body
          = ({ connClosed := g.connClosed, buf := [],
               sent := g.sent ++ (g.buf ++ [Encoded.header header, Encoded.body body]) },
             none))) := by
  refine ⟨?_, by decide, by decide, ?_⟩
  · intro g env header body
    obtain ⟨he, be, fe⟩ := env
    cases he <;> cases be <;> cases fe <;> simp [GobCodec.Write, writeDeferred]
  · intro g env header body
    obtain ⟨he, be, fe⟩ := env
    refine ⟨?_, ?_, ?_, ?_⟩
    · cases he <;> cases be <;> cases fe <;> simp [GobCodec.Write, writeDeferred]
    · intro e h
      simp only at h
      subst h
      simp [GobCodec.Write]
    · intro e h1 h2
      simp only at h1 h2
      subst h1 h2
      simp [GobCodec.Write]
    · intro h1 h2 h3
      simp only at h1 h2 h3
      subst h1 h2 h3
      simp [GobCodec.Write, writeDeferred]

end codec

namespace client

/-- The constructor `NewGobClient` returns no client with an error. -/
theorem NewGobClientOn_err (env : DialEnv) (conn : Conn) (opt : option.Option)
    (h : (NewGobClientOn env conn opt).err ≠ none) : (NewGobClientOn env conn opt).client = none := by
  unfold NewGobClientOn at h ⊢
  cases hm : mapLookup server.NewCodecFuncMap opt.CodecType with
  | none => rfl
  | some f =>
    cases he : env.encodeErr with
    | none => simp [hm, he] at h
    | some e => rfl

/-- The constructor `NewHTTPClient` returns no client with an error. -/
theorem NewHTTPClient_err (env : DialEnv) (conn : Conn) (opt : option.Option)
    (h : (NewHTTPClient env conn opt).err ≠ none) : (NewHTTPClient env conn opt).client = none := by
  unfold NewHTTPClient at h ⊢
  cases hr : env.response with
  | error e => rfl
  | ok status =>
    simp only [hr] at h ⊢
    by_cases hs : status = connected
    · simp only [hs, if_true] at h ⊢
      exact NewGobClientOn_err env _ opt h
    · simp [hs]

/-- The connection at the return of `dialTimeout`, once established: it is as
the constructor left it, or as `net.DialTimeout` made it when the timer fired
before the constructor had finished. -/
theorem dialTimeout_conn (newClient : Conn → option.Option → Built) (env : DialEnv)
    (network address : String) (opts : List (Option option.Option)) (opt : option.Option)
    (hp : parseOptions opts = some opt) (hd : env.dialErr = none) :
    (dialTimeout newClient env network address opts).conn
      = some (if opt.ConnectTimeOut ≠ 0 ∧ env.timerFirst = true ∧ env.constructorDone = false
          then { network := network, address := address, closed := false, written := [] }
          else (newClient { network := network, address := address, closed := false,
                            written := [] } opt).conn) := by
  simp only [dialTimeout, hp, hd, dialDeferred]
  by_cases h0 : opt.ConnectTimeOut = 0
  · simp [h0]
  · cases ht : env.timerFirst <;> cases hc : env.constructorDone <;> simp [h0]

/-- The client and the error that `dialTimeout` returns, once the connection is established. -/
theorem dialTimeout_result (newClient : Conn → option.Option → Built) (env : DialEnv)
    (network address : String) (opts : List (Option option.Option)) (opt : option.Option)
    (hp : parseOptions opts = some opt) (hd : env.dialErr = none) :
    ((dialTimeout newClient env network address opts).client,
     (dialTimeout newClient env network address opts).err)
      = if opt.ConnectTimeOut ≠ 0 ∧ env.timerFirst = true
          then (none, some "client get response timeout")
          else ((newClient { network := network, address := address, closed := false,
                             written := [] } opt).client,
                (newClient { network := network, address := address, closed := false,
                             written := [] } opt).err) := by
  simp only [dialTimeout, hp, hd]
  by_cases h0 : opt.ConnectTimeOut = 0
  · simp [h0]
  · cases ht : env.timerFirst <;> simp [h0]

/-- C16 (the code departs from the claim). The function deferred in
`dialTimeout` tests the variable `err` of `net.DialTimeout`, which is nil once
the connection is established and which the later `return` statements do not
set, so `dialTimeout` never closes the connection. When the constructor returns
an error that is no failure of encoding the options (here: an unsupported codec
type with `Dial`, a failed HTTP response with `DialHTTP`), or when the timer
fires first, `dialTimeout` returns a nil client and an error with the
connection still open. In general the connection at the return is as the
constructor left it, or as `net.DialTimeout` made it when the timer fired
before the constructor had finished. What holds: with an error, `Dial` and
`DialHTTP` return a nil client, and with `ConnectTimeOut = 0` the result of the
constructor is returned. -/
theorem dialTimeout_leaves_conn_open :
    (Dial { dialErr := none, encodeErr := none, response := Except.ok connected,
            timerFirst := false, constructorDone := true } "tcp" "localhost:8001"
        [some { MagicNumber := option.MagicNumber, CodecType := "JsonType",
                ConnectTimeOut := 0, HandleTimeOut := 0 }])
      = { client := none, err := some "UnSupported Codec Type",
          conn := some { network := "tcp", address := "localhost:8001", closed := false,
                         written := [] } } ∧
    (Dial { dialErr := none, encodeErr := none, response := Except.ok connected,
            timerFirst := true, constructorDone := false } "tcp" "localhost:8001"
        [some { MagicNumber := option.MagicNumber, CodecType := GobType,
                ConnectTimeOut := 1000000000, HandleTimeOut := 0 }])
      = { client := none, err := some "client get response timeout",
          conn := some { network := "tcp", address := "localhost:8001", closed := false,
                         written := [] } } ∧
    (DialHTTP { dialErr := none, encodeErr := none, response := Except.error "unexpected EOF",
                timerFirst := false, constructorDone := true } "tcp" "localhost:8001" [])
      = { client := none, err := some "unexpected EOF",
          conn := some { network := "tcp", address := "localhost:8001", closed := false,
                         written := [Sent.text "CONNECT /_rpc_ HTTP/1.0\n\n"] } } ∧
    (∀ (newClient : Conn → option.Option → Built) (env : DialEnv) (network address : String)
        (opts : List (Option option.Option)) (opt : option.Option),
      parseOptions opts = some opt → env.dialErr = none →
      (dialTimeout newClient env network address opts).conn
        = some (if opt.ConnectTimeOut ≠ 0 ∧ env.timerFirst = true ∧ env.constructorDone = false
            then { network := network, address := address, closed := false, written := [] }
            else (newClient { network := network, address := address, closed := false,
                              written := [] } opt).conn)) ∧
    (∀ (env : DialEnv) (network address : String) (opts : List (Option option.Option)),
      ((Dial env network address opts).err ≠ none → (Dial env network address opts).client = none) ∧
      ((DialHTTP env network address opts).err ≠ none →
        (DialHTTP env network address opts).client = none)) ∧
    (∀ (newClient : Conn → option.Option → Built) (env : DialEnv) (network address : String)
        (opts : List (Option option.Option)) (opt : option.Option),
      parseOptions opts = some opt → env.dialErr = none → opt.ConnectTimeOut = 0 →
      (dialTimeout newClient env network address opts).client
        = (newClient { network := network, address := address, closed := false,
                       written := [] } opt).client ∧
      (dialTimeout newClient env network address opts).err
        = (newClient { network := network, address := address, closed := false,
                       written := [] } opt).err) := by
  have herr : ∀ (newClient : Conn → option.Option → Built)
      (hnew : ∀ conn opt, (newClient conn opt).err ≠ none → (newClient conn opt).client = none)
      (env : DialEnv) (network address : String) (opts : List (Option option.Option)),
      (dialTimeout newClient env network address opts).err ≠ none →
        (dialTimeout newClient env network address opts).client = none := by
    intro newClient hnew env network address opts
    unfold dialTimeout
    cases parseOptions opts with
    | none => intro _; rfl
    | some opt =>
      cases env.dialErr with
      | some e => intro _; rfl
      | none =>
        simp only
        by_cases h0 : opt.ConnectTimeOut = 0
        · simp only [h0, if_true]
          exact hnew _ _
        · simp only [h0, if_false]
          cases env.timerFirst
          · simp only [Bool.false_eq_true, if_false]
            exact hnew _ _
          · simp
  refine ⟨rfl, rfl, rfl, dialTimeout_conn, ?_, ?_⟩
  · intro env network address opts
    exact ⟨herr _ (NewGobClientOn_err env) env network address opts,
      herr _ (NewHTTPClient_err env) env network address opts⟩
  · intro newClient env network address opts opt hp hd h0
    have h := dialTimeout_result newClient env network address opts opt hp hd
    simp only [h0, ne_eq, not_true_eq_false, false_and, if_false, Prod.mk.injEq] at h
    exact h


/-- A string without the separator is one piece. -/
theorem splitChars_no_sep (sep : Char) (l : List Char) (h : sep ∉ l) :
    server.splitChars sep l = [l] := by
  induction l with
  | nil => rfl
  | cons ch rest ih =>
    have h1 : ¬ ch = sep := fun e => h (by simp [e])
    have h2 : sep ∉ rest := fun e => h (List.mem_cons_of_mem _ e)
    simp [server.splitChars, h1, ih h2]

/-- Two strings without the separator, joined by it, are two pieces. -/
theorem splitChars_two (sep : Char) (p a : List Char) (hp : sep ∉ p) (ha : sep ∉ a) :
    server.splitChars sep (p ++ sep :: a) = [p, a] := by
  induction p with
  | nil => simp [server.splitChars, splitChars_no_sep sep a ha]
  | cons ch rest ih =>
    have h1 : ¬ ch = sep := fun e => hp (by simp [e])
    have h2 : sep ∉ rest := fun e => hp (List.mem_cons_of_mem _ e)
    simp [server.splitChars, h1, ih h2]

/-- The number of pieces is the number of separators plus one. -/
theorem splitChars_length (sep : Char) (l : List Char) :
    (server.splitChars sep l).length = l.count sep + 1 := by
  induction l with
  | nil => rfl
  | cons ch rest ih =>
    by_cases h1 : ch = sep
    · simp [server.splitChars, h1, ih]
    · have h2 : (ch == sep) = false := by simpa using h1
      cases hs : server.splitChars sep rest with
      | nil => simp [hs] at ih
      | cons piece pieces =>
        simp only [server.splitChars, h1, if_false, hs, List.length_cons, List.count_cons, h2,
          Bool.false_eq_true]
        rw [hs] at ih
        simpa using ih

/-- The split of `proto ++ "@" ++ address` when neither part holds an `@`. -/
theorem Split_two (proto address : String) (hp : '@' ∉ proto.data) (ha : '@' ∉ address.data) :
    server.Split (proto ++ "@" ++ address) '@' = [proto, address] := by
  have hd : (proto ++ "@" ++ address).data = proto.data ++ '@' :: address.data := by
    simp [String.data_append]
  simp [server.Split, hd, splitChars_two '@' _ _ hp ha]

/-- The dispatch of `XDial` on a split of two parts. -/
theorem XDial_split (env : DialEnv) (rpcAddr proto address : String)
    (opts : List (Option option.Option)) (h : server.Split rpcAddr '@' = [proto, address]) :
    XDial env rpcAddr opts
      = if proto = "http" then DialHTTP env "tcp" address opts
        else Dial env proto address opts := by
  simp only [XDial, h]

/-- The HTTP dial with no timeout: the connection goes over `network` to
`address`, the `CONNECT` request is written first, and the client is built,
after the options have been sent, only when the response has the status
`connected`. -/
theorem DialHTTP_no_timeout (env : DialEnv) (network address : String)
    (opts : List (Option option.Option)) (opt : option.Option)
    (hp : parseOptions opts = some opt) (h0 : opt.ConnectTimeOut = 0)
    (hd : env.dialErr = none) :
    DialHTTP env network address opts
      = match env.response with
        | Except.error e =>
          { client := none, err := some e,
            conn := some { network := network, address := address, closed := false,
                           written := [Sent.text "CONNECT /_rpc_ HTTP/1.0\n\n"] } }
        | Except.ok status =>
          if status = "200 Connected to Gee RPC" then
            if opt.CodecType = "GobType" then
              match env.encodeErr with
              | some _ =>
                { client := none, err := some "EnCode opt fail",
                  conn := some { network := network, address := address, closed := true,
                                 written := [Sent.text "CONNECT /_rpc_ HTTP/1.0\n\n"] } }
              | none =>
                { client := some NewGobClient, err := none,
                  conn := some { network := network, address := address, closed := false,
                                 written := [Sent.text "CONNECT /_rpc_ HTTP/1.0\n\n",
                                             Sent.preamble opt] } }
            else
              { client := none, err := some "UnSupported Codec Type",
                conn := some { network := network, address := address, closed := false,
                               written := [Sent.text "CONNECT /_rpc_ HTTP/1.0\n\n"] } }
          else
            { client := none, err := some ("unexpected HTTP response:" ++ status),
              conn := some { network := network, address := address, closed := false,
                             written := [Sent.text "CONNECT /_rpc_ HTTP/1.0\n\n"] } } := by
  have htext : "CONNECT " ++ defaultRPCPath ++ " HTTP/1.0\n\n" = "CONNECT /_rpc_ HTTP/1.0\n\n" := by
    decide
  simp only [DialHTTP, dialTimeout, hp, hd, h0, if_true, dialDeferred, NewHTTPClient, htext]
  cases hr : env.response with
  | error e => simp
  | ok status =>
    by_cases hs : status = connected
    · have hs2 : status = "200 Connected to Gee RPC" := hs
      simp only [hs, if_true, NewGobClientOn, server.NewCodecFuncMap, mapLookup]
      by_cases hc : opt.CodecType = GobType
      · have hc2 : opt.CodecType = "GobType" := hc
        have hc3 : GobType = opt.CodecType := hc.symm
        cases he : env.encodeErr <;> simp [hc2, hc3, connected]
      · have hc2 : ¬ opt.CodecType = "GobType" := hc
        have hc3 : ¬ GobType = opt.CodecType := fun e => hc e.symm
        simp [hc2, hc3, connected]
    · have hs2 : ¬ status = "200 Connected to Gee RPC" := hs
      simp [hs, hs2]

/-- The raw dial with no timeout: the connection goes over `network` to
`address`, and the client is built after the options have been sent; no
`CONNECT` request is written. -/
theorem Dial_no_timeout (env : DialEnv) (network address : String)
    (opts : List (Option option.Option)) (opt : option.Option)
    (hp : parseOptions opts = some opt) (h0 : opt.ConnectTimeOut = 0)
    (hd : env.dialErr = none) :
    Dial env network address opts
      = if opt.CodecType = "GobType" then
          match env.encodeErr with
          | some _ =>
            { client := none, err := some "EnCode opt fail",
              conn := some { network := network, address := address, closed := true,
                             written := [] } }
          | none =>
            { client := some NewGobClient, err := none,
              conn := some { network := network, address := address, closed := false,
                             written := [Sent.preamble opt] } }
        else
          { client := none, err := some "UnSupported Codec Type",
            conn := some { network := network, address := address, closed := false,
                           written := [] } } := by
  simp only [Dial, dialTimeout, hp, hd, h0, if_true, dialDeferred, NewGobClientOn,
    server.NewCodecFuncMap, mapLookup]
  by_cases hc : opt.CodecType = GobType
  · have hc2 : opt.CodecType = "GobType" := hc
    have hc3 : GobType = opt.CodecType := hc.symm
    cases he : env.encodeErr <;> simp [hc2, hc3]
  · have hc2 : ¬ opt.CodecType = "GobType" := hc
    have hc3 : ¬ GobType = opt.CodecType := fun e => hc e.symm
    simp [hc2, hc3]

/-- The constructors leave the network and the address of the connection as they are. -/
theorem constructors_keep_endpoint (env : DialEnv) (conn : Conn) (opt : option.Option) :
    ((NewGobClientOn env conn opt).conn.network = conn.network ∧
      (NewGobClientOn env conn opt).conn.address = conn.address) ∧
    ((NewHTTPClient env conn opt).conn.network = conn.network ∧
      (NewHTTPClient env conn opt).conn.address = conn.address) := by
  have hg : ∀ conn : Conn, (NewGobClientOn env conn opt).conn.network = conn.network ∧
      (NewGobClientOn env conn opt).conn.address = conn.address := by
    intro conn
    unfold NewGobClientOn
    cases mapLookup server.NewCodecFuncMap opt.CodecType with
    | none => exact ⟨rfl, rfl⟩
    | some f => cases env.encodeErr <;> exact ⟨rfl, rfl⟩
  refine ⟨hg conn, ?_⟩
  unfold NewHTTPClient
  cases env.response with
  | error e => exact ⟨rfl, rfl⟩
  | ok status =>
    simp only
    split
    · exact hg _
    · exact ⟨rfl, rfl⟩

/-- The endpoint of the connection of a dial: `dialTimeout` connects over
`network` to `address`, whatever happens afterwards. -/
theorem dialTimeout_endpoint (newClient : Conn → option.Option → Built) (env : DialEnv)
    (network address : String) (opts : List (Option option.Option)) (opt : option.Option)
    (hnew : ∀ conn, (newClient conn opt).conn.network = conn.network ∧
      (newClient conn opt).conn.address = conn.address)
    (hp : parseOptions opts = some opt) (hd : env.dialErr = none) :
    ∃ c, (dialTimeout newClient env network address opts).conn = some c ∧
      c.network = network ∧ c.address = address := by
  rw [dialTimeout_conn newClient env network address opts opt hp hd]
  split
  · exact ⟨_, rfl, rfl, rfl⟩
  · exact ⟨_, rfl, hnew _⟩

/-- C17. For every string `rpcAddr`, `XDial` returns the format error and
makes no connection when the split of `rpcAddr` at "@" does not have exactly
two parts, that is when `rpcAddr` does not hold exactly one "@" (so for
"a@b@c" and for a string without "@"); when the split is `[proto, address]`
it returns the result of `DialHTTP("tcp", address)` for `proto` = "http" and
the result of `Dial(proto, address)` for every other `proto`, unchanged. For
"http@" followed by an address the connection is made over "tcp" to the
address (or the error of the dial is returned and there is no connection), the
`CONNECT` request is written first, and the client is returned, after the
options have been sent, exactly when the response has the status "200
Connected to Gee RPC"; another status or a failed response gives that error
and no client. For every other `proto` the connection is made over the
network `proto` to the address and the options are sent with no `CONNECT`
request before them. So "http@localhost:8001" gives a client on a "tcp"
connection to "localhost:8001", and "unix@/tmp/geerpc.sock" a client on a
"unix" connection to "/tmp/geerpc.sock", when the dial and the sending
succeed. -/
theorem XDial_dispatches_on_protocol :
    (∀ (env : DialEnv) (rpcAddr : String) (opts : List (Option option.Option)),
      (server.Split rpcAddr '@').length ≠ 2 →
      XDial env rpcAddr opts
        = { client := none,
            err := some ("rpc client err: wrong format '" ++ rpcAddr ++ "', expect protocol@addr"),
            conn := none }) ∧
    (∀ (rpcAddr : String), (server.Split rpcAddr '@').length = rpcAddr.data.count '@' + 1) ∧
    (∀ (env : DialEnv) (rpcAddr proto address : String) (opts : List (Option option.Option)),
      server.Split rpcAddr '@' = [proto, address] →
      XDial env rpcAddr opts
        = if proto = "http" then DialHTTP env "tcp" address opts
          else Dial env proto address opts) ∧
    (∀ (env : DialEnv) (address : String) (opts : List (Option option.Option)),
      '@' ∉ address.data →
      XDial env ("http" ++ "@" ++ address) opts = DialHTTP env "tcp" address opts) ∧
    (∀ (env : DialEnv) (proto address : String) (opts : List (Option option.Option)),
      '@' ∉ proto.data → '@' ∉ address.data → proto ≠ "http" →
      XDial env (proto ++ "@" ++ address) opts = Dial env proto address opts) ∧
    (∀ (env : DialEnv) (address : String) (opts : List (Option option.Option))
        (opt : option.Option),
      '@' ∉ address.data → parseOptions opts = some opt →
      (∀ e, env.dialErr = some e →
        XDial env ("http" ++ "@" ++ address) opts
          = { client := none, err := some e, conn := none }) ∧
      (env.dialErr = none →
        ∃ c, (XDial env ("http" ++ "@" ++ address) opts).conn = some c ∧
          c.network = "tcp" ∧ c.address = address) ∧
      (env.dialErr = none → opt.ConnectTimeOut = 0 →
        (∀ e, env.response = Except.error e →
          XDial env ("http" ++ "@" ++ address) opts
            = { client := none, err := some e,
                conn := some { network := "tcp", address := address, closed := false,
                               written := [Sent.text "CONNECT /_rpc_ HTTP/1.0\n\n"] } }) ∧
        (∀ status, env.response = Except.ok status → status ≠ "200 Connected to Gee RPC" →
          XDial env ("http" ++ "@" ++ address) opts
            = { client := none, err := some ("unexpected HTTP response:" ++ status),
                conn := some { network := "tcp", address := address, closed := false,
                               written := [Sent.text "CONNECT /_rpc_ HTTP/1.0\n\n"] } }) ∧
        (env.response = Except.ok "200 Connected to Gee RPC" → opt.CodecType = "GobType" →
          env.encodeErr = none →
          XDial env ("http" ++ "@" ++ address) opts
            = { client := some NewGobClient, err := none,
                conn := some { network := "tcp", address := address, closed := false,
                               written := [Sent.text "CONNECT /_rpc_ HTTP/1.0\n\n",
                                           Sent.preamble opt] } }))) ∧
    (∀ (env : DialEnv) (proto address : String) (opts : List (Option option.Option))
        (opt : option.Option),
      '@' ∉ proto.data → '@' ∉ address.data → proto ≠ "http" → parseOptions opts = some opt →
      (∀ e, env.dialErr = some e →
        XDial env (proto ++ "@" ++ address) opts
          = { client := none, err := some e, conn := none }) ∧
      (env.dialErr = none →
        ∃ c, (XDial env (proto ++ "@" ++ address) opts).conn = some c ∧
          c.network = proto ∧ c.address = address) ∧
      (env.dialErr = none → opt.ConnectTimeOut = 0 → opt.CodecType = "GobType" →
        env.encodeErr = none →
        XDial env (proto ++ "@" ++ address) opts
          = { client := some NewGobClient, err := none,
              conn := some { network := proto, address := address, closed := false,
                             written := [Sent.preamble opt] } })) ∧
    (XDial { dialErr := none, encodeErr := none, response := Except.ok connected,
             timerFirst := false, constructorDone := true } "unix@/tmp/geerpc.sock" [])
      = { client := some NewGobClient, err := none,
          conn := some { network := "unix", address := "/tmp/geerpc.sock", closed := false,
                         written := [Sent.preamble option.DefaultOption] } } ∧
    (XDial { dialErr := none, encodeErr := none,
             response := Except.ok "200 Connected to Gee RPC",
             timerFirst := false, constructorDone := true } "http@localhost:8001" [])
      = { client := some NewGobClient, err := none,
          conn := some { network := "tcp", address := "localhost:8001", closed := false,
                         written := [Sent.text "CONNECT /_rpc_ HTTP/1.0\n\n",
                                     Sent.preamble option.DefaultOption] } } ∧
    (XDial { dialErr := none, encodeErr := none, response := Except.ok "404 Not Found",
             timerFirst := false, constructorDone := true } "http@localhost:8001" [])
      = { client := none, err := some "unexpected HTTP response:404 Not Found",
          conn := some { network := "tcp", address := "localhost:8001", closed := false,
                         written := [Sent.text "CONNECT /_rpc_ HTTP/1.0\n\n"] } } ∧
    (XDial { dialErr := some "dial tcp: connection refused", encodeErr := none,
             response := Except.ok connected, timerFirst := false, constructorDone := true }
        "http@localhost:8001" [])
      = { client := none, err := some "dial tcp: connection refused", conn := none } ∧
    (XDial { dialErr := none, encodeErr := none, response := Except.ok connected,
             timerFirst := false, constructorDone := true } "a@b@c" [])
      = { client := none,
          err := some "rpc client err: wrong format 'a@b@c', expect protocol@addr",
          conn := none } ∧
    (XDial { dialErr := none, encodeErr := none, response := Except.ok connected,
             timerFirst := false, constructorDone := true } "localhost:8001" [])
      = { client := none,
          err := some "rpc client err: wrong format 'localhost:8001', expect protocol@addr",
          conn := none } := by
  have hhttp : ∀ (env : DialEnv) (address : String) (opts : List (Option option.Option)),
      '@' ∉ address.data →
      XDial env ("http" ++ "@" ++ address) opts = DialHTTP env "tcp" address opts := by
    intro env address opts ha
    rw [XDial_split env _ "http" address opts (Split_two "http" address (by decide) ha)]
    simp
  have hraw : ∀ (env : DialEnv) (proto address : String) (opts : List (Option option.Option)),
      '@' ∉ proto.data → '@' ∉ address.data → proto ≠ "http" →
      XDial env (proto ++ "@" ++ address) opts = Dial env proto address opts := by
    intro env proto address opts hp ha hne
    rw [XDial_split env _ proto address opts (Split_two proto address hp ha)]
    simp [hne]
  refine ⟨?_, ?_, XDial_split, hhttp, hraw, ?_, ?_, rfl, rfl, rfl, rfl, rfl, rfl⟩
  · intro env rpcAddr opts h
    unfold XDial
    split
    · rename_i proto address heq
      rw [heq] at h
      simp at h
    · rfl
  · intro rpcAddr
    simp [server.Split, splitChars_length]
  · intro env address opts opt ha hp
    rw [hhttp env address opts ha]
    refine ⟨?_, ?_, ?_⟩
    · intro e hd
      simp [DialHTTP, dialTimeout, hp, hd]
    · intro hd
      exact dialTimeout_endpoint _ env "tcp" address opts opt
        (fun conn => (constructors_keep_endpoint env conn opt).2) hp hd
    · intro hd h0
      rw [DialHTTP_no_timeout env "tcp" address opts opt hp h0 hd]
      refine ⟨?_, ?_, ?_⟩
      · intro e hr
        simp [hr]
      · intro status hr hs
        simp [hr, hs]
      · intro hr hc he
        simp [hr, hc, he]
  · intro env proto address opts opt hpr ha hne hp
    rw [hraw env proto address opts hpr ha hne]
    refine ⟨?_, ?_, ?_⟩
    · intro e hd
      simp [Dial, dialTimeout, hp, hd]
    · intro hd
      exact dialTimeout_endpoint _ env proto address opts opt
        (fun conn => (constructors_keep_endpoint env conn opt).1) hp hd
    · intro hd h0 hc he
      rw [Dial_no_timeout env proto address opts opt hp h0 hd]
      simp [hc, he]

/-- The flag `ShutDown` and the calls outside `Pending` after the loop of
`terminateCalls`: a call that is not in `Pending` is untouched. -/
theorem terminate_fold_other (err : Error) (ps : List (Nat × Nat)) (calls : List Call)
    (q : Nat) (h : q ∉ ps.map Prod.snd) :
    (ps.foldl (fun calls kv => Done (setErr calls kv.2 err) kv.2) calls)[q]? = calls[q]? := by
  induction ps generalizing calls with
  | nil => rfl
  | cons kv rest ih =>
    simp only [List.map_cons, List.mem_cons, not_or] at h
    rw [List.foldl_cons, ih _ h.2]
    have hg := signal_getElem calls kv.2 q (fun k => { k with Err := some err })
    have hg2 : (Done (setErr calls kv.2 err) kv.2)[q]?
        = if q = kv.2 then (calls[q]?).map
            (fun k => { ({ k with Err := some err } : Call) with
              done := ({ k with Err := some err } : Call).done + 1 })
          else calls[q]? := hg
    rw [hg2, if_neg h.1]

/-- The loop of `terminateCalls` gives `err` to every call of `Pending` and
changes nothing else of it but the count of completions. -/
theorem terminate_fold_err (err : Error) (ps : List (Nat × Nat)) (calls : List Call)
    (q : Nat) (c0 : Call) (hq : q ∈ ps.map Prod.snd) (h0 : calls[q]? = some c0) :
    (ps.foldl (fun calls kv => Done (setErr calls kv.2 err) kv.2) calls)[q]?
      = some { c0 with Err := some err, done := c0.done + (ps.map Prod.snd).count q } := by
  induction ps generalizing calls c0 with
  | nil => simp at hq
  | cons kv rest ih =>
    rw [List.foldl_cons]
    have hg : (Done (setErr calls kv.2 err) kv.2)[q]?
        = if q = kv.2 then (calls[q]?).map
            (fun k => { ({ k with Err := some err } : Call) with
              done := ({ k with Err := some err } : Call).done + 1 })
          else calls[q]? := signal_getElem calls kv.2 q (fun k => { k with Err := some err })
    by_cases hk : q = kv.2
    · rw [if_pos hk, h0] at hg
      by_cases hr : q ∈ rest.map Prod.snd
      · rw [ih _ _ hr hg]
        simp only [List.map_cons, List.count_cons, ← hk, beq_self_eq_true, if_true]
        rw [Nat.add_right_comm]
        rfl
      · rw [terminate_fold_other err rest _ q hr, hg]
        simp only [List.map_cons, List.count_cons, ← hk, beq_self_eq_true, if_true,
          List.count_eq_zero_of_not_mem hr, Option.map_some']
    · rw [if_neg hk, h0] at hg
      have hr : q ∈ rest.map Prod.snd := by
        simp only [List.map_cons, List.mem_cons] at hq
        rcases hq with e | e
        · exact absurd e hk
        · exact e
      rw [ih _ _ hr hg]
      have hb : (kv.2 == q) = false := by
        simp only [beq_eq_false_iff_ne, ne_eq]
        exact fun e => hk e.symm
      simp [List.count_cons, hb]

/-- A client that is shut down stays shut down under every step. -/
theorem step_ShutDown (Errorf : String → Error) (w : World) (ev : Event)
    (h : w.c.ShutDown = true) : (step Errorf w ev).c.ShutDown = true := by
  have hv : ∀ c : Client, c.ShutDown = true → IsValid c = false := by
    intro c hc
    simp [IsValid, hc]
  cases ev with
  | go sm args reply =>
    simp only [step]
    split
    · exact h
    · simp only [Go, sendRegister, registerCall]
      rw [hv _ (by simpa using h)]
      simpa using h
  | written err =>
    simp only [step, sendWritten]
    cases w.sending with
    | none => exact h
    | some cs =>
      cases err with
      | none => exact h
      | some e =>
        simp only [removeCall]
        cases mapLookup w.c.Pending cs.2 <;> exact h
  | recv hdr body =>
    simp only [step]
    split
    · cases hdr with
      | error e => exact h
      | ok header =>
        simp only [receiveIter, removeCall]
        cases mapLookup w.c.Pending header.Seq with
        | none => cases body <;> exact h
        | some call =>
          simp only
          split <;> cases body <;> exact h
    · exact h
  | terminate =>
    simp only [step]
    split
    · split
      · exact h
      · simp [terminateCalls]
    · exact h
  | close err =>
    simp [step, Close, h]

/-- A client that is shut down stays shut down in every run. -/
theorem exec_ShutDown (Errorf : String → Error) (evs : List Event) (w : World)
    (h : w.c.ShutDown = true) : (exec Errorf w evs).c.ShutDown = true := by
  induction evs generalizing w with
  | nil => exact h
  | cons ev rest ih =>
    simp only [exec, List.foldl_cons]
    exact ih _ (step_ShutDown Errorf w ev h)


/-- C18. For every client state and every error `err`, after
`terminateCalls(err)` the flag `ShutDown` is true, so `IsValid` is false; every
call that was in `Pending` has `Err = err` and has been sent on its done
channel (once for each of its keys in `Pending`; the send is taken to complete,
the channel being buffered), its other fields and the calls outside `Pending`
being untouched, as are `Seq` and `Pending`; and every `registerCall`
afterwards, at once or after any further steps of the client, returns an error
and changes nothing, so `Seq` and `Pending` stay as they are. -/
theorem terminateCalls_shuts_down :
    (∀ (w : World) (err : Error),
      (terminateCalls w err).c.ShutDown = true ∧
      IsValid (terminateCalls w err).c = false ∧
      (terminateCalls w err).c.Seq = w.c.Seq ∧
      (terminateCalls w err).c.Pending = w.c.Pending ∧
      (∀ (seq p : Nat) (c0 : Call), (seq, p) ∈ w.c.Pending → w.calls[p]? = some c0 →
        (terminateCalls w err).calls[p]?
            = some { c0 with Err := some err,
                             done := c0.done + (w.c.Pending.map Prod.snd).count p } ∧
          0 < (w.c.Pending.map Prod.snd).count p) ∧
      (∀ q : Nat, q ∉ w.c.Pending.map Prod.snd →
        (terminateCalls w err).calls[q]? = w.calls[q]?) ∧
      (∀ call : Nat,
        registerCall (terminateCalls w err) call
          = (terminateCalls w err, Except.error "register fail,the conn is closed")) ∧
      (∀ (Errorf : String → Error) (evs : List Event) (call : Nat),
        registerCall (exec Errorf (terminateCalls w err) evs) call
          = (exec Errorf (terminateCalls w err) evs,
             Except.error "register fail,the conn is closed"))) ∧
    (terminateCalls (Go NewGobClient "Foo.Sum" (Value.int 1) (Value.int 0)) "EOF").c
      = { Seq := 1, Pending := [(0, 0)],
          header := { ServiceMethod := "Foo.Sum", Seq := 0, Err := "" },
          Closing := false, ShutDown := true } ∧
    (Go NewGobClient "Foo.Sum" (Value.int 1) (Value.int 0)).calls
      = [{ ServiceMethod := "Foo.Sum", Args := Value.int 1, Seq := 0, done := 0, Err := none,
           Reply := Value.int 0 }] ∧
    (terminateCalls (Go NewGobClient "Foo.Sum" (Value.int 1) (Value.int 0)) "EOF").calls
      = [{ ServiceMethod := "Foo.Sum", Args := Value.int 1, Seq := 0, done := 1,
           Err := some "EOF", Reply := Value.int 0 }] := by
  have hreg : ∀ (w : World) (call : Nat), w.c.ShutDown = true →
      registerCall w call = (w, Except.error "register fail,the conn is closed") := by
    intro w call h
    simp [registerCall, IsValid, h]
  refine ⟨?_, by decide, by decide, by decide⟩
  intro w err
  refine ⟨rfl, by simp [IsValid, terminateCalls], rfl, rfl, ?_, ?_, ?_, ?_⟩
  · intro seq p c0 hmem h0
    have hp : p ∈ w.c.Pending.map Prod.snd := List.mem_map.mpr ⟨(seq, p), hmem, rfl⟩
    exact ⟨terminate_fold_err err w.c.Pending w.calls p c0 hp h0, List.count_pos_iff.mpr hp⟩
  · intro q hq
    exact terminate_fold_other err w.c.Pending w.calls q hq
  · intro call
    exact hreg _ call rfl
  · intro Errorf evs call
    exact hreg _ call (exec_ShutDown Errorf evs _ rfl)

end client

end Rpc
